import Mathlib

/-!
# LineageLib: repeated-trial statistics, aggregation and abnormality scanning

A shallow embedding of `LineageUI/backend/LineageLib.cpp`.

Modelling conventions.

* The `statistics` lambda is embedded twice.  `FloatOps.statistics` follows the source to
  the letter: the arithmetic of `float` is a parameter `A : FloatOps α` (operations that may
  round and overflow; `binary32` is IEEE 754 single precision, `FloatOps.exact` the
  arithmetic of an ordered field), element access is unchecked (a read outside the vector
  yields what the memory holds, a parameter `junk`), and `size_t` arithmetic is modulo
  `2 ^ 64`.  `statistics` is its reading in exact arithmetic with every element access
  checked; on a non-empty vector the two agree (`statistics_eq_exact`).
* That an operation of `float` does not round is stated through a map `φ` from `float`
  values to the numbers they stand for (`F32.toRat` for `binary32`): the operation is exact
  on given operands when `φ` of its result is the result of the operation on the numbers
  (`FloatOps.MeanExact`, `FloatOps.StdevExact`, `FloatOps.AverageExact`).
* In the entry points `float` values are elements of a linearly ordered field `α` (exact
  arithmetic); `std::sqrt` is a parameter `sqrt : α → α`.
* `vector<T>` is `List T`.  In the entry points element access `vec[i]` is checked: an index
  outside the vector is a failure (`none`), so a function that reads elements returns
  `Option`, and that it never fails is a proof obligation.
* In the read-checked functions `size_t` index arithmetic is done in `Nat`; on every path
  that reaches a subtraction the minuend is positive, so no wrap-around occurs.
* `linux_problem::to_string` at type `float` (the stream rendering of a number) is a parameter
  `fmt : α → String`.
* `unsigned int` counts are `Nat` with explicit reduction modulo `2 ^ 32` on addition.
* `map<string, unsigned int>` is the list of its entries in iteration (ascending key) order.
* A thrown `string` is `Except.error`; the simulator object is an explicit state that is
  threaded through the calls.
-/

namespace LineageLib

/-! ## Definitions -/

section Statistics

variable {α : Type} [LinearOrderedField α]

/-- The `statistics` lambda of `checkTimeOverlap` (source lines 97-112).  It sorts the vector
in place and returns `{min, max, mean, stdev, q1, median, q3}`; the result pairs the sorted
vector (the new contents of the by-reference argument) with the returned vector.  Any element
access outside the vector makes the call fail. -/
def statistics (sqrt : α → α) (vec : List α) : Option (List α × List α) := do
  let vec := vec.insertionSort (· ≤ ·)
  let min ← vec[0]?
  let max ← vec[vec.length - 1]?
  let mean := vec.foldl (· + ·) 0 / (vec.length : α)
  let accum := vec.foldl (fun accum f => accum + (f - mean) * (f - mean)) 0
  let stdev := sqrt (accum / (vec.length : α))
  let q1 ← if vec.length % 4 ≠ 0 then vec[vec.length / 4]?
    else do
      let a ← vec[vec.length / 4 - 1]?
      let b ← vec[vec.length / 4]?
      pure ((a + b) / 2)
  let median ← if vec.length % 2 ≠ 0 then vec[vec.length / 2]?
    else do
      let a ← vec[vec.length / 2 - 1]?
      let b ← vec[vec.length / 2]?
      pure ((a + b) / 2)
  let q3 ← if vec.length % 4 ≠ 0 then vec[3 * vec.length / 4]?
    else do
      let a ← vec[3 * vec.length / 4 - 1]?
      let b ← vec[3 * vec.length / 4]?
      pure ((a + b) / 2)
  pure (vec, [min, max, mean, stdev, q1, median, q3])

/-- Auxiliary (proof side): the mean as `statistics` accumulates it over the sorted vector. -/
def sortedMean (s : List α) : α := s.foldl (· + ·) 0 / (s.length : α)

/-- Auxiliary (proof side): the `stdev` expression of `statistics` over the sorted vector. -/
def sortedStdev (sqrt : α → α) (s : List α) : α :=
  sqrt (s.foldl (fun accum f => accum + (f - sortedMean s) * (f - sortedMean s)) 0
    / (s.length : α))

/-- Auxiliary (proof side): the value of one of the three conditional expressions for
`q1`, `median`, `q3`, with modulus `m` and index `i`, once all reads are known to succeed. -/
def quartileAt (s : List α) (m i : Nat) : α :=
  if s.length % m ≠ 0 then s.getD i 0 else (s.getD (i - 1) 0 + s.getD i 0) / 2

end Statistics

section Simulator

/-- The constant `INITIALPROG` (source line 20). -/
def INITIALPROG : String := "P0"

/-- The helper `linux_problem::to_string` (source lines 23-28) at type `unsigned int`:
the decimal rendering of the number. -/
def to_string (obj : Nat) : String := toString obj

/-- The contents of a `map<string, unsigned int>`: its entries in iteration order, which for
a `std::map` is strictly ascending key order. -/
abbrev CountMap := List (String × Nat)

/-- The invariant of a `map<string, unsigned int>` value: keys strictly ascending (hence
unique) and every count in the range of `unsigned int`. -/
def CountMap.WF (m : CountMap) : Prop :=
  m.Pairwise (fun a b => a.1 < b.1) ∧ ∀ e ∈ m, e.2 < 2 ^ 32

/-- The lookup `m.find(name)`: `none` stands for `m.end()`, `some c` for an iterator to the
entry whose `second` is `c`. -/
def mapFind : CountMap → String → Option Nat
  | [], _ => none
  | (k, v) :: m, name => if name = k then some v else mapFind m name

/-- The call `m.insert(nameCount)`: adds the entry at its place in key order; a map that
already holds the key is left unchanged. -/
def mapInsert : CountMap → String × Nat → CountMap
  | [], nameCount => [nameCount]
  | (k, v) :: m, nameCount =>
    if nameCount.1 = k then (k, v) :: m
    else if nameCount.1 < k then nameCount :: (k, v) :: m
    else (k, v) :: mapInsert m nameCount

/-- The statement `m[name] += count` on `unsigned int` values: `operator[]` creates the
entry with value 0 when the key is missing, and the addition wraps modulo `2 ^ 32`. -/
def mapAddAt : CountMap → String → Nat → CountMap
  | [], name, count => [(name, (0 + count) % 2 ^ 32)]
  | (k, v) :: m, name, count =>
    if name = k then (k, (v + count) % 2 ^ 32) :: m
    else if name < k then (name, (0 + count) % 2 ^ 32) :: (k, v) :: m
    else (k, v) :: mapAddAt m name count

/-- Modelled from the spec: the class `Simulation` (header `Simulation.h`, not among the
sources), described in section 4.1 as the Simulator Handle.  The object is a state of type
`σ`; the constructor and every member function either return or throw a `string`.
`clear` and `run` update the object, the queries read it. -/
structure Simulation (σ : Type) (α : Type) where
  /-- The constructor `new Simulation(pgm)`. -/
  create : List String → Except String σ
  /-- The query `programs()`. -/
  programs : σ → Except String (List String)
  /-- The reset `clear()`. -/
  clear : σ → Except String σ
  /-- One trial `run(initialProg, condition, lower, upper)`. -/
  run : σ → String → String → α → α → Except String σ
  /-- The event trace `toVectorString()`. -/
  toVectorString : σ → Except String (List String)
  /-- The per-entity creation counts `cellCount()`. -/
  cellCount : σ → Except String CountMap
  /-- The pairwise ordering observation `overlap(firstCell, secondCell)`. -/
  overlap : σ → String → String → Except String (α × Bool)

variable {σ : Type} {α : Type} [LinearOrderedField α]

/-- The `catch (const string& err)` block shared by the entry points: a thrown message
becomes the single line `"Error: " + err`; otherwise the lines computed by the `try` block
are returned (the simulator object is destroyed). -/
def catchError (r : Except String (List String × σ)) : List String :=
  match r with
  | .ok (result, _) => result
  | .error err => ["Error: " ++ err]

/-- The body of the inner loop of `cellExistence` (source lines 183-188). -/
def mergeCount (total : CountMap) (nameCount : String × Nat) : CountMap :=
  if mapFind total nameCount.1 = none then mapInsert total nameCount
  else mapAddAt total nameCount.1 nameCount.2

/-- The inner loop of `cellExistence` (source lines 182-189): every entry of `res`, in
iteration order, is merged into `total`. -/
def mergeTable (total res : CountMap) : CountMap := res.foldl mergeCount total

/-- The trial loop of `cellExistence` (source lines 178-190) with `n` iterations left. -/
def cellExistenceLoop (sim : Simulation σ α) (condition : String) :
    Nat → σ → CountMap → Except String (CountMap × σ)
  | 0, s, total => .ok (total, s)
  | n + 1, s, total => do
    let s ← sim.clear s
    let s ← sim.run s INITIALPROG condition (-1) (-1)
    let res ← sim.cellCount s
    cellExistenceLoop sim condition n s (mergeTable total res)

/-- The `try` block of `cellExistence` (source lines 176-198); the final state of the
simulator object is returned next to the result. -/
def cellExistenceTry (sim : Simulation σ α) (programs : List String) (condition : String)
    (numSimulations : Nat) : Except String (List String × σ) := do
  let s ← sim.create programs
  let (total, s) ← cellExistenceLoop sim condition numSimulations s []
  pure (total.map (fun nameCount => nameCount.1 ++ ": " ++ to_string nameCount.2), s)

/-- The entry point `cellExistence` (source lines 174-206). -/
def cellExistence (sim : Simulation σ α) (programs : List String) (condition : String)
    (numSimulations : Nat) : List String :=
  catchError (cellExistenceTry sim programs condition numSimulations)

/-- The loop over `progs` inside one trial of `simulateAbnormal` (source lines 217-232):
`some results` when a `return results` is reached, `none` when the loop runs to its end. -/
def checkProgs (sim : Simulation σ α) (s : σ) (res : CountMap) :
    List String → Except String (Option (List String))
  | [] => .ok none
  | name :: progs =>
    match mapFind res name with
    | none => do
      let results ← sim.toVectorString s
      pure (some (results ++ [name ++ " was not created."]))
    | some count =>
      if count > 1 then do
        let results ← sim.toVectorString s
        pure (some (results ++ [name ++ " was created more than once."]))
      else checkProgs sim s res progs

/-- The trial loop of `simulateAbnormal` (source lines 213-238) with `n` iterations left,
followed by the lines after the loop. -/
def simulateAbnormalLoop (sim : Simulation σ α) (condition : String) (progs : List String) :
    Nat → σ → Except String (List String × σ)
  | 0, s => .ok (["Could not find an abnormal simulation."], s)
  | n + 1, s => do
    let s ← sim.clear s
    let s ← sim.run s INITIALPROG condition (-1) (-1)
    let res ← sim.cellCount s
    match ← checkProgs sim s res progs with
    | some results => pure (results, s)
    | none => simulateAbnormalLoop sim condition progs n s

/-- The `try` block of `simulateAbnormal` (source lines 210-238); the final state of the
simulator object is returned next to the result. -/
def simulateAbnormalTry (sim : Simulation σ α) (programs : List String) (condition : String)
    (repetitions : Nat) : Except String (List String × σ) := do
  let s ← sim.create programs
  let progs ← sim.programs s
  simulateAbnormalLoop sim condition progs repetitions s

/-- The entry point `simulateAbnormal` (source lines 208-246). -/
def simulateAbnormal (sim : Simulation σ α) (programs : List String) (condition : String)
    (repetitions : Nat) : List String :=
  catchError (simulateAbnormalTry sim programs condition repetitions)

/-- A simulator none of whose operations throws, given by total functions.  The field
`cellCount_wf` records that `cellCount` returns a `map<string, unsigned int>` value. -/
structure Stub (σ : Type) (α : Type) where
  create : List String → σ
  programs : σ → List String
  clear : σ → σ
  run : σ → String → String → α → α → σ
  toVectorString : σ → List String
  cellCount : σ → CountMap
  overlap : σ → String → String → α × Bool
  cellCount_wf : ∀ s, (cellCount s).WF

/-- A non-throwing simulator as a `Simulation`. -/
def Stub.toSimulation (T : Stub σ α) : Simulation σ α where
  create pgm := .ok (T.create pgm)
  programs s := .ok (T.programs s)
  clear s := .ok (T.clear s)
  run s initialProg condition lower upper := .ok (T.run s initialProg condition lower upper)
  toVectorString s := .ok (T.toVectorString s)
  cellCount s := .ok (T.cellCount s)
  overlap s firstCell secondCell := .ok (T.overlap s firstCell secondCell)

/-- One trial of a non-throwing simulator as the entry points perform it: `clear()` and then
`run(INITIALPROG, condition, -1.0, -1.0)`. -/
def Stub.step (T : Stub σ α) (condition : String) (s : σ) : σ :=
  T.run (T.clear s) INITIALPROG condition (-1) (-1)

/-- The state of the simulator object after trial `k` (`k = 0`: freshly constructed). -/
def Stub.trialState (T : Stub σ α) (programs : List String) (condition : String) (k : Nat) : σ :=
  (T.step condition)^[k] (T.create programs)

/-- The operations that change a simulator object. -/
inductive HandleOp where
  | clear
  | run
  deriving DecidableEq, Repr

/-- A non-throwing simulator instrumented with a log: each `clear()` and `run(...)` appends
its name to the log; everything else is unchanged. -/
def Stub.logged (T : Stub σ α) : Stub (σ × List HandleOp) α where
  create pgm := (T.create pgm, [])
  programs s := T.programs s.1
  clear s := (T.clear s.1, s.2 ++ [HandleOp.clear])
  run s initialProg condition lower upper :=
    (T.run s.1 initialProg condition lower upper, s.2 ++ [HandleOp.run])
  toVectorString s := T.toVectorString s.1
  cellCount s := T.cellCount s.1
  overlap s firstCell secondCell := T.overlap s.1 firstCell secondCell
  cellCount_wf s := T.cellCount_wf s.1

/-- The log of `k` trials: `clear`, `run`, repeated `k` times. -/
def trialOps : Nat → List HandleOp
  | 0 => []
  | k + 1 => [HandleOp.clear, HandleOp.run] ++ trialOps k

/-- The count of `name` in a table, an absent key counting as 0. -/
def countOf (res : CountMap) (name : String) : Nat := (mapFind res name).getD 0

/-- The test that `simulateAbnormal` applies to a name: the name is missing from the table
or its count is greater than 1. -/
def abnormalName (res : CountMap) (name : String) : Bool :=
  match mapFind res name with
  | none => true
  | some count => decide (count > 1)

end Simulator

/-- Auxiliary (proof side): the effect of merging on one key, in terms of the lookups in the
running total and in the merged table. -/
def combineCount : Option Nat → Option Nat → Option Nat
  | none, b => b
  | some a, none => some a
  | some a, some b => some ((a + b) % 2 ^ 32)

/-- A simulator whose every trial reports the one-entry table `P0 ↦ 2 ^ 31`. -/
def overflowStub : Stub Unit ℚ where
  create _ := ()
  programs _ := ["P0"]
  clear _ := ()
  run _ _ _ _ _ := ()
  toVectorString _ := []
  cellCount _ := [("P0", 2 ^ 31)]
  overlap _ _ _ := (0, true)
  cellCount_wf _ := by simp [CountMap.WF]

/-- Auxiliary (proof side): the last line that `simulateAbnormal` returns for a name that
fails its test against the table `res`. -/
def diagnostic (res : CountMap) (name : String) : String :=
  if mapFind res name = none then name ++ " was not created."
  else name ++ " was created more than once."

/-- A simulator with the single program P0 that counts its trials in its state; trial 1
reports the table `P0 ↦ 0` (an entry whose count is zero), every other trial `P0 ↦ 2`. -/
def zeroThenTwoStub : Stub Nat ℚ where
  create _ := 0
  programs _ := ["P0"]
  clear s := s
  run s _ _ _ _ := s + 1
  toVectorString s := ["trace of trial " ++ toString s]
  cellCount s := if s = 1 then [("P0", 0)] else [("P0", 2)]
  overlap _ _ _ := (0, true)
  cellCount_wf s := by
    by_cases h : s = 1 <;> simp [CountMap.WF, h]

/-- A simulator with the programs P0 and P1 whose every trial reports the table `P0 ↦ 0`:
P0 is stored with count zero and P1 is missing. -/
def zeroEntryStub : Stub Unit ℚ where
  create _ := ()
  programs _ := ["P0", "P1"]
  clear _ := ()
  run _ _ _ _ _ := ()
  toVectorString _ := ["trace"]
  cellCount _ := [("P0", 0)]
  overlap _ _ _ := (0, true)
  cellCount_wf _ := by simp [CountMap.WF]

/-- A simulator with the single program P0 whose every trial reports the table `P0 ↦ 0`. -/
def onlyZeroStub : Stub Unit ℚ where
  create _ := ()
  programs _ := ["P0"]
  clear _ := ()
  run _ _ _ _ _ := ()
  toVectorString _ := ["trace"]
  cellCount _ := [("P0", 0)]
  overlap _ _ _ := (0, true)
  cellCount_wf _ := by simp [CountMap.WF]

/-- A simulator with the single program P0 that counts its trials in its state; trial 2
reports the table `P0 ↦ 2`, every other trial `P0 ↦ 1`. -/
def twiceInSecondStub : Stub Nat ℚ where
  create _ := 0
  programs _ := ["P0"]
  clear s := s
  run s _ _ _ _ := s + 1
  toVectorString s := ["trace of trial " ++ toString s]
  cellCount s := if s = 2 then [("P0", 2)] else [("P0", 1)]
  overlap _ _ _ := (0, true)
  cellCount_wf s := by
    by_cases h : s = 2 <;> simp [CountMap.WF, h]

/-- A simulator with the programs P0 and P1 whose every trial reports the table `P0 ↦ 1`:
P1 is missing. -/
def missingStub : Stub Unit ℚ where
  create _ := ()
  programs _ := ["P0", "P1"]
  clear _ := ()
  run _ _ _ _ _ := ()
  toVectorString _ := ["trace"]
  cellCount _ := [("P0", 1)]
  overlap _ _ _ := (0, true)
  cellCount_wf _ := by simp [CountMap.WF]

/-- A simulator with the programs P0 and P1 whose every trial reports each of them once. -/
def bothOnceStub : Stub Unit ℚ where
  create _ := ()
  programs _ := ["P0", "P1"]
  clear _ := ()
  run _ _ _ _ _ := ()
  toVectorString _ := ["trace"]
  cellCount _ := [("P0", 1), ("P1", 1)]
  overlap _ _ _ := (0, true)
  cellCount_wf _ := by
    simp [CountMap.WF]
    decide

/-- A simulator is non-faulting when its constructor and every member function return on
every input, and `cellCount` returns a map. -/
def Simulation.NonFaulting {σ : Type} {α : Type} (sim : Simulation σ α) : Prop :=
  (∀ pgm, ∃ s, sim.create pgm = .ok s) ∧
  (∀ s, ∃ l, sim.programs s = .ok l) ∧
  (∀ s, ∃ s', sim.clear s = .ok s') ∧
  (∀ s initialProg condition lower upper, ∃ s',
    sim.run s initialProg condition lower upper = .ok s') ∧
  (∀ s, ∃ l, sim.toVectorString s = .ok l) ∧
  (∀ s, ∃ m : CountMap, sim.cellCount s = .ok m ∧ m.WF) ∧
  (∀ s firstCell secondCell, ∃ r, sim.overlap s firstCell secondCell = .ok r)

section EntryPoints

variable {σ : Type} {α : Type} [LinearOrderedField α]

/-- The `try` block of `programs` (source lines 33-34). -/
def programsTry (sim : Simulation σ α) (pgm : List String) :
    Except String (List String × σ) := do
  let s ← sim.create pgm
  let result ← sim.programs s
  pure (result, s)

/-- The entry point `programs` (source lines 31-42). -/
def programs (sim : Simulation σ α) (pgm : List String) : List String :=
  catchError (programsTry sim pgm)

/-- The entry point `conditions` (source lines 44-66).  The member function
`program(name)` of `Simulation` and the iteration over the `CellProgram` it returns are the
parameter `lookup`: `none` stands for the null pointer, `some l` for a program whose elements,
written to a `stringstream` in iteration order, give the strings `l`. -/
def conditions (sim : Simulation σ α)
    (lookup : σ → String → Except String (Option (List String)))
    (pgm : List String) (program : String) : List String :=
  match (do
    let s ← sim.create pgm
    let prog ← lookup s program
    pure (prog, s) : Except String (Option (List String) × σ)) with
  | .ok (none, _) => ["Error: Could not compile the program."]
  | .ok (some ret, _) => ret
  | .error err => ["Error: " ++ err]

/-- The `try` block of `simulate` (source lines 70-72). -/
def simulateTry (sim : Simulation σ α) (pgm : List String) (condition : String) :
    Except String (List String × σ) := do
  let s ← sim.create pgm
  let s ← sim.run s INITIALPROG condition (-1) (-1)
  let result ← sim.toVectorString s
  pure (result, s)

/-- The entry point `simulate` (source lines 68-80). -/
def simulate (sim : Simulation σ α) (pgm : List String) (condition : String) : List String :=
  catchError (simulateTry sim pgm condition)

/-- The trial loop of `checkTimeOverlap` (source lines 87-95) with `n` iterations left. -/
def checkTimeOverlapLoop (sim : Simulation σ α) (condition firstCell secondCell : String) :
    Nat → σ → List α → List α → Except String ((List α × List α) × σ)
  | 0, s, results1, results2 => .ok ((results1, results2), s)
  | n + 1, s, results1, results2 => do
    let s ← sim.clear s
    let s ← sim.run s INITIALPROG condition (-1) (-1)
    let p ← sim.overlap s firstCell secondCell
    if p.2 then
      checkTimeOverlapLoop sim condition firstCell secondCell n s (results1 ++ [p.1]) results2
    else
      checkTimeOverlapLoop sim condition firstCell secondCell n s results1 (results2 ++ [p.1])

/-- The vector `names` of `checkTimeOverlap` (source line 114). -/
def names : List String :=
  ["q1", "min", "median", "max", "q3", "mean+std", "mean-std", "mean", "stdev"]

/-- The lambda `addEntryToVec` (source lines 118-123); `fmt` is `linux_problem::to_string`
at type `float`, the stream rendering of a number. -/
def addEntryToVec (fmt : α → String) (result : List String) (name : String) (val : α) :
    List String :=
  result ++ [name ++ ": " ++ fmt val]

/-- The string `raw` built by the loop of source lines 127-134: the renderings of the
values, separated by a comma and a blank. -/
def rawLine (fmt : α → String) (vec : List α) : String :=
  (vec.foldl (fun (p : String × Bool) val =>
    ((if !p.2 then p.1 ++ ", " else p.1) ++ fmt val, false)) ("", true)).1

/-- The lambda `addToVec` (source lines 125-144), on the current `result`; it returns the new
`result` and the new contents of its by-reference argument.  The reads `stat[i]`, `names[i]`
and `vals[i]` are checked like every element access. -/
def addToVec (sqrt : α → α) (fmt : α → String) (rawData : Bool) (result : List String)
    (vec : List α) : Option (List String × List α) := do
  let result := if rawData then result ++ [rawLine fmt vec] else result
  let (vec, stat) ← statistics sqrt vec
  let vals := [← stat[4]?, ← stat[0]?, ← stat[5]?, ← stat[1]?, ← stat[6]?,
    (← stat[2]?) + (← stat[3]?), (← stat[2]?) - (← stat[3]?), ← stat[2]?, ← stat[3]?]
  let result ← (List.range names.length).foldlM (fun result i => do
    let name ← names[i]?
    let val ← vals[i]?
    pure (addEntryToVec fmt result name val)) result
  pure (result, vec)

/-- The part of the `try` block of `checkTimeOverlap` after the trial loop (source lines
97-164), from the two sample vectors to the returned `result`; `none` when an element access
falls outside a vector. -/
def overlapReport (sqrt : α → α) (fmt : α → String) (firstCell secondCell : String)
    (rawData : Bool) (results1 results2 : List α) : Option (List String) := do
  let result : List String := []
  let result ← if results1.length ≠ 0 then do
      let temp := firstCell ++ " born before " ++ secondCell ++ ":"
      let r ← addToVec sqrt fmt rawData (result ++ [temp]) results1
      pure r.1
    else pure result
  let result ← if results2.length ≠ 0 then do
      let temp := secondCell ++ " born before " ++ firstCell ++ ":"
      let r ← addToVec sqrt fmt rawData (result ++ [temp]) results2
      pure r.1
    else pure result
  pure result

/-- The `try` block of `checkTimeOverlap` (source lines 84-164); the final state of the
simulator object is returned next to the result. -/
def checkTimeOverlapTry (sim : Simulation σ α) (sqrt : α → α) (fmt : α → String)
    (pgm : List String) (condition firstCell secondCell : String) (numSimulations : Nat)
    (rawData : Bool) : Except String (Option (List String) × σ) := do
  let s ← sim.create pgm
  let (results, s) ← checkTimeOverlapLoop sim condition firstCell secondCell numSimulations s
    [] []
  pure (overlapReport sqrt fmt firstCell secondCell rawData results.1 results.2, s)

/-- The entry point `checkTimeOverlap` (source lines 82-172).  The result is `none` when an
element access falls outside a vector (this is not a thrown `string`, so the `catch` block
does not apply to it). -/
def checkTimeOverlap (sim : Simulation σ α) (sqrt : α → α) (fmt : α → String)
    (pgm : List String) (condition firstCell secondCell : String) (numSimulations : Nat)
    (rawData : Bool) : Option (List String) :=
  match checkTimeOverlapTry sim sqrt fmt pgm condition firstCell secondCell numSimulations
    rawData with
  | .ok (result, _) => result
  | .error err => some ["Error: " ++ err]

end EntryPoints

/-- Auxiliary (proof side): the seven values that `statistics` returns on a non-empty
vector, in closed form. -/
def summaryOf {α : Type} [LinearOrderedField α] (sqrt : α → α) (vec : List α) : List α :=
  [(vec.insertionSort (· ≤ ·)).getD 0 0,
   (vec.insertionSort (· ≤ ·)).getD (vec.length - 1) 0,
   sortedMean (vec.insertionSort (· ≤ ·)),
   sortedStdev sqrt (vec.insertionSort (· ≤ ·)),
   quartileAt (vec.insertionSort (· ≤ ·)) 4 (vec.length / 4),
   quartileAt (vec.insertionSort (· ≤ ·)) 2 (vec.length / 2),
   quartileAt (vec.insertionSort (· ≤ ·)) 4 (3 * vec.length / 4)]

/-- Auxiliary (proof side): the nine labelled lines for a summary
`[min, max, mean, stdev, q1, median, q3]`. -/
def summaryLines {α : Type} [LinearOrderedField α] (fmt : α → String) : List α → List String
  | [min, max, mean, stdev, q1, median, q3] =>
    ["q1: " ++ fmt q1, "min: " ++ fmt min, "median: " ++ fmt median, "max: " ++ fmt max,
     "q3: " ++ fmt q3, "mean+std: " ++ fmt (mean + stdev), "mean-std: " ++ fmt (mean - stdev),
     "mean: " ++ fmt mean, "stdev: " ++ fmt stdev]
  | _ => []

/-- Auxiliary (proof side): the lines of one class of `checkTimeOverlap`: nothing for an
empty sample vector, otherwise the header, the raw line when requested, and the nine
summary lines. -/
def sectionLines {α : Type} [LinearOrderedField α] (sqrt : α → α) (fmt : α → String)
    (rawData : Bool) (first second : String) (vec : List α) : List String :=
  if vec = [] then []
  else [first ++ " born before " ++ second ++ ":"]
    ++ (if rawData then [rawLine fmt vec] else [])
    ++ summaryLines fmt (summaryOf sqrt vec)

/-- A simulator whose every trial observes the value 2 with class flag true. -/
def alwaysTwoStub : Stub Unit ℚ where
  create _ := ()
  programs _ := ["P0"]
  clear _ := ()
  run _ _ _ _ _ := ()
  toVectorString _ := []
  cellCount _ := []
  overlap _ _ _ := (2, true)
  cellCount_wf _ := by simp [CountMap.WF]

section TrialModel

variable {σ : Type} {α : Type} [LinearOrderedField α]

/-- Auxiliary (proof side): one trial as the three loops perform it, `clear()`, then
`run(INITIALPROG, condition, -1.0, -1.0)`, then the query of the loop; it gives the new state
of the simulator object and the answer of the query, or the first thrown message. -/
def trialOf {β : Type} (sim : Simulation σ α) (condition : String)
    (query : σ → Except String β) (s : σ) : Except String (σ × β) := do
  let s ← sim.clear s
  let s ← sim.run s INITIALPROG condition (-1) (-1)
  let r ← query s
  pure (s, r)

/-- Auxiliary (proof side): the query part of one trial of `simulateAbnormal`, `cellCount()`
followed by the scan of the program names. -/
def abnormalQuery (sim : Simulation σ α) (progs : List String) (s : σ) :
    Except String (Option (List String)) := do
  let res ← sim.cellCount s
  checkProgs sim s res progs

/-- A simulator under a monitor: the object carries a flag that `clear()` sets and `run(...)`
resets, and a `run(...)` on an object whose flag is not set throws `alarm` instead of
running.  Everything else is unchanged. -/
def Simulation.monitored (sim : Simulation σ α) (alarm : String) :
    Simulation (σ × Bool) α where
  create pgm := (sim.create pgm).map (fun s => (s, false))
  programs s := sim.programs s.1
  clear s := (sim.clear s.1).map (fun s' => (s', true))
  run s initialProg condition lower upper :=
    if s.2 then (sim.run s.1 initialProg condition lower upper).map (fun s' => (s', false))
    else .error alarm
  toVectorString s := sim.toVectorString s.1
  cellCount s := sim.cellCount s.1
  overlap s firstCell secondCell := sim.overlap s.1 firstCell secondCell

end TrialModel

/-- A simulator whose second `run` throws "boom": the object counts its runs, the first run
succeeds, and a run on an object that has run once throws. -/
def boomSim : Simulation Nat ℚ where
  create _ := .ok 0
  programs _ := .ok ["P0"]
  clear s := .ok s
  run s _ _ _ _ := if s = 1 then .error "boom" else .ok (s + 1)
  toVectorString _ := .ok ["trace"]
  cellCount _ := .ok [("P0", 1)]
  overlap _ _ _ := .ok (2, true)

/-- A line begins with the marker "Error:". -/
def beginsWithError (line : String) : Prop := "Error:".data <+: line.data

/-- A simulator whose every trial reports one entity named "A" and one named "Error". -/
def errorNamedStub : Stub Unit ℚ where
  create _ := ()
  programs _ := ["P0"]
  clear _ := ()
  run _ _ _ _ _ := ()
  toVectorString _ := ["trace"]
  cellCount _ := [("A", 1), ("Error", 1)]
  overlap _ _ _ := (0, true)
  cellCount_wf _ := by
    simp [CountMap.WF]
    decide

section FloatModel

/-- The arithmetic of the type `float` as the `statistics` lambda uses it: the operations
`+`, `-`, `*`, `/` and `std::sqrt`, the comparison `operator<` that `std::sort` applies, the
constant `0.0` and the conversion of an unsigned integer (`vec.size()`, the literal `2`) to
`float`.  No law is assumed of the operations: each may round or overflow. -/
structure FloatOps (α : Type) where
  /-- The constant `0.0` (`ZERO` and the initial value of `accum`). -/
  zero : α
  /-- The conversion of an unsigned integer to `float`. -/
  ofNat : Nat → α
  /-- The sum `x + y`. -/
  add : α → α → α
  /-- The difference `x - y`. -/
  sub : α → α → α
  /-- The product `x * y`. -/
  mul : α → α → α
  /-- The quotient `x / y`. -/
  div : α → α → α
  /-- The square root `std::sqrt(x)`. -/
  sqrt : α → α
  /-- The comparison `x < y`. -/
  lt : α → α → Bool

/-- The `size_t` expression `n - 1`: unsigned 64-bit subtraction, which wraps to
`2 ^ 64 - 1` at `n = 0`. -/
def sizeSub1 (n : Nat) : Nat := (n + 2 ^ 64 - 1) % 2 ^ 64

/-- The `statistics` lambda of `checkTimeOverlap` (source lines 97-112) over the arithmetic
`A`, with element access as `operator[]` performs it, unchecked: a read at an index `i`
outside the vector yields `junk i`, what the memory happens to hold there (in C++ the
behaviour is undefined).  The index expressions are `size_t` arithmetic modulo `2 ^ 64`.
The result pairs the sorted vector with the returned vector
`{min, max, mean, stdev, q1, median, q3}`. -/
def FloatOps.statistics {α : Type} (A : FloatOps α) (junk : Nat → α) (vec : List α) :
    List α × List α :=
  let vec := vec.insertionSort (fun a b => A.lt b a = false)
  let min := vec.getD 0 (junk 0)
  let max := vec.getD (sizeSub1 vec.length) (junk (sizeSub1 vec.length))
  let mean := A.div (vec.foldl A.add A.zero) (A.ofNat vec.length)
  let accum := vec.foldl
    (fun accum f => A.add accum (A.mul (A.sub f mean) (A.sub f mean))) A.zero
  let stdev := A.sqrt (A.div accum (A.ofNat vec.length))
  let q1 := if vec.length % 4 ≠ 0 then vec.getD (vec.length / 4) (junk (vec.length / 4))
    else A.div (A.add
        (vec.getD (sizeSub1 (vec.length / 4)) (junk (sizeSub1 (vec.length / 4))))
        (vec.getD (vec.length / 4) (junk (vec.length / 4)))) (A.ofNat 2)
  let median := if vec.length % 2 ≠ 0 then vec.getD (vec.length / 2) (junk (vec.length / 2))
    else A.div (A.add
        (vec.getD (sizeSub1 (vec.length / 2)) (junk (sizeSub1 (vec.length / 2))))
        (vec.getD (vec.length / 2) (junk (vec.length / 2)))) (A.ofNat 2)
  let q3 := if vec.length % 4 ≠ 0 then
      vec.getD (3 * vec.length % 2 ^ 64 / 4) (junk (3 * vec.length % 2 ^ 64 / 4))
    else A.div (A.add
        (vec.getD (sizeSub1 (3 * vec.length % 2 ^ 64 / 4))
          (junk (sizeSub1 (3 * vec.length % 2 ^ 64 / 4))))
        (vec.getD (3 * vec.length % 2 ^ 64 / 4) (junk (3 * vec.length % 2 ^ 64 / 4))))
      (A.ofNat 2)
  (vec, [min, max, mean, stdev, q1, median, q3])

/-- Exact arithmetic in a linearly ordered field, with a given square root: the arithmetic
in which no operation rounds. -/
def FloatOps.exact {α : Type} [LinearOrderedField α] (sqrt : α → α) : FloatOps α where
  zero := 0
  ofNat n := (n : α)
  add x y := x + y
  sub x y := x - y
  mul x y := x * y
  div x y := x / y
  sqrt := sqrt
  lt x y := decide (x < y)

/-- A value of the IEEE 754 binary32 format, the type `float`.  Every finite binary32 number
is an integer multiple of the least subnormal `2 ^ (-149)`: `fin m` is the number
`m * 2 ^ (-149)`.  The two zeros are not distinguished. -/
inductive F32 where
  /-- The finite number `m * 2 ^ (-149)`. -/
  | fin (m : Int)
  /-- Plus infinity (`neg = false`) or minus infinity (`neg = true`). -/
  | inf (neg : Bool)
  /-- A NaN. -/
  | nan
deriving DecidableEq

/-- The integer nearest to `p / q`, ties to the even one. -/
def rne (p q : Nat) : Nat :=
  if 2 * (p % q) < q then p / q
  else if q < 2 * (p % q) then p / q + 1
  else if p / q % 2 = 0 then p / q else p / q + 1

/-- The number of halvings that bring `t` below `2 ^ 24`, counted from `s`. -/
def shiftAux : Nat → Nat → Nat → Nat
  | 0, _, s => s
  | fuel + 1, t, s => if t < 2 ^ 24 then s else shiftAux fuel (t / 2) (s + 1)

/-- The exponent of the binary32 spacing at `t >= 2 ^ 24` (in units of `2 ^ (-149)`): the
least `s` with `t / 2 ^ s < 2 ^ 24`. -/
def shiftOf (t : Nat) : Nat := shiftAux t t 0

/-- Rounding to nearest, ties to even, of the positive number `p / q` (in units of
`2 ^ (-149)`) to 24 significant bits.  Below `2 ^ 24` units the spacing of binary32 is one
unit (subnormal numbers and the first binade); from there on it is `2 ^ shiftOf`. -/
def roundMag (p q : Nat) : Nat :=
  if p / q < 2 ^ 24 then rne p q
  else rne p (q <<< shiftOf (p / q)) <<< shiftOf (p / q)

/-- The binary32 value nearest to the number of sign `neg` and magnitude `p / q` units of
`2 ^ (-149)`; a rounded magnitude of `2 ^ 128` or more overflows to an infinity. -/
def F32.round (neg : Bool) (p q : Nat) : F32 :=
  if 2 ^ 128 * 2 ^ 149 ≤ roundMag p q then .inf neg
  else .fin (if neg then -(roundMag p q : Int) else (roundMag p q : Int))

/-- The conversion of an unsigned integer to `float`. -/
def F32.ofNat (n : Nat) : F32 := F32.round false (n * 2 ^ 149) 1

/-- The negation `-x`. -/
def F32.neg : F32 → F32
  | .fin m => .fin (-m)
  | .inf b => .inf (!b)
  | .nan => .nan

/-- The binary32 sum: the exact sum, rounded. -/
def F32.add : F32 → F32 → F32
  | .fin a, .fin b => F32.round (decide (a + b < 0)) (a + b).natAbs 1
  | .fin _, .inf b => .inf b
  | .inf a, .fin _ => .inf a
  | .inf a, .inf b => if a = b then .inf a else .nan
  | _, _ => .nan

/-- The binary32 difference `x - y`. -/
def F32.sub (x y : F32) : F32 := F32.add x (F32.neg y)

/-- The binary32 product: the exact product `a * b * 2 ^ (-298)`, rounded. -/
def F32.mul : F32 → F32 → F32
  | .fin a, .fin b => F32.round (decide (a * b < 0)) (a * b).natAbs (2 ^ 149)
  | .fin a, .inf b => if a = 0 then .nan else .inf (xor (decide (a < 0)) b)
  | .inf a, .fin b => if b = 0 then .nan else .inf (xor a (decide (b < 0)))
  | .inf a, .inf b => .inf (xor a b)
  | _, _ => .nan

/-- The binary32 quotient: the exact quotient `a / b`, rounded; a non-zero number divided by
zero is an infinity (of the sign of the dividend, the zeros being unsigned here) and `0 / 0`
is a NaN. -/
def F32.div : F32 → F32 → F32
  | .fin a, .fin b =>
    if b = 0 then (if a = 0 then .nan else .inf (decide (a < 0)))
    else F32.round (xor (decide (a < 0)) (decide (b < 0))) (a.natAbs * 2 ^ 149) b.natAbs
  | .fin _, .inf _ => .fin 0
  | .inf a, .fin b => .inf (xor a (decide (b < 0)))
  | _, _ => .nan

/-- Digit-by-digit integer square root: with `r` a multiple of `2 ^ i` such that
`r ^ 2 <= n < (r + 2 ^ i) ^ 2`, the result is the integer part of the square root of `n`. -/
def isqrtAux (n : Nat) : Nat → Nat → Nat
  | 0, r => r
  | i + 1, r => isqrtAux n i (if (r + 2 ^ i) ^ 2 ≤ n then r + 2 ^ i else r)

/-- The integer part of the square root of `n`, for `n < 2 ^ 432`. -/
def isqrt (n : Nat) : Nat := isqrtAux n 216 0

/-- The binary32 square root, correctly rounded.  The square root of `m * 2 ^ (-149)` is
`sqrt (m * 2 ^ 149)` units; with `y` the integer part of four times that number, the root is
`y / 4` when that is exact and lies strictly between `y / 4` and `(y + 1) / 4` otherwise,
where it rounds as the midpoint `(2 * y + 1) / 8` does. -/
def F32.sqrt : F32 → F32
  | .fin m =>
    if m < 0 then .nan
    else if isqrt (16 * (m.toNat * 2 ^ 149)) ^ 2 = 16 * (m.toNat * 2 ^ 149) then
      F32.round false (isqrt (16 * (m.toNat * 2 ^ 149))) 4
    else F32.round false (2 * isqrt (16 * (m.toNat * 2 ^ 149)) + 1) 8
  | .inf false => .inf false
  | _ => .nan

/-- The binary32 comparison `x < y`; every comparison with a NaN is false. -/
def F32.lt : F32 → F32 → Bool
  | .fin a, .fin b => decide (a < b)
  | .fin _, .inf b => !b
  | .inf a, .fin _ => a
  | .inf a, .inf b => a && !b
  | _, _ => false

/-- The arithmetic of `float` on a platform where it is IEEE 754 binary32 with rounding to
nearest, ties to even, each operation rounded once. -/
def binary32 : FloatOps F32 where
  zero := .fin 0
  ofNat := F32.ofNat
  add := F32.add
  sub := F32.sub
  mul := F32.mul
  div := F32.div
  sqrt := F32.sqrt
  lt := F32.lt

end FloatModel

section NoRounding

variable {β K : Type}

/-- Auxiliary (proof side): the sorted vector that `FloatOps.statistics` reads. -/
def FloatOps.sorted (A : FloatOps β) (vec : List β) : List β :=
  vec.insertionSort (fun a b => A.lt b a = false)

/-- Auxiliary (proof side): the `mean` expression of `FloatOps.statistics` (source line
102). -/
def FloatOps.mean (A : FloatOps β) (vec : List β) : β :=
  A.div ((A.sorted vec).foldl A.add A.zero) (A.ofNat vec.length)

/-- Auxiliary (proof side): the term `(f - mean) * (f - mean)` of source line 105. -/
def FloatOps.dev (A : FloatOps β) (vec : List β) (f : β) : β :=
  A.mul (A.sub f (A.mean vec)) (A.sub f (A.mean vec))

/-- Auxiliary (proof side): the final value of `accum` (source lines 103-106). -/
def FloatOps.accum (A : FloatOps β) (vec : List β) : β :=
  (A.sorted vec).foldl (fun accum f => A.add accum (A.dev vec f)) A.zero

/-- Auxiliary (proof side): the `stdev` expression of `FloatOps.statistics` (source line
107). -/
def FloatOps.stdev (A : FloatOps β) (vec : List β) : β :=
  A.sqrt (A.div (A.accum vec) (A.ofNat vec.length))

variable [LinearOrderedField K]

/-- None of the operations that compute the mean of `vec` rounds: with `φ x` the number that
the `float` value `x` stands for, the constant `0.0` and the conversion of the size are
exact, every addition of the running sum is exact, and so is the final division. -/
def FloatOps.MeanExact (A : FloatOps β) (φ : β → K) (vec : List β) : Prop :=
  φ A.zero = 0 ∧ φ (A.ofNat vec.length) = (vec.length : K) ∧
  (∀ p ∈ ((A.sorted vec).scanl A.add A.zero).zip (A.sorted vec),
    φ (A.add p.1 p.2) = φ p.1 + φ p.2) ∧
  φ (A.mean vec) = φ ((A.sorted vec).foldl A.add A.zero) / φ (A.ofNat vec.length)

/-- None of the operations that compute the standard deviation of `vec` from its mean
rounds: every subtraction `f - mean`, every product `(f - mean) * (f - mean)`, every addition
to `accum`, the final division and the square root (`sqrtK` is the square root of the
numbers) are exact. -/
def FloatOps.StdevExact (A : FloatOps β) (φ : β → K) (sqrtK : K → K) (vec : List β) : Prop :=
  (∀ f ∈ vec, φ (A.sub f (A.mean vec)) = φ f - φ (A.mean vec) ∧
    φ (A.dev vec f) = φ (A.sub f (A.mean vec)) * φ (A.sub f (A.mean vec))) ∧
  (∀ p ∈ ((A.sorted vec).scanl (fun accum f => A.add accum (A.dev vec f)) A.zero).zip
      (A.sorted vec),
    φ (A.add p.1 (A.dev vec p.2)) = φ p.1 + φ (A.dev vec p.2)) ∧
  φ (A.div (A.accum vec) (A.ofNat vec.length)) = φ (A.accum vec) / φ (A.ofNat vec.length) ∧
  φ (A.stdev vec) = sqrtK (φ (A.div (A.accum vec) (A.ofNat vec.length)))

/-- The number that a binary32 value stands for; an infinity or a NaN stands for no number
and is given the value 0. -/
def F32.toRat : F32 → ℚ
  | .fin m => (m : ℚ) / 2 ^ 149
  | _ => 0

end NoRounding

section Binary32Checks

/-- Auxiliary (proof side): the binary32 sum of `x` and `y` is their exact sum. -/
def F32.exactAdd : F32 → F32 → Bool
  | .fin a, .fin b => decide (F32.add (.fin a) (.fin b) = .fin (a + b))
  | _, _ => false

/-- Auxiliary (proof side): the binary32 difference of `x` and `y` is their exact
difference. -/
def F32.exactSub : F32 → F32 → Bool
  | .fin a, .fin b => decide (F32.sub (.fin a) (.fin b) = .fin (a - b))
  | _, _ => false

/-- Auxiliary (proof side): the binary32 product of `x` and `y` is their exact product. -/
def F32.exactMul : F32 → F32 → Bool
  | .fin a, .fin b =>
    match F32.mul (.fin a) (.fin b) with
    | .fin c => decide (c * 2 ^ 149 = a * b)
    | _ => false
  | _, _ => false

/-- Auxiliary (proof side): the binary32 quotient of `x` by `y` is their exact quotient. -/
def F32.exactDiv : F32 → F32 → Bool
  | .fin a, .fin b =>
    match F32.div (.fin a) (.fin b) with
    | .fin c => decide (b ≠ 0) && decide (c * b = a * 2 ^ 149)
    | _ => false
  | _, _ => false

/-- Auxiliary (proof side): the binary32 square root of `x` is its exact square root. -/
def F32.exactSqrt : F32 → Bool
  | .fin a =>
    match F32.sqrt (.fin a) with
    | .fin c => decide (0 ≤ c) && decide (c * c = a * 2 ^ 149)
    | _ => false
  | _ => false

/-- Auxiliary (proof side): the conversion of `n` to binary32 is exact. -/
def F32.exactNat (n : Nat) : Bool := decide (F32.ofNat n = .fin ((n : Int) * 2 ^ 149))

end Binary32Checks

/-! ## Theorems -/

section StatisticsLemmas

variable {α : Type} [LinearOrderedField α]

theorem getElem?_getD_of_lt (s : List α) (i : Nat) (h : i < s.length) :
    s[i]? = some (s.getD i 0) := by
  rw [List.getD_eq_getElem?_getD, List.getElem?_eq_getElem h]
  simp

/-- On a non-empty vector every read of `statistics` succeeds and the result is the sorted
vector together with the seven values in closed form. -/
theorem statistics_eq (sqrt : α → α) (vec : List α) (hne : vec ≠ []) :
    statistics sqrt vec = some (vec.insertionSort (· ≤ ·),
      [(vec.insertionSort (· ≤ ·)).getD 0 0,
       (vec.insertionSort (· ≤ ·)).getD (vec.length - 1) 0,
       sortedMean (vec.insertionSort (· ≤ ·)),
       sortedStdev sqrt (vec.insertionSort (· ≤ ·)),
       quartileAt (vec.insertionSort (· ≤ ·)) 4 (vec.length / 4),
       quartileAt (vec.insertionSort (· ≤ ·)) 2 (vec.length / 2),
       quartileAt (vec.insertionSort (· ≤ ·)) 4 (3 * vec.length / 4)]) := by
  generalize hs : vec.insertionSort (· ≤ ·) = s
  have hlen : s.length = vec.length := by rw [← hs]; exact List.length_insertionSort _ _
  have hpos : 0 < vec.length := List.length_pos.mpr hne
  have e0 := getElem?_getD_of_lt s 0 (by omega)
  have e1 := getElem?_getD_of_lt s (vec.length - 1) (by omega)
  have e2 := getElem?_getD_of_lt s (vec.length / 4) (by omega)
  have e3 := getElem?_getD_of_lt s (vec.length / 2) (by omega)
  have e4 := getElem?_getD_of_lt s (3 * vec.length / 4) (by omega)
  by_cases h4 : vec.length % 4 = 0
  · have h2 : vec.length % 2 = 0 := by omega
    have e5 := getElem?_getD_of_lt s (vec.length / 4 - 1) (by omega)
    have e6 := getElem?_getD_of_lt s (vec.length / 2 - 1) (by omega)
    have e7 := getElem?_getD_of_lt s (3 * vec.length / 4 - 1) (by omega)
    simp only [statistics, hs, hlen, e0, e1, e2, e3, e4, e5, e6, e7, h4, h2]
    simp [sortedMean, sortedStdev, quartileAt, hlen, h4, h2]
  · by_cases h2 : vec.length % 2 = 0
    · have e6 := getElem?_getD_of_lt s (vec.length / 2 - 1) (by omega)
      simp only [statistics, hs, hlen, e0, e1, e2, e3, e4, e6, h4, h2]
      simp [sortedMean, sortedStdev, quartileAt, hlen, h4, h2]
    · simp only [statistics, hs, hlen, e0, e1, e2, e3, e4, h4, h2]
      simp [sortedMean, sortedStdev, quartileAt, hlen, h4, h2]

/-- The ascending rearrangement of a vector is unique, so any sorted permutation of the
input is the vector that `statistics` reads from. -/
theorem insertionSort_eq_of_sorted_perm (vec s : List α) (hs : s.Sorted (· ≤ ·))
    (hp : s.Perm vec) : vec.insertionSort (· ≤ ·) = s :=
  List.eq_of_perm_of_sorted ((List.perm_insertionSort _ vec).trans hp.symm)
    (List.sorted_insertionSort _ vec) hs

end StatisticsLemmas

/-! ### The lambda over an arbitrary arithmetic -/

section FloatLemmas

variable {α : Type}

theorem sizeSub1_eq (n : Nat) (h0 : 0 < n) (h : n < 2 ^ 64) : sizeSub1 n = n - 1 := by
  unfold sizeSub1
  omega

theorem insertionSort_congr (r r₂ : α → α → Prop) [DecidableRel r] [DecidableRel r₂]
    (h : ∀ a b, r a b ↔ r₂ a b) (l : List α) :
    l.insertionSort r = l.insertionSort r₂ := by
  have hins : ∀ (a : α) (l : List α), l.orderedInsert r a = l.orderedInsert r₂ a := by
    intro a l
    induction l with
    | nil => rfl
    | cons b l ih =>
      simp only [List.orderedInsert]
      by_cases hab : r a b
      · rw [if_pos hab, if_pos ((h a b).mp hab)]
      · rw [if_neg hab, if_neg (fun h₂ => hab ((h a b).mpr h₂)), ih]
  induction l with
  | nil => rfl
  | cons a l ih => simp only [List.insertionSort, ih, hins]

variable [LinearOrderedField α]

theorem insertionSort_exact (sqrt : α → α) (vec : List α) :
    vec.insertionSort (fun a b => (FloatOps.exact sqrt).lt b a = false)
      = vec.insertionSort (· ≤ ·) := by
  apply insertionSort_congr
  intro a b
  simp [FloatOps.exact]

/-- On a non-empty vector of fewer than `2 ^ 61` samples the read-checked, exact-arithmetic
`statistics` succeeds and returns what the unchecked lambda returns in exact arithmetic,
whatever lies outside the vector. -/
theorem statistics_eq_exact (sqrt : α → α) (junk : Nat → α) (vec : List α) (hne : vec ≠ [])
    (hlen : vec.length < 2 ^ 61) :
    statistics sqrt vec = some ((FloatOps.exact sqrt).statistics junk vec) := by
  rw [statistics_eq sqrt vec hne]
  have hpos : 0 < vec.length := List.length_pos.mpr hne
  have hsort := insertionSort_exact sqrt vec
  have hl : (vec.insertionSort (· ≤ ·)).length = vec.length := List.length_insertionSort _ _
  have hget : ∀ i, i < vec.length →
      (vec.insertionSort (· ≤ ·)).getD i (junk i) = (vec.insertionSort (· ≤ ·)).getD i 0 := by
    intro i hi
    rw [List.getD_eq_getElem _ _ (by rw [hl]; exact hi),
      List.getD_eq_getElem _ _ (by rw [hl]; exact hi)]
  have h3 : 3 * vec.length % 2 ^ 64 = 3 * vec.length := Nat.mod_eq_of_lt (by omega)
  have hs1 : sizeSub1 vec.length = vec.length - 1 := sizeSub1_eq _ hpos (by omega)
  unfold FloatOps.statistics
  simp only [hsort, hl, h3, hs1]
  by_cases h4 : vec.length % 4 = 0
  · have h2 : vec.length % 2 = 0 := by omega
    have hs4 : sizeSub1 (vec.length / 4) = vec.length / 4 - 1 :=
      sizeSub1_eq _ (by omega) (by omega)
    have hs2 : sizeSub1 (vec.length / 2) = vec.length / 2 - 1 :=
      sizeSub1_eq _ (by omega) (by omega)
    have hs3 : sizeSub1 (3 * vec.length / 4) = 3 * vec.length / 4 - 1 :=
      sizeSub1_eq _ (by omega) (by omega)
    simp only [hs4, hs2, hs3]
    rw [hget 0 (by omega), hget (vec.length - 1) (by omega), hget (vec.length / 4) (by omega),
      hget (vec.length / 4 - 1) (by omega), hget (vec.length / 2) (by omega),
      hget (vec.length / 2 - 1) (by omega), hget (3 * vec.length / 4) (by omega),
      hget (3 * vec.length / 4 - 1) (by omega)]
    simp [FloatOps.exact, sortedMean, sortedStdev, quartileAt, hl, h4, h2]
  · by_cases h2 : vec.length % 2 = 0
    · have hs2 : sizeSub1 (vec.length / 2) = vec.length / 2 - 1 :=
        sizeSub1_eq _ (by omega) (by omega)
      simp only [hs2]
      rw [hget 0 (by omega), hget (vec.length - 1) (by omega),
        hget (vec.length / 4) (by omega), hget (vec.length / 2) (by omega),
        hget (vec.length / 2 - 1) (by omega), hget (3 * vec.length / 4) (by omega)]
      simp [FloatOps.exact, sortedMean, sortedStdev, quartileAt, hl, h4, h2]
    · rw [hget 0 (by omega), hget (vec.length - 1) (by omega),
        hget (vec.length / 4) (by omega), hget (vec.length / 2) (by omega),
        hget (3 * vec.length / 4) (by omega)]
      simp [FloatOps.exact, sortedMean, sortedStdev, quartileAt, hl, h4, h2]

end FloatLemmas

section NoRoundingLemmas

variable {β K : Type}

theorem sorted_perm (A : FloatOps β) (vec : List β) : (A.sorted vec).Perm vec :=
  List.perm_insertionSort _ vec

variable [LinearOrderedField K]

theorem foldl_exact (φ : β → K) (g : β → β → β) (e : β → K) (l : List β) :
    ∀ a : β, (∀ p ∈ (l.scanl g a).zip l, φ (g p.1 p.2) = φ p.1 + e p.2) →
      φ (l.foldl g a) = φ a + (l.map e).sum := by
  induction l with
  | nil =>
    intro a _
    simp
  | cons x l ih =>
    intro a h
    have hstep : φ (g a x) = φ a + e x := h (a, x) (by simp [List.scanl_cons])
    have htail : ∀ p ∈ (l.scanl g (g a x)).zip l, φ (g p.1 p.2) = φ p.1 + e p.2 := by
      intro p hp
      exact h p (by simp [List.scanl_cons, hp])
    rw [List.foldl_cons, ih (g a x) htail, hstep, List.map_cons, List.sum_cons, add_assoc]

/-- When no operation of the mean rounds, the mean entry stands for (sum of x_i) / n. -/
theorem mean_of_exact (A : FloatOps β) (φ : β → K) (vec : List β)
    (h : A.MeanExact φ vec) : φ (A.mean vec) = (vec.map φ).sum / (vec.length : K) := by
  obtain ⟨h0, hn, hsum, hquot⟩ := h
  rw [hquot, hn, foldl_exact φ A.add φ (A.sorted vec) A.zero hsum, h0, zero_add,
    ((sorted_perm A vec).map φ).sum_eq]

/-- When no operation of the mean and of the standard deviation rounds, the stdev entry
stands for sqrt(sum_i (x_i - mean)^2 / n). -/
theorem stdev_of_exact (A : FloatOps β) (φ : β → K) (sqrtK : K → K) (vec : List β)
    (hmean : A.MeanExact φ vec) (hstd : A.StdevExact φ sqrtK vec) :
    φ (A.stdev vec)
      = sqrtK ((vec.map (fun x => (φ x - φ (A.mean vec)) ^ 2)).sum / (vec.length : K)) := by
  obtain ⟨hdev, hacc, hquot, hsqrt⟩ := hstd
  have haccum : φ (A.accum vec)
      = ((A.sorted vec).map (fun f => φ (A.dev vec f))).sum := by
    unfold FloatOps.accum
    rw [foldl_exact φ (fun accum f => A.add accum (A.dev vec f)) (fun f => φ (A.dev vec f))
      (A.sorted vec) A.zero hacc, hmean.1, zero_add]
  have hmap : (vec.map (fun f => φ (A.dev vec f)))
      = vec.map (fun x => (φ x - φ (A.mean vec)) ^ 2) := by
    apply List.map_congr_left
    intro f hf
    rw [(hdev f hf).2, (hdev f hf).1, pow_two]
  rw [hsqrt, hquot, haccum, hmean.2.1, ((sorted_perm A vec).map _).sum_eq, hmap]

end NoRoundingLemmas

section PairwiseLemmas

variable {α : Type}

end PairwiseLemmas

section ExactArithmetic

variable {α : Type} [LinearOrderedField α]

theorem exact_meanExact (sqrt : α → α) (vec : List α) :
    (FloatOps.exact sqrt).MeanExact id vec :=
  ⟨rfl, rfl, fun _ _ => rfl, rfl⟩

theorem exact_stdevExact (sqrt : α → α) (vec : List α) :
    (FloatOps.exact sqrt).StdevExact id sqrt vec :=
  ⟨fun _ _ => ⟨rfl, rfl⟩, fun _ _ => rfl, rfl, rfl⟩

end ExactArithmetic

section ChainLemmas

variable {β K : Type} [LinearOrderedField K]

end ChainLemmas

/-! ### Exact operations of binary32 -/

section Binary32Lemmas

theorem toRat_add (x y : F32) (h : F32.exactAdd x y = true) :
    F32.toRat (F32.add x y) = F32.toRat x + F32.toRat y := by
  cases x with
  | fin a =>
    cases y with
    | fin b =>
      simp only [F32.exactAdd, decide_eq_true_eq] at h
      rw [h]
      simp only [F32.toRat]
      push_cast
      ring
    | inf _ => simp [F32.exactAdd] at h
    | nan => simp [F32.exactAdd] at h
  | inf _ => simp [F32.exactAdd] at h
  | nan => simp [F32.exactAdd] at h

theorem toRat_sub (x y : F32) (h : F32.exactSub x y = true) :
    F32.toRat (F32.sub x y) = F32.toRat x - F32.toRat y := by
  cases x with
  | fin a =>
    cases y with
    | fin b =>
      simp only [F32.exactSub, decide_eq_true_eq] at h
      rw [h]
      simp only [F32.toRat]
      push_cast
      ring
    | inf _ => simp [F32.exactSub] at h
    | nan => simp [F32.exactSub] at h
  | inf _ => simp [F32.exactSub] at h
  | nan => simp [F32.exactSub] at h

theorem toRat_mul (x y : F32) (h : F32.exactMul x y = true) :
    F32.toRat (F32.mul x y) = F32.toRat x * F32.toRat y := by
  cases x with
  | fin a =>
    cases y with
    | fin b =>
      simp only [F32.exactMul] at h
      cases hm : F32.mul (.fin a) (.fin b) with
      | fin c =>
        rw [hm] at h
        simp only [decide_eq_true_eq] at h
        simp only [F32.toRat]
        have hc : (c : ℚ) * 2 ^ 149 = (a : ℚ) * (b : ℚ) := by exact_mod_cast h
        field_simp
        linear_combination (2 ^ 149 : ℚ) * hc
      | inf _ => simp [hm] at h
      | nan => simp [hm] at h
    | inf _ => simp [F32.exactMul] at h
    | nan => simp [F32.exactMul] at h
  | inf _ => simp [F32.exactMul] at h
  | nan => simp [F32.exactMul] at h

theorem toRat_div (x y : F32) (h : F32.exactDiv x y = true) :
    F32.toRat (F32.div x y) = F32.toRat x / F32.toRat y := by
  cases x with
  | fin a =>
    cases y with
    | fin b =>
      simp only [F32.exactDiv] at h
      cases hm : F32.div (.fin a) (.fin b) with
      | fin c =>
        rw [hm] at h
        simp only [Bool.and_eq_true, decide_eq_true_eq] at h
        simp only [F32.toRat]
        have hb : (b : ℚ) ≠ 0 := by exact_mod_cast h.1
        have hc : (c : ℚ) * (b : ℚ) = (a : ℚ) * 2 ^ 149 := by exact_mod_cast h.2
        field_simp
        linear_combination hc
      | inf _ => simp [hm] at h
      | nan => simp [hm] at h
    | inf _ => simp [F32.exactDiv] at h
    | nan => simp [F32.exactDiv] at h
  | inf _ => simp [F32.exactDiv] at h
  | nan => simp [F32.exactDiv] at h

theorem toRat_sqrt (x : F32) (h : F32.exactSqrt x = true) :
    ((F32.toRat (F32.sqrt x) : ℚ) : ℝ) = Real.sqrt ((F32.toRat x : ℚ) : ℝ) := by
  cases x with
  | fin a =>
    simp only [F32.exactSqrt] at h
    cases hm : F32.sqrt (.fin a) with
    | fin c =>
      rw [hm] at h
      simp only [Bool.and_eq_true, decide_eq_true_eq] at h
      simp only [F32.toRat]
      have hc0 : (0 : ℝ) ≤ (c : ℝ) / 2 ^ 149 := by
        have : (0 : ℝ) ≤ (c : ℝ) := by exact_mod_cast h.1
        positivity
      have hc : (c : ℝ) * (c : ℝ) = (a : ℝ) * 2 ^ 149 := by exact_mod_cast h.2
      have hsq : ((a : ℝ) / 2 ^ 149) = ((c : ℝ) / 2 ^ 149) ^ 2 := by
        field_simp
        linear_combination (-(2 : ℝ) ^ 149) * hc
      push_cast
      rw [hsq, Real.sqrt_sq hc0]
    | inf _ => simp [hm] at h
    | nan => simp [hm] at h
  | inf _ => simp [F32.exactSqrt] at h
  | nan => simp [F32.exactSqrt] at h

theorem toRat_ofNat (n : Nat) (h : F32.exactNat n = true) : F32.toRat (F32.ofNat n) = (n : ℚ) := by
  simp only [F32.exactNat, decide_eq_true_eq] at h
  rw [h]
  show (((n : Int) * 2 ^ 149 : Int) : ℚ) / 2 ^ 149 = (n : ℚ)
  rw [Int.cast_mul, Int.cast_pow, Int.cast_natCast, Int.cast_ofNat]
  exact mul_div_cancel_right₀ _ (by positivity)

end Binary32Lemmas

section Binary32Exact

theorem binary32_meanExact (vec : List F32) (hn : F32.exactNat vec.length = true)
    (hsum : ∀ p ∈ ((binary32.sorted vec).scanl F32.add (F32.fin 0)).zip (binary32.sorted vec),
      F32.exactAdd p.1 p.2 = true)
    (hq : F32.exactDiv ((binary32.sorted vec).foldl F32.add (F32.fin 0))
      (F32.ofNat vec.length) = true) :
    binary32.MeanExact (fun x => ((F32.toRat x : ℚ) : ℝ)) vec := by
  refine ⟨?_, ?_, ?_, ?_⟩
  · show ((F32.toRat (F32.fin 0) : ℚ) : ℝ) = 0
    simp [F32.toRat]
  · show ((F32.toRat (F32.ofNat vec.length) : ℚ) : ℝ) = (vec.length : ℝ)
    rw [toRat_ofNat _ hn]
    simp
  · intro p hp
    show ((F32.toRat (F32.add p.1 p.2) : ℚ) : ℝ) = _
    rw [toRat_add _ _ (hsum p hp)]
    push_cast
    rfl
  · show ((F32.toRat (F32.div ((binary32.sorted vec).foldl F32.add (F32.fin 0))
      (F32.ofNat vec.length)) : ℚ) : ℝ) = _
    rw [toRat_div _ _ hq]
    push_cast
    rfl

theorem binary32_stdevExact (vec : List F32)
    (hdev : ∀ f ∈ vec, F32.exactSub f (binary32.mean vec) = true ∧
      F32.exactMul (F32.sub f (binary32.mean vec)) (F32.sub f (binary32.mean vec)) = true)
    (hacc : ∀ p ∈ ((binary32.sorted vec).scanl
        (fun accum f => F32.add accum (binary32.dev vec f)) (F32.fin 0)).zip
        (binary32.sorted vec),
      F32.exactAdd p.1 (binary32.dev vec p.2) = true)
    (hq : F32.exactDiv (binary32.accum vec) (F32.ofNat vec.length) = true)
    (hsq : F32.exactSqrt (F32.div (binary32.accum vec) (F32.ofNat vec.length)) = true) :
    binary32.StdevExact (fun x => ((F32.toRat x : ℚ) : ℝ)) Real.sqrt vec := by
  refine ⟨?_, ?_, ?_, ?_⟩
  · intro f hf
    constructor
    · show ((F32.toRat (F32.sub f (binary32.mean vec)) : ℚ) : ℝ) = _
      rw [toRat_sub _ _ (hdev f hf).1]
      push_cast
      rfl
    · show ((F32.toRat (F32.mul (F32.sub f (binary32.mean vec))
        (F32.sub f (binary32.mean vec))) : ℚ) : ℝ) = _
      rw [toRat_mul _ _ (hdev f hf).2]
      push_cast
      rfl
  · intro p hp
    show ((F32.toRat (F32.add p.1 (binary32.dev vec p.2)) : ℚ) : ℝ) = _
    rw [toRat_add _ _ (hacc p hp)]
    push_cast
    rfl
  · show ((F32.toRat (F32.div (binary32.accum vec) (F32.ofNat vec.length)) : ℚ) : ℝ) = _
    rw [toRat_div _ _ hq]
    push_cast
    rfl
  · exact toRat_sqrt _ hsq

end Binary32Exact

/-! ### Quartiles and median (C1 to C3) -/

section StatisticsClaims

variable {α : Type} [LinearOrderedField α]

/-- C1. For a non-empty sample set of size n, with s any ascending-sorted arrangement of the
samples, `statistics` succeeds and its q1 entry (position 4 of the returned vector) is
s[n/4] when n mod 4 is not 0, and (s[n/4 - 1] + s[n/4]) / 2 when n mod 4 is 0; all the
indices involved are inside s. -/
theorem statistics_q1 (sqrt : α → α) (vec s : List α) (hne : vec ≠ [])
    (hs : s.Sorted (· ≤ ·)) (hp : s.Perm vec) :
    ∃ vec' stat, statistics sqrt vec = some (vec', stat) ∧
      (vec.length % 4 ≠ 0 → ∃ a, s[vec.length / 4]? = some a ∧ stat[4]? = some a) ∧
      (vec.length % 4 = 0 → ∃ a b, s[vec.length / 4 - 1]? = some a ∧
        s[vec.length / 4]? = some b ∧ stat[4]? = some ((a + b) / 2)) := by
  have hsort := insertionSort_eq_of_sorted_perm vec s hs hp
  have hlen : s.length = vec.length := hp.length_eq
  have hpos : 0 < vec.length := List.length_pos.mpr hne
  refine ⟨_, _, statistics_eq sqrt vec hne, ?_, ?_⟩
  · intro h4
    refine ⟨s.getD (vec.length / 4) 0, getElem?_getD_of_lt s _ (by omega), ?_⟩
    simp [hsort, quartileAt, hlen, h4]
  · intro h4
    refine ⟨s.getD (vec.length / 4 - 1) 0, s.getD (vec.length / 4) 0,
      getElem?_getD_of_lt s _ (by omega), getElem?_getD_of_lt s _ (by omega), ?_⟩
    simp [hsort, quartileAt, hlen, h4]

/-- Witness for C1 on the samples 3, 1, 2, 5 (n = 4, a multiple of 4). -/
theorem statistics_q1_witness :
    ([3, 1, 2, 5] : List ℚ) ≠ [] ∧ ([1, 2, 3, 5] : List ℚ).Sorted (· ≤ ·) ∧
    ([1, 2, 3, 5] : List ℚ).Perm [3, 1, 2, 5] ∧
    ∃ vec' stat, statistics (fun x : ℚ => x) [3, 1, 2, 5] = some (vec', stat) ∧
      (([3, 1, 2, 5] : List ℚ).length % 4 ≠ 0 →
        ∃ a, ([1, 2, 3, 5] : List ℚ)[([3, 1, 2, 5] : List ℚ).length / 4]? = some a ∧
          stat[4]? = some a) ∧
      (([3, 1, 2, 5] : List ℚ).length % 4 = 0 →
        ∃ a b, ([1, 2, 3, 5] : List ℚ)[([3, 1, 2, 5] : List ℚ).length / 4 - 1]? = some a ∧
          ([1, 2, 3, 5] : List ℚ)[([3, 1, 2, 5] : List ℚ).length / 4]? = some b ∧
          stat[4]? = some ((a + b) / 2)) :=
  ⟨by simp, by norm_num, by decide,
    statistics_q1 (fun x : ℚ => x) [3, 1, 2, 5] [1, 2, 3, 5] (by simp) (by norm_num) (by decide)⟩

/-- C2. For a non-empty sample set of size n, with s any ascending-sorted arrangement of the
samples, `statistics` succeeds and its median entry (position 5 of the returned vector) is
s[n/2] when n is odd, and (s[n/2 - 1] + s[n/2]) / 2 when n is even. -/
theorem statistics_median (sqrt : α → α) (vec s : List α) (hne : vec ≠ [])
    (hs : s.Sorted (· ≤ ·)) (hp : s.Perm vec) :
    ∃ vec' stat, statistics sqrt vec = some (vec', stat) ∧
      (vec.length % 2 ≠ 0 → ∃ a, s[vec.length / 2]? = some a ∧ stat[5]? = some a) ∧
      (vec.length % 2 = 0 → ∃ a b, s[vec.length / 2 - 1]? = some a ∧
        s[vec.length / 2]? = some b ∧ stat[5]? = some ((a + b) / 2)) := by
  have hsort := insertionSort_eq_of_sorted_perm vec s hs hp
  have hlen : s.length = vec.length := hp.length_eq
  have hpos : 0 < vec.length := List.length_pos.mpr hne
  refine ⟨_, _, statistics_eq sqrt vec hne, ?_, ?_⟩
  · intro h2
    refine ⟨s.getD (vec.length / 2) 0, getElem?_getD_of_lt s _ (by omega), ?_⟩
    simp [hsort, quartileAt, hlen, h2]
  · intro h2
    refine ⟨s.getD (vec.length / 2 - 1) 0, s.getD (vec.length / 2) 0,
      getElem?_getD_of_lt s _ (by omega), getElem?_getD_of_lt s _ (by omega), ?_⟩
    simp [hsort, quartileAt, hlen, h2]

/-- Witness for C2 on the samples 4, 1, 9 (n = 3, odd). -/
theorem statistics_median_witness :
    ([4, 1, 9] : List ℚ) ≠ [] ∧ ([1, 4, 9] : List ℚ).Sorted (· ≤ ·) ∧
    ([1, 4, 9] : List ℚ).Perm [4, 1, 9] ∧
    ∃ vec' stat, statistics (fun x : ℚ => x) [4, 1, 9] = some (vec', stat) ∧
      (([4, 1, 9] : List ℚ).length % 2 ≠ 0 →
        ∃ a, ([1, 4, 9] : List ℚ)[([4, 1, 9] : List ℚ).length / 2]? = some a ∧
          stat[5]? = some a) ∧
      (([4, 1, 9] : List ℚ).length % 2 = 0 →
        ∃ a b, ([1, 4, 9] : List ℚ)[([4, 1, 9] : List ℚ).length / 2 - 1]? = some a ∧
          ([1, 4, 9] : List ℚ)[([4, 1, 9] : List ℚ).length / 2]? = some b ∧
          stat[5]? = some ((a + b) / 2)) :=
  ⟨by simp, by norm_num, by decide,
    statistics_median (fun x : ℚ => x) [4, 1, 9] [1, 4, 9] (by simp) (by norm_num) (by decide)⟩

/-- C3. For a non-empty sample set of size n, with s any ascending-sorted arrangement of the
samples, `statistics` succeeds and its q3 entry (position 6 of the returned vector) is
s[floor(3n/4)] when n mod 4 is not 0, and (s[floor(3n/4) - 1] + s[floor(3n/4)]) / 2 when
n mod 4 is 0. -/
theorem statistics_q3 (sqrt : α → α) (vec s : List α) (hne : vec ≠ [])
    (hs : s.Sorted (· ≤ ·)) (hp : s.Perm vec) :
    ∃ vec' stat, statistics sqrt vec = some (vec', stat) ∧
      (vec.length % 4 ≠ 0 → ∃ a, s[3 * vec.length / 4]? = some a ∧ stat[6]? = some a) ∧
      (vec.length % 4 = 0 → ∃ a b, s[3 * vec.length / 4 - 1]? = some a ∧
        s[3 * vec.length / 4]? = some b ∧ stat[6]? = some ((a + b) / 2)) := by
  have hsort := insertionSort_eq_of_sorted_perm vec s hs hp
  have hlen : s.length = vec.length := hp.length_eq
  have hpos : 0 < vec.length := List.length_pos.mpr hne
  refine ⟨_, _, statistics_eq sqrt vec hne, ?_, ?_⟩
  · intro h4
    refine ⟨s.getD (3 * vec.length / 4) 0, getElem?_getD_of_lt s _ (by omega), ?_⟩
    simp [hsort, quartileAt, hlen, h4]
  · intro h4
    refine ⟨s.getD (3 * vec.length / 4 - 1) 0, s.getD (3 * vec.length / 4) 0,
      getElem?_getD_of_lt s _ (by omega), getElem?_getD_of_lt s _ (by omega), ?_⟩
    simp [hsort, quartileAt, hlen, h4]

/-- Witness for C3 on the samples 7, 3, 1, 2, 5 (n = 5, not a multiple of 4). -/
theorem statistics_q3_witness :
    ([7, 3, 1, 2, 5] : List ℚ) ≠ [] ∧ ([1, 2, 3, 5, 7] : List ℚ).Sorted (· ≤ ·) ∧
    ([1, 2, 3, 5, 7] : List ℚ).Perm [7, 3, 1, 2, 5] ∧
    ∃ vec' stat, statistics (fun x : ℚ => x) [7, 3, 1, 2, 5] = some (vec', stat) ∧
      (([7, 3, 1, 2, 5] : List ℚ).length % 4 ≠ 0 →
        ∃ a, ([1, 2, 3, 5, 7] : List ℚ)[3 * ([7, 3, 1, 2, 5] : List ℚ).length / 4]? = some a ∧
          stat[6]? = some a) ∧
      (([7, 3, 1, 2, 5] : List ℚ).length % 4 = 0 →
        ∃ a b,
          ([1, 2, 3, 5, 7] : List ℚ)[3 * ([7, 3, 1, 2, 5] : List ℚ).length / 4 - 1]? = some a ∧
          ([1, 2, 3, 5, 7] : List ℚ)[3 * ([7, 3, 1, 2, 5] : List ℚ).length / 4]? = some b ∧
          stat[6]? = some ((a + b) / 2)) :=
  ⟨by simp, by norm_num, by decide,
    statistics_q3 (fun x : ℚ => x) [7, 3, 1, 2, 5] [1, 2, 3, 5, 7] (by simp) (by norm_num)
      (by decide)⟩

end StatisticsClaims

/-! ### Mean and standard deviation (C4) -/

section MeanStdevClaims

variable {β K : Type} [LinearOrderedField K]

set_option maxRecDepth 100000 in
/-- C4 as stated fails in binary32.  On the samples 1e8, 1, -1e8 (all three exact in
binary32) the running sum of the sorted vector is (-1e8 + 1) + 1e8; the first addition rounds
to -1e8, so the mean entry is 0 and mean * 3 is not the sum 1 of the samples.  On the samples
3, 1, 2, 5 the mean 2.75 and the sum 8.75 of the squared deviations are exact, but the square
root of 8.75 / 4 rounds to 12406919 * 2^(-23), whose square times 4 is not 8.75. -/
theorem statistics_mean_rounds :
    [F32.ofNat 100000000, F32.ofNat 1, F32.neg (F32.ofNat 100000000)]
      = [F32.fin (100000000 * 2 ^ 149), F32.fin (2 ^ 149), F32.fin (-(100000000 * 2 ^ 149))] ∧
    (binary32.statistics (fun _ => F32.nan)
        [F32.ofNat 100000000, F32.ofNat 1, F32.neg (F32.ofNat 100000000)]).2[2]?
      = some (F32.fin 0) ∧
    (0 : Int) * 3 ≠ 100000000 * 2 ^ 149 + 2 ^ 149 + -(100000000 * 2 ^ 149) ∧
    [F32.ofNat 3, F32.ofNat 1, F32.ofNat 2, F32.ofNat 5]
      = [F32.fin (3 * 2 ^ 149), F32.fin (2 ^ 149), F32.fin (2 * 2 ^ 149),
          F32.fin (5 * 2 ^ 149)] ∧
    (binary32.statistics (fun _ => F32.nan)
        [F32.ofNat 3, F32.ofNat 1, F32.ofNat 2, F32.ofNat 5]).2[2]?
      = some (F32.fin (11 * 2 ^ 147)) ∧
    (binary32.statistics (fun _ => F32.nan)
        [F32.ofNat 3, F32.ofNat 1, F32.ofNat 2, F32.ofNat 5]).2[3]?
      = some (F32.fin (12406919 * 2 ^ 126)) ∧
    (12406919 * 2 ^ 126 : Int) ^ 2 * 4 ≠ 35 * 2 ^ 296 := by
  decide

/-- C4 (amended). For every non-empty sample set x_1..x_n the mean and stdev entries are the
formulas (sum of x_i) / n and sqrt(sum_i (x_i - mean)^2 / n), with divisor n and not n - 1,
evaluated in the arithmetic of `float`: the samples are taken in ascending order and the two
sums are running sums that start from 0.0.  Whenever none of the operations performed for
the mean rounds, the mean entry equals (sum of x_i) / n; whenever in addition none of the
operations performed for the standard deviation rounds, the stdev entry equals
sqrt(sum_i (x_i - mean)^2 / n), so that stdev^2 * n = sum_i (x_i - mean)^2 (the square root
being exact there).  In exact arithmetic no operation rounds.  Here `φ x` is the number
that the `float` value `x` stands for. -/
theorem statistics_mean_stdev_rounded (A : FloatOps β) (φ : β → K) (sqrtK : K → K)
    (junk : Nat → β) (vec : List β) (hne : vec ≠ []) :
    (∃ mean stdev, (A.statistics junk vec).2[2]? = some mean ∧
      (A.statistics junk vec).2[3]? = some stdev ∧
      mean = A.div ((A.sorted vec).foldl A.add A.zero) (A.ofNat vec.length) ∧
      stdev = A.sqrt (A.div ((A.sorted vec).foldl
        (fun accum f => A.add accum (A.mul (A.sub f mean) (A.sub f mean))) A.zero)
        (A.ofNat vec.length)) ∧
      (A.MeanExact φ vec → φ mean = (vec.map φ).sum / (vec.length : K) ∧
        (A.StdevExact φ sqrtK vec →
          φ stdev = sqrtK ((vec.map (fun x => (φ x - φ mean) ^ 2)).sum / (vec.length : K)) ∧
          (sqrtK ((vec.map (fun x => (φ x - φ mean) ^ 2)).sum / (vec.length : K)) ^ 2
              = (vec.map (fun x => (φ x - φ mean) ^ 2)).sum / (vec.length : K) →
            φ stdev ^ 2 * (vec.length : K) = (vec.map (fun x => (φ x - φ mean) ^ 2)).sum)))) ∧
    ∀ v : List K, (FloatOps.exact sqrtK).MeanExact id v ∧
      (FloatOps.exact sqrtK).StdevExact id sqrtK v := by
  refine ⟨⟨A.mean vec, A.stdev vec, ?_, ?_, rfl, rfl, ?_⟩,
    fun v => ⟨exact_meanExact sqrtK v, exact_stdevExact sqrtK v⟩⟩
  · simp [FloatOps.statistics, FloatOps.mean, FloatOps.sorted]
  · simp [FloatOps.statistics, FloatOps.stdev, FloatOps.accum, FloatOps.dev, FloatOps.mean,
      FloatOps.sorted]
  · intro hmean
    refine ⟨mean_of_exact A φ vec hmean, fun hstd => ?_⟩
    have hs := stdev_of_exact A φ sqrtK vec hmean hstd
    refine ⟨hs, fun hexact => ?_⟩
    have hn : (vec.length : K) ≠ 0 := by
      have : 0 < vec.length := List.length_pos.mpr hne
      exact_mod_cast this.ne'
    rw [hs, hexact]
    field_simp

set_option maxRecDepth 100000 in
/-- Witness for C4 in binary32: on the samples 3, 1 no operation rounds, the mean entry
stands for 2 and the stdev entry for 1 (divisor 2, not 1). -/
theorem statistics_mean_stdev_rounded_witness :
    [F32.ofNat 3, F32.ofNat 1] ≠ [] ∧
    binary32.MeanExact (fun x => ((F32.toRat x : ℚ) : ℝ)) [F32.ofNat 3, F32.ofNat 1] ∧
    binary32.StdevExact (fun x => ((F32.toRat x : ℚ) : ℝ)) Real.sqrt
      [F32.ofNat 3, F32.ofNat 1] ∧
    ∃ mean stdev,
      (binary32.statistics (fun _ => F32.nan) [F32.ofNat 3, F32.ofNat 1]).2[2]? = some mean ∧
      (binary32.statistics (fun _ => F32.nan) [F32.ofNat 3, F32.ofNat 1]).2[3]? = some stdev ∧
      ((F32.toRat mean : ℚ) : ℝ) = 2 ∧ ((F32.toRat stdev : ℚ) : ℝ) = 1 := by
  have hmean : binary32.MeanExact (fun x => ((F32.toRat x : ℚ) : ℝ))
      [F32.ofNat 3, F32.ofNat 1] :=
    binary32_meanExact _ (by decide) (by decide) (by decide)
  have hstd : binary32.StdevExact (fun x => ((F32.toRat x : ℚ) : ℝ)) Real.sqrt
      [F32.ofNat 3, F32.ofNat 1] :=
    binary32_stdevExact _ (by decide) (by decide) (by decide) (by decide)
  obtain ⟨⟨mean, stdev, h2, h3, -, -, hex⟩, -⟩ :=
    statistics_mean_stdev_rounded binary32 (fun x => ((F32.toRat x : ℚ) : ℝ)) Real.sqrt
      (fun _ => F32.nan) [F32.ofNat 3, F32.ofNat 1] (by simp)
  have h3v : F32.toRat (F32.ofNat 3) = 3 := toRat_ofNat 3 (by decide)
  have h1v : F32.toRat (F32.ofNat 1) = 1 := toRat_ofNat 1 (by decide)
  have hm := (hex hmean).1
  have hs := ((hex hmean).2 hstd).1
  have hm2 : ((F32.toRat mean : ℚ) : ℝ) = 2 := by
    rw [hm]
    simp only [List.map_cons, List.map_nil, List.sum_cons, List.sum_nil, h3v, h1v,
      List.length_cons, List.length_nil]
    norm_num
  have hs1 : ((F32.toRat stdev : ℚ) : ℝ) = 1 := by
    rw [hs, hm2]
    simp only [List.map_cons, List.map_nil, List.sum_cons, List.sum_nil, h3v, h1v,
      List.length_cons, List.length_nil]
    norm_num
  exact ⟨by simp, hmean, hstd, mean, stdev, h2, h3, hm2, hs1⟩

end MeanStdevClaims

/-! ### Count maps, merging and `cellExistence` (C6, C7) -/

section NonFaulting

variable {σ : Type} {α : Type}

/-- Every non-faulting simulator is given by total functions, so a statement proved for all
`Stub`s holds for all non-faulting simulators. -/
theorem exists_stub_of_nonFaulting (sim : Simulation σ α) (h : sim.NonFaulting) :
    ∃ T : Stub σ α, T.toSimulation = sim := by
  obtain ⟨h1, h2, h3, h4, h5, h6, h7⟩ := h
  choose f1 hf1 using h1
  choose f2 hf2 using h2
  choose f3 hf3 using h3
  choose f4 hf4 using h4
  choose f5 hf5 using h5
  choose f6 hf6 using h6
  choose f7 hf7 using h7
  refine ⟨⟨f1, f2, f3, f4, f5, f6, f7, fun s => (hf6 s).2⟩, ?_⟩
  cases sim
  simp only [Stub.toSimulation, Simulation.mk.injEq]
  refine ⟨?_, ?_, ?_, ?_, ?_, ?_, ?_⟩
  · funext pgm; exact (hf1 pgm).symm
  · funext s; exact (hf2 s).symm
  · funext s; exact (hf3 s).symm
  · funext s a b c d; exact (hf4 s a b c d).symm
  · funext s; exact (hf5 s).symm
  · funext s; exact (hf6 s).1.symm
  · funext s a b; exact (hf7 s a b).symm

theorem nonFaulting_toSimulation (T : Stub σ α) : T.toSimulation.NonFaulting :=
  ⟨fun _ => ⟨_, rfl⟩, fun _ => ⟨_, rfl⟩, fun _ => ⟨_, rfl⟩, fun _ _ _ _ _ => ⟨_, rfl⟩,
    fun _ => ⟨_, rfl⟩, fun s => ⟨_, rfl, T.cellCount_wf s⟩, fun _ _ _ => ⟨_, rfl⟩⟩

end NonFaulting

section MapLemmas

theorem mapFind_eq_none_of_lt (m : CountMap) (name : String)
    (h : ∀ x ∈ m, name < x.1) : mapFind m name = none := by
  induction m with
  | nil => rfl
  | cons e m ih =>
    obtain ⟨k, v⟩ := e
    have hk : name < k := h (k, v) (List.mem_cons_self _ _)
    simp only [mapFind, if_neg (ne_of_lt hk)]
    exact ih (fun x hx => h x (List.mem_cons_of_mem _ hx))

theorem mapFind_mem {m : CountMap} {name : String} {c : Nat} (h : mapFind m name = some c) :
    (name, c) ∈ m := by
  induction m with
  | nil => simp [mapFind] at h
  | cons e m ih =>
    obtain ⟨k, v⟩ := e
    by_cases hk : name = k
    · simp [mapFind, hk] at h
      simp [hk, h]
    · simp only [mapFind, if_neg hk] at h
      exact List.mem_cons_of_mem _ (ih h)

theorem mapFind_of_mem {m : CountMap} (hm : m.Pairwise (fun a b => a.1 < b.1))
    {name : String} {c : Nat} (h : (name, c) ∈ m) : mapFind m name = some c := by
  induction m with
  | nil => simp at h
  | cons e m ih =>
    obtain ⟨k, v⟩ := e
    obtain ⟨hlt, hm'⟩ := List.pairwise_cons.mp hm
    rcases List.mem_cons.mp h with heq | hin
    · simp only [Prod.mk.injEq] at heq
      simp [mapFind, heq.1, heq.2]
    · have : k < name := hlt _ hin
      simp only [mapFind, if_neg (ne_of_gt this)]
      exact ih hm' hin

theorem mapFind_isSome_iff (m : CountMap) (name : String) :
    (mapFind m name).isSome ↔ name ∈ m.map Prod.fst := by
  induction m with
  | nil => simp [mapFind]
  | cons e m ih =>
    obtain ⟨k, v⟩ := e
    by_cases hk : name = k
    · simp [mapFind, hk]
    · simp only [mapFind, if_neg hk, ih]
      simp [hk]

/-- Two maps with the same lookups are the same map. -/
theorem countMap_ext (m₁ m₂ : CountMap) (h₁ : m₁.Pairwise (fun a b => a.1 < b.1))
    (h₂ : m₂.Pairwise (fun a b => a.1 < b.1))
    (h : ∀ name, mapFind m₁ name = mapFind m₂ name) : m₁ = m₂ := by
  induction m₁ generalizing m₂ with
  | nil =>
    cases m₂ with
    | nil => rfl
    | cons e m =>
      obtain ⟨k, v⟩ := e
      have := h k
      simp [mapFind] at this
  | cons e₁ m₁ ih =>
    obtain ⟨k₁, v₁⟩ := e₁
    obtain ⟨hlt₁, hm₁⟩ := List.pairwise_cons.mp h₁
    cases m₂ with
    | nil =>
      have := h k₁
      simp [mapFind] at this
    | cons e₂ m₂ =>
      obtain ⟨k₂, v₂⟩ := e₂
      obtain ⟨hlt₂, hm₂⟩ := List.pairwise_cons.mp h₂
      have hk : k₁ = k₂ := by
        rcases lt_trichotomy k₁ k₂ with hlt | heq | hgt
        · have h1 := h k₁
          rw [mapFind_eq_none_of_lt ((k₂, v₂) :: m₂) k₁] at h1
          · simp [mapFind] at h1
          · intro x hx
            rcases List.mem_cons.mp hx with rfl | hx
            · exact hlt
            · exact lt_trans hlt (hlt₂ x hx)
        · exact heq
        · have h1 := h k₂
          rw [mapFind_eq_none_of_lt ((k₁, v₁) :: m₁) k₂] at h1
          · simp [mapFind] at h1
          · intro x hx
            rcases List.mem_cons.mp hx with rfl | hx
            · exact hgt
            · exact lt_trans hgt (hlt₁ x hx)
      subst hk
      have hv : v₁ = v₂ := by
        have := h k₁
        simpa [mapFind] using this
      subst hv
      congr 1
      apply ih m₂ hm₁ hm₂
      intro name
      by_cases hn : name = k₁
      · subst hn
        rw [mapFind_eq_none_of_lt m₁ name (fun x hx => hlt₁ x hx),
          mapFind_eq_none_of_lt m₂ name (fun x hx => hlt₂ x hx)]
      · have := h name
        simpa [mapFind, hn] using this

end MapLemmas

section MergeLemmas

theorem mem_mapInsert {m : CountMap} {e x : String × Nat} (h : x ∈ mapInsert m e) :
    x = e ∨ x ∈ m := by
  induction m with
  | nil => simpa [mapInsert] using h
  | cons y m ih =>
    obtain ⟨k, v⟩ := y
    simp only [mapInsert] at h
    split_ifs at h with h1 h2
    · exact Or.inr h
    · rcases List.mem_cons.mp h with rfl | h
      · exact Or.inl rfl
      · exact Or.inr h
    · rcases List.mem_cons.mp h with rfl | h
      · exact Or.inr (List.mem_cons_self _ _)
      · rcases ih h with rfl | h
        · exact Or.inl rfl
        · exact Or.inr (List.mem_cons_of_mem _ h)

theorem mapInsert_sorted {m : CountMap} (hm : m.Pairwise (fun a b => a.1 < b.1))
    (e : String × Nat) : (mapInsert m e).Pairwise (fun a b => a.1 < b.1) := by
  induction m with
  | nil => simp [mapInsert]
  | cons y m ih =>
    obtain ⟨k, v⟩ := y
    obtain ⟨hlt, hm'⟩ := List.pairwise_cons.mp hm
    simp only [mapInsert]
    split_ifs with h1 h2
    · exact hm
    · refine List.pairwise_cons.mpr ⟨?_, hm⟩
      intro x hx
      rcases List.mem_cons.mp hx with rfl | hx
      · exact h2
      · exact lt_trans h2 (hlt x hx)
    · refine List.pairwise_cons.mpr ⟨?_, ih hm'⟩
      intro x hx
      rcases mem_mapInsert hx with rfl | hx
      · exact lt_of_le_of_ne (not_lt.mp h2) (Ne.symm h1)
      · exact hlt x hx

theorem mapFind_mapInsert {m : CountMap} {e : String × Nat} (h : mapFind m e.1 = none)
    (name : String) :
    mapFind (mapInsert m e) name = if name = e.1 then some e.2 else mapFind m name := by
  induction m with
  | nil => simp [mapInsert, mapFind]
  | cons y m ih =>
    obtain ⟨k, v⟩ := y
    by_cases h1 : e.1 = k
    · simp [mapFind, h1] at h
    · simp only [mapFind, if_neg h1] at h
      simp only [mapInsert, if_neg h1]
      by_cases h2 : e.1 < k
      · simp only [if_pos h2, mapFind]
      · simp only [if_neg h2, mapFind, ih h]
        by_cases h3 : name = k
        · subst h3
          simp [Ne.symm h1]
        · simp [h3]

theorem mem_mapAddAt {m : CountMap} {name : String} {count : Nat} {x : String × Nat}
    (h : x ∈ mapAddAt m name count) : x.1 = name ∨ x ∈ m := by
  induction m with
  | nil =>
    simp only [mapAddAt, List.mem_singleton] at h
    exact Or.inl (by rw [h])
  | cons y m ih =>
    obtain ⟨k, v⟩ := y
    simp only [mapAddAt] at h
    split_ifs at h with h1 h2
    · rcases List.mem_cons.mp h with rfl | h
      · exact Or.inl h1.symm
      · exact Or.inr (List.mem_cons_of_mem _ h)
    · rcases List.mem_cons.mp h with rfl | h
      · exact Or.inl rfl
      · exact Or.inr h
    · rcases List.mem_cons.mp h with rfl | h
      · exact Or.inr (List.mem_cons_self _ _)
      · rcases ih h with h | h
        · exact Or.inl h
        · exact Or.inr (List.mem_cons_of_mem _ h)

theorem mapAddAt_sorted {m : CountMap} (hm : m.Pairwise (fun a b => a.1 < b.1))
    (name : String) (count : Nat) :
    (mapAddAt m name count).Pairwise (fun a b => a.1 < b.1) := by
  induction m with
  | nil => simp [mapAddAt]
  | cons y m ih =>
    obtain ⟨k, v⟩ := y
    obtain ⟨hlt, hm'⟩ := List.pairwise_cons.mp hm
    simp only [mapAddAt]
    split_ifs with h1 h2
    · exact List.pairwise_cons.mpr ⟨hlt, hm'⟩
    · refine List.pairwise_cons.mpr ⟨?_, hm⟩
      intro x hx
      rcases List.mem_cons.mp hx with rfl | hx
      · exact h2
      · exact lt_trans h2 (hlt x hx)
    · refine List.pairwise_cons.mpr ⟨?_, ih hm'⟩
      intro x hx
      rcases mem_mapAddAt hx with hx | hx
      · rw [hx]
        exact lt_of_le_of_ne (not_lt.mp h2) (Ne.symm h1)
      · exact hlt x hx

theorem mapFind_mapAddAt {m : CountMap} (hm : m.Pairwise (fun a b => a.1 < b.1))
    {k : String} {a : Nat} (h : mapFind m k = some a) (count : Nat) (name : String) :
    mapFind (mapAddAt m k count) name
      = if name = k then some ((a + count) % 2 ^ 32) else mapFind m name := by
  induction m with
  | nil => simp [mapFind] at h
  | cons y m ih =>
    obtain ⟨k', v⟩ := y
    obtain ⟨hlt, hm'⟩ := List.pairwise_cons.mp hm
    by_cases h1 : k = k'
    · subst h1
      simp only [mapFind, if_true] at h
      simp only [Option.some.injEq] at h
      subst h
      by_cases h2 : name = k
      · simp [mapAddAt, mapFind, h2]
      · simp [mapAddAt, mapFind, h2]
    · simp only [mapFind, if_neg h1] at h
      have h2 : ¬ k < k' := by
        intro hlt'
        rw [mapFind_eq_none_of_lt m k (fun x hx => lt_trans hlt' (hlt x hx))] at h
        simp at h
      simp only [mapAddAt, if_neg h1, if_neg h2, mapFind, ih hm' h]
      by_cases h3 : name = k'
      · subst h3
        simp [Ne.symm h1]
      · simp [h3]

theorem mergeCount_sorted {total : CountMap} (hm : total.Pairwise (fun a b => a.1 < b.1))
    (e : String × Nat) : (mergeCount total e).Pairwise (fun a b => a.1 < b.1) := by
  unfold mergeCount
  split_ifs
  · exact mapInsert_sorted hm e
  · exact mapAddAt_sorted hm _ _

theorem mapFind_mergeCount {total : CountMap} (hm : total.Pairwise (fun a b => a.1 < b.1))
    (e : String × Nat) (name : String) :
    mapFind (mergeCount total e) name
      = if name = e.1 then combineCount (mapFind total e.1) (some e.2)
        else mapFind total name := by
  unfold mergeCount
  cases h : mapFind total e.1 with
  | none => simp [mapFind_mapInsert h, combineCount]
  | some a => simp [mapFind_mapAddAt hm h, combineCount]

theorem mergeTable_sorted {total : CountMap} (hm : total.Pairwise (fun a b => a.1 < b.1))
    (res : CountMap) : (mergeTable total res).Pairwise (fun a b => a.1 < b.1) := by
  induction res generalizing total with
  | nil => exact hm
  | cons e res ih => exact ih (mergeCount_sorted hm e)

theorem combineCount_none_right (a : Option Nat) : combineCount a none = a := by
  cases a <;> rfl

theorem mapFind_mergeTable {total : CountMap} (hm : total.Pairwise (fun a b => a.1 < b.1))
    {res : CountMap} (hr : res.Pairwise (fun a b => a.1 < b.1)) (name : String) :
    mapFind (mergeTable total res) name
      = combineCount (mapFind total name) (mapFind res name) := by
  induction res generalizing total with
  | nil => simp [mergeTable, mapFind, combineCount_none_right]
  | cons e res ih =>
    obtain ⟨k, v⟩ := e
    obtain ⟨hlt, hr'⟩ := List.pairwise_cons.mp hr
    have hstep : mergeTable total ((k, v) :: res) = mergeTable (mergeCount total (k, v)) res :=
      rfl
    rw [hstep, ih (mergeCount_sorted hm _) hr', mapFind_mergeCount hm]
    by_cases h : name = k
    · subst h
      simp [mapFind, mapFind_eq_none_of_lt res name (fun x hx => hlt x hx),
        combineCount_none_right]
    · simp [mapFind, h]

end MergeLemmas

section MergeAlgebra

theorem combineCount_comm (a b : Option Nat) : combineCount a b = combineCount b a := by
  cases a <;> cases b <;> simp [combineCount, Nat.add_comm]

theorem combineCount_assoc (a b c : Option Nat) :
    combineCount (combineCount a b) c = combineCount a (combineCount b c) := by
  cases a <;> cases b <;> cases c <;> simp [combineCount]
  omega

theorem combineCount_right_comm (a b c : Option Nat) :
    combineCount (combineCount a b) c = combineCount (combineCount a c) b := by
  rw [combineCount_assoc, combineCount_comm b c, ← combineCount_assoc]

theorem mapFind_foldl_mergeTable (ts : List CountMap)
    (hts : ∀ t ∈ ts, t.Pairwise (fun a b : String × Nat => a.1 < b.1))
    (total : CountMap) (hm : total.Pairwise (fun a b => a.1 < b.1)) (name : String) :
    (ts.foldl mergeTable total).Pairwise (fun a b => a.1 < b.1) ∧
    mapFind (ts.foldl mergeTable total) name
      = (ts.map (fun t => mapFind t name)).foldl combineCount (mapFind total name) := by
  induction ts generalizing total with
  | nil => exact ⟨hm, rfl⟩
  | cons t ts ih =>
    have ht := hts t (List.mem_cons_self _ _)
    have := ih (fun t' ht' => hts t' (List.mem_cons_of_mem _ ht')) (mergeTable total t)
      (mergeTable_sorted hm t)
    simp only [List.foldl_cons, List.map_cons]
    rw [← mapFind_mergeTable hm ht]
    exact this

theorem mergeCount_right_comm {total : CountMap}
    (hm : total.Pairwise (fun a b => a.1 < b.1)) (e₁ e₂ : String × Nat) :
    mergeCount (mergeCount total e₁) e₂ = mergeCount (mergeCount total e₂) e₁ := by
  apply countMap_ext _ _ (mergeCount_sorted (mergeCount_sorted hm e₁) e₂)
    (mergeCount_sorted (mergeCount_sorted hm e₂) e₁)
  intro name
  rw [mapFind_mergeCount (mergeCount_sorted hm e₁), mapFind_mergeCount hm,
    mapFind_mergeCount (mergeCount_sorted hm e₂), mapFind_mergeCount hm,
    mapFind_mergeCount hm, mapFind_mergeCount hm]
  by_cases h12 : e₁.1 = e₂.1
  · by_cases h1 : name = e₁.1
    · have h2 : name = e₂.1 := h1.trans h12
      simp only [← h2, ← h1, if_true]
      exact combineCount_right_comm _ _ _
    · have h2 : ¬ name = e₂.1 := fun h => h1 (h.trans h12.symm)
      simp only [if_neg h1, if_neg h2]
  · have h21 : ¬ e₂.1 = e₁.1 := fun h => h12 h.symm
    by_cases h1 : name = e₁.1
    · have h2 : ¬ name = e₂.1 := fun h => h12 (h1.symm.trans h)
      simp only [if_neg h2, if_pos h1, if_neg h12]
    · by_cases h2 : name = e₂.1
      · simp only [if_pos h2, if_neg h1, if_neg h21]
      · simp only [if_neg h1, if_neg h2]

end MergeAlgebra

section MergeClaims

/-- C7. On count tables (maps with strictly ascending keys and counts below 2 ^ 32) the merge
of `cellExistence` is commutative and associative: two entries can be merged into a running
total in either order, merging table B into A gives the same as merging A into B, merging is
associative, folding the tables of any permutation of a list of per-trial tables into the
empty total gives the same final table, and merging an empty table leaves the running total
unchanged (as does merging a table into the empty total). -/
theorem mergeTable_comm_assoc (A B C : CountMap) (ts ts' : List CountMap)
    (e₁ e₂ : String × Nat)
    (hA : A.WF) (hB : B.WF) (hC : C.WF) (hts : ∀ t ∈ ts, t.WF) (hperm : ts.Perm ts') :
    mergeCount (mergeCount A e₁) e₂ = mergeCount (mergeCount A e₂) e₁ ∧
    mergeTable A B = mergeTable B A ∧
    mergeTable (mergeTable A B) C = mergeTable A (mergeTable B C) ∧
    ts.foldl mergeTable [] = ts'.foldl mergeTable [] ∧
    mergeTable A [] = A ∧ mergeTable [] A = A := by
  have hnil : List.Pairwise (fun a b : String × Nat => a.1 < b.1) [] := List.Pairwise.nil
  refine ⟨mergeCount_right_comm hA.1 e₁ e₂, ?_, ?_, ?_, rfl, ?_⟩
  · apply countMap_ext _ _ (mergeTable_sorted hA.1 B) (mergeTable_sorted hB.1 A)
    intro name
    rw [mapFind_mergeTable hA.1 hB.1, mapFind_mergeTable hB.1 hA.1, combineCount_comm]
  · apply countMap_ext _ _ (mergeTable_sorted (mergeTable_sorted hA.1 B) C)
      (mergeTable_sorted hA.1 _)
    intro name
    rw [mapFind_mergeTable (mergeTable_sorted hA.1 B) hC.1, mapFind_mergeTable hA.1 hB.1,
      mapFind_mergeTable hA.1 (mergeTable_sorted hB.1 C), mapFind_mergeTable hB.1 hC.1,
      combineCount_assoc]
  · have hts1 : ∀ t ∈ ts, t.Pairwise (fun a b : String × Nat => a.1 < b.1) :=
      fun t ht => (hts t ht).1
    have hts2 : ∀ t ∈ ts', t.Pairwise (fun a b : String × Nat => a.1 < b.1) :=
      fun t ht => (hts t (hperm.mem_iff.mpr ht)).1
    apply countMap_ext _ _ (mapFind_foldl_mergeTable ts hts1 [] hnil "").1
      (mapFind_foldl_mergeTable ts' hts2 [] hnil "").1
    intro name
    rw [(mapFind_foldl_mergeTable ts hts1 [] hnil name).2,
      (mapFind_foldl_mergeTable ts' hts2 [] hnil name).2]
    haveI : RightCommutative combineCount := ⟨combineCount_right_comm⟩
    exact (hperm.map _).foldl_eq _
  · apply countMap_ext _ _ (mergeTable_sorted hnil A) hA.1
    intro name
    rw [mapFind_mergeTable hnil hA.1]
    rfl

/-- Witness for C7 on the tables A = {P0: 1}, B = {P0: 2, P1: 1}, C = {P2: 4}, the trial
lists [A, B] and [B, A], and the entries P1: 3 and P0: 7. -/
theorem mergeTable_comm_assoc_witness :
    CountMap.WF [("P0", 1)] ∧ CountMap.WF [("P0", 2), ("P1", 1)] ∧ CountMap.WF [("P2", 4)] ∧
    (∀ t ∈ [[("P0", 1)], [("P0", 2), ("P1", 1)]], CountMap.WF t) ∧
    List.Perm [[("P0", 1)], [("P0", 2), ("P1", 1)]] [[("P0", 2), ("P1", 1)], [("P0", 1)]] ∧
    (mergeCount (mergeCount [("P0", 1)] ("P1", 3)) ("P0", 7)
        = mergeCount (mergeCount [("P0", 1)] ("P0", 7)) ("P1", 3) ∧
      mergeTable [("P0", 1)] [("P0", 2), ("P1", 1)]
        = mergeTable [("P0", 2), ("P1", 1)] [("P0", 1)] ∧
      mergeTable (mergeTable [("P0", 1)] [("P0", 2), ("P1", 1)]) [("P2", 4)]
        = mergeTable [("P0", 1)] (mergeTable [("P0", 2), ("P1", 1)] [("P2", 4)]) ∧
      [[("P0", 1)], [("P0", 2), ("P1", 1)]].foldl mergeTable []
        = [[("P0", 2), ("P1", 1)], [("P0", 1)]].foldl mergeTable [] ∧
      mergeTable [("P0", 1)] [] = [("P0", 1)] ∧ mergeTable [] [("P0", 1)] = [("P0", 1)]) := by
  have hA : CountMap.WF [("P0", 1)] := by simp [CountMap.WF]
  have hB : CountMap.WF [("P0", 2), ("P1", 1)] := by
    simp [CountMap.WF]
    decide
  have hC : CountMap.WF [("P2", 4)] := by simp [CountMap.WF]
  have hts : ∀ t ∈ [[("P0", 1)], [("P0", 2), ("P1", 1)]], CountMap.WF t := by
    intro t ht
    simp only [List.mem_cons, List.mem_singleton, List.not_mem_nil, or_false] at ht
    rcases ht with rfl | rfl
    · exact hA
    · exact hB
  exact ⟨hA, hB, hC, hts, List.Perm.swap _ _ _,
    mergeTable_comm_assoc [("P0", 1)] [("P0", 2), ("P1", 1)] [("P2", 4)]
      [[("P0", 1)], [("P0", 2), ("P1", 1)]] [[("P0", 2), ("P1", 1)], [("P0", 1)]]
      ("P1", 3) ("P0", 7) hA hB hC hts (List.Perm.swap _ _ _)⟩

end MergeClaims

section ExceptLemmas

variable {σ : Type} {α : Type} [LinearOrderedField α]

theorem cellExistenceLoop_stub (T : Stub σ α) (condition : String) (n : Nat) (s : σ)
    (total : CountMap) :
    cellExistenceLoop T.toSimulation condition n s total
      = .ok (((List.range n).map
          (fun i => T.cellCount ((T.step condition)^[i + 1] s))).foldl mergeTable total,
          (T.step condition)^[n] s) := by
  induction n generalizing s total with
  | zero => rfl
  | succ n ih =>
    have hstep : cellExistenceLoop T.toSimulation condition (n + 1) s total
        = cellExistenceLoop T.toSimulation condition n (T.step condition s)
            (mergeTable total (T.cellCount (T.step condition s))) := rfl
    rw [hstep, ih, List.range_succ_eq_map]
    simp only [List.map_cons, List.map_map, List.foldl_cons, Function.iterate_succ_apply,
      Function.iterate_zero, id_eq]
    rfl

theorem cellExistence_stub (T : Stub σ α) (programs : List String) (condition : String)
    (n : Nat) :
    cellExistence T.toSimulation programs condition n
      = (((List.range n).map
          (fun i => T.cellCount (T.trialState programs condition (i + 1)))).foldl
            mergeTable []).map (fun e => e.1 ++ ": " ++ toString e.2) := by
  have h : cellExistenceTry T.toSimulation programs condition n
      = (cellExistenceLoop T.toSimulation condition n (T.create programs) []).bind
          (fun r => .ok (r.1.map (fun nameCount => nameCount.1 ++ ": " ++ to_string nameCount.2),
            r.2)) := rfl
  rw [cellExistence, h, cellExistenceLoop_stub]
  rfl

theorem foldl_combineCount (os : List (Option Nat))
    (hos : ∀ o ∈ os, ∀ v, o = some v → v < 2 ^ 32) (acc : Option Nat)
    (hacc : ∀ v, acc = some v → v < 2 ^ 32) :
    ((os.foldl combineCount acc).isSome ↔ (acc.isSome ∨ ∃ o ∈ os, o.isSome)) ∧
    (os.foldl combineCount acc).getD 0
      = (acc.getD 0 + (os.map (fun o => o.getD 0)).sum) % 2 ^ 32 := by
  induction os generalizing acc with
  | nil =>
    constructor
    · simp
    · cases acc with
      | none => simp
      | some a =>
        have := hacc a rfl
        simp only [List.foldl_nil, Option.getD_some, List.map_nil, List.sum_nil, Nat.add_zero]
        omega
  | cons o os ih =>
    have ho := hos o (List.mem_cons_self _ _)
    have hacc' : ∀ v, combineCount acc o = some v → v < 2 ^ 32 := by
      intro v hv
      cases acc with
      | none => exact ho v hv
      | some a =>
        cases o with
        | none => exact hacc v hv
        | some b =>
          simp only [combineCount, Option.some.injEq] at hv
          omega
    have hval : (combineCount acc o).getD 0 = (acc.getD 0 + o.getD 0) % 2 ^ 32 := by
      cases acc with
      | none =>
        cases o with
        | none => simp [combineCount]
        | some b =>
          have := ho b rfl
          simp only [combineCount, Option.getD_some, Option.getD_none, Nat.zero_add]
          omega
      | some a =>
        cases o with
        | none =>
          have := hacc a rfl
          simp only [combineCount, Option.getD_some, Option.getD_none, Nat.add_zero]
          omega
        | some b => simp [combineCount]
    have hsome : (combineCount acc o).isSome ↔ (acc.isSome ∨ o.isSome) := by
      cases acc <;> cases o <;> simp [combineCount]
    obtain ⟨h1, h2⟩ := ih (fun o' ho' => hos o' (List.mem_cons_of_mem _ ho')) _ hacc'
    constructor
    · simp only [List.foldl_cons, h1, hsome, List.mem_cons, exists_eq_or_imp, or_assoc]
    · simp only [List.foldl_cons, h2, hval, List.map_cons, List.sum_cons]
      omega

theorem list_range_map_sum (f : Nat → Nat) (n : Nat) :
    ((List.range n).map f).sum = ∑ i ∈ Finset.range n, f i := by
  induction n with
  | zero => simp
  | succ n ih => simp [List.range_succ, Finset.sum_range_succ, ih]

end ExceptLemmas

section CellExistenceClaims

variable {σ : Type} {α : Type} [LinearOrderedField α]

/-- C6 as stated fails when a total leaves the range of `unsigned int`: with two trials that
each report count 2 ^ 31 for P0, the sum of the counts is 4294967296, but the only line
returned is "P0: 0". -/
theorem cellExistence_total_wraps :
    cellExistence overflowStub.toSimulation ["P0"] "default" 2 = ["P0: 0"] ∧
    (∑ i ∈ Finset.range 2,
      countOf (overflowStub.cellCount (overflowStub.trialState ["P0"] "default" (i + 1))) "P0")
      = 4294967296 ∧
    "P0: 4294967296" ∉ cellExistence overflowStub.toSimulation ["P0"] "default" 2 := by
  have h : cellExistence overflowStub.toSimulation ["P0"] "default" 2 = ["P0: 0"] := by
    decide
  refine ⟨h, ?_, ?_⟩
  · decide
  · rw [h]
    decide

/-- C6 (amended). For a non-throwing simulator and trial count N, `cellExistence` returns the
lines "name: total" of a table with strictly ascending keys (so one line per name), whose
keys are exactly the names that occur in the count table of at least one of the N trials,
and whose total for a name is the sum of its counts over the N trials (absent counting 0)
reduced modulo 2 ^ 32, hence the sum itself whenever that is below 2 ^ 32.  When N = 5 and
every trial reports count 1 for each of P0 and P1, the result is ["P0: 5", "P1: 5"]. -/
theorem cellExistence_totals (T : Stub σ α) (programs : List String) (condition : String)
    (N : Nat) :
    (∃ total : CountMap,
      cellExistence T.toSimulation programs condition N
        = total.map (fun e => e.1 ++ ": " ++ toString e.2) ∧
      total.Pairwise (fun a b => a.1 < b.1) ∧
      (∀ name, name ∈ total.map Prod.fst ↔
        ∃ k, 1 ≤ k ∧ k ≤ N ∧
          name ∈ (T.cellCount (T.trialState programs condition k)).map Prod.fst) ∧
      (∀ name v, (name, v) ∈ total →
        v = (∑ i ∈ Finset.range N,
              countOf (T.cellCount (T.trialState programs condition (i + 1))) name) % 2 ^ 32) ∧
      (∀ name v, (name, v) ∈ total →
        (∑ i ∈ Finset.range N,
              countOf (T.cellCount (T.trialState programs condition (i + 1))) name) < 2 ^ 32 →
        v = ∑ i ∈ Finset.range N,
              countOf (T.cellCount (T.trialState programs condition (i + 1))) name)) ∧
    (N = 5 →
      (∀ k, 1 ≤ k → k ≤ 5 →
        T.cellCount (T.trialState programs condition k) = [("P0", 1), ("P1", 1)]) →
      cellExistence T.toSimulation programs condition N = ["P0: 5", "P1: 5"]) := by
  have hnil : List.Pairwise (fun a b : String × Nat => a.1 < b.1) [] := List.Pairwise.nil
  have hres := cellExistence_stub T programs condition N
  constructor
  · generalize htab : (List.range N).map
      (fun i => T.cellCount (T.trialState programs condition (i + 1))) = tables at hres
    have hts : ∀ t ∈ tables, t.Pairwise (fun a b : String × Nat => a.1 < b.1) := by
      intro t ht
      rw [← htab] at ht
      obtain ⟨i, -, rfl⟩ := List.mem_map.mp ht
      exact (T.cellCount_wf _).1
    have hos : ∀ name, ∀ o ∈ tables.map (fun t => mapFind t name),
        ∀ v, o = some v → v < 2 ^ 32 := by
      intro name o ho v hv
      obtain ⟨t, ht, rfl⟩ := List.mem_map.mp ho
      rw [← htab] at ht
      obtain ⟨i, -, rfl⟩ := List.mem_map.mp ht
      exact (T.cellCount_wf _).2 _ (mapFind_mem hv)
    have hfold := fun name => mapFind_foldl_mergeTable tables hts [] hnil name
    have hcomb := fun name => foldl_combineCount (tables.map (fun t => mapFind t name))
      (hos name) none (by simp)
    have hsum : ∀ name, ((tables.map (fun t => mapFind t name)).map (fun o => o.getD 0)).sum
        = ∑ i ∈ Finset.range N,
            countOf (T.cellCount (T.trialState programs condition (i + 1))) name := by
      intro name
      rw [← list_range_map_sum, ← htab]
      simp only [List.map_map]
      rfl
    have hval : ∀ name v, (name, v) ∈ tables.foldl mergeTable [] →
        v = (∑ i ∈ Finset.range N,
              countOf (T.cellCount (T.trialState programs condition (i + 1))) name)
              % 2 ^ 32 := by
      intro name v hmem
      have hfind := mapFind_of_mem (hfold name).1 hmem
      have h2 := (hcomb name).2
      have hf : mapFind (tables.foldl mergeTable []) name
          = (tables.map (fun t => mapFind t name)).foldl combineCount none := (hfold name).2
      rw [← hf, hfind, hsum name] at h2
      simpa using h2
    refine ⟨tables.foldl mergeTable [], hres, (hfold "").1, ?_, hval, ?_⟩
    · intro name
      have hf : mapFind (tables.foldl mergeTable []) name
          = (tables.map (fun t => mapFind t name)).foldl combineCount none := (hfold name).2
      rw [← mapFind_isSome_iff, hf, (hcomb name).1]
      constructor
      · rintro (hfalse | ⟨o, ho, hsome⟩)
        · simp at hfalse
        · obtain ⟨t, ht, rfl⟩ := List.mem_map.mp ho
          rw [← htab] at ht
          obtain ⟨i, hi, rfl⟩ := List.mem_map.mp ht
          exact ⟨i + 1, by omega, by have := List.mem_range.mp hi; omega,
            (mapFind_isSome_iff _ _).mp hsome⟩
      · rintro ⟨k, hk1, hkN, hmem⟩
        refine Or.inr ⟨_, List.mem_map.mpr
          ⟨T.cellCount (T.trialState programs condition k), ?_, rfl⟩,
          (mapFind_isSome_iff _ _).mpr hmem⟩
        rw [← htab]
        refine List.mem_map.mpr ⟨k - 1, List.mem_range.mpr (by omega), ?_⟩
        have : k - 1 + 1 = k := by omega
        rw [this]
    · intro name v hmem hlt
      rw [hval name v hmem]
      exact Nat.mod_eq_of_lt hlt
  · intro hN h
    subst hN
    rw [hres]
    have htab : (List.range 5).map
        (fun i => T.cellCount (T.trialState programs condition (i + 1)))
        = List.replicate 5 [("P0", 1), ("P1", 1)] := by
      simp [List.range_succ, h]
    have hfold : List.foldl mergeTable [] (List.replicate 5 [("P0", 1), ("P1", 1)])
        = [("P0", 5), ("P1", 5)] := by
      simp [List.replicate, mergeTable, mergeCount, mapFind, mapInsert, mapAddAt]
      decide
    rw [htab, hfold]
    decide

/-- Witness for C6: the end-to-end example, five trials that each create one P0 and one
P1. -/
theorem cellExistence_totals_witness :
    cellExistence bothOnceStub.toSimulation ["P0", "P1"] "default" 5 = ["P0: 5", "P1: 5"] :=
  (cellExistence_totals bothOnceStub ["P0", "P1"] "default" 5).2 rfl (fun _ _ _ => rfl)

end CellExistenceClaims

/-! ### The abnormality scan `simulateAbnormal` (C8 to C10) -/

theorem not_created_ne_msg (name : String) :
    name ++ " was not created." ≠ "Could not find an abnormal simulation." := by
  intro h
  have h1 := congrArg (fun s : String => s.data.reverse.take 2) h
  simp [String.data_append, List.reverse_append] at h1

theorem more_than_once_ne_msg (name : String) :
    name ++ " was created more than once." ≠ "Could not find an abnormal simulation." := by
  intro h
  have h1 := congrArg (fun s : String => s.data.reverse.take 2) h
  simp [String.data_append, List.reverse_append] at h1

section AbnormalLemmas

variable {σ : Type} {α : Type}

theorem abnormalName_eq_false_iff (res : CountMap) (name : String) :
    abnormalName res name = false ↔ ∃ c, mapFind res name = some c ∧ c ≤ 1 := by
  unfold abnormalName
  cases mapFind res name with
  | none => simp
  | some c => simp

theorem abnormalName_eq_true_iff (res : CountMap) (name : String) :
    abnormalName res name = true ↔
      (mapFind res name = none ∨ ∃ c, mapFind res name = some c ∧ 1 < c) := by
  unfold abnormalName
  cases mapFind res name with
  | none => simp
  | some c => simp

/-- On a non-throwing simulator the scan of one trial returns at the first name that fails
the test, with the event trace followed by the diagnostic for that name. -/
theorem checkProgs_stub (T : Stub σ α) (s : σ) (res : CountMap) (progs : List String) :
    checkProgs T.toSimulation s res progs
      = .ok ((progs.find? (abnormalName res)).map
          (fun name => T.toVectorString s ++ [diagnostic res name])) := by
  induction progs with
  | nil => rfl
  | cons name progs ih =>
    unfold checkProgs
    cases h : mapFind res name with
    | none =>
      simp [List.find?, abnormalName, h, diagnostic]
      rfl
    | some c =>
      by_cases hc : c > 1
      · simp [List.find?, abnormalName, h, diagnostic, hc]
        rfl
      · simp [List.find?, abnormalName, h, hc, ih]

variable [LinearOrderedField α]

theorem simulateAbnormalLoop_succ (T : Stub σ α) (condition : String) (progs : List String)
    (n : Nat) (s : σ) :
    simulateAbnormalLoop T.toSimulation condition progs (n + 1) s
      = match progs.find? (abnormalName (T.cellCount (T.step condition s))) with
        | some name => .ok (T.toVectorString (T.step condition s)
            ++ [diagnostic (T.cellCount (T.step condition s)) name], T.step condition s)
        | none => simulateAbnormalLoop T.toSimulation condition progs n (T.step condition s) := by
  have h : simulateAbnormalLoop T.toSimulation condition progs (n + 1) s
      = (checkProgs T.toSimulation (T.step condition s) (T.cellCount (T.step condition s))
          progs).bind (fun r => match r with
            | some results => .ok (results, T.step condition s)
            | none => simulateAbnormalLoop T.toSimulation condition progs n
                (T.step condition s)) := rfl
  rw [h, checkProgs_stub]
  cases progs.find? (abnormalName (T.cellCount (T.step condition s))) <;> rfl

/-- When no name fails the test in any of the `n` trials, all `n` trials are run and the
closing line is returned. -/
theorem simulateAbnormalLoop_all_normal (T : Stub σ α) (condition : String)
    (progs : List String) (n : Nat) (s : σ)
    (h : ∀ i, 1 ≤ i → i ≤ n →
      progs.find? (abnormalName (T.cellCount ((T.step condition)^[i] s))) = none) :
    simulateAbnormalLoop T.toSimulation condition progs n s
      = .ok (["Could not find an abnormal simulation."], (T.step condition)^[n] s) := by
  induction n generalizing s with
  | zero => rfl
  | succ n ih =>
    have h1 := h 1 (le_refl 1) (by omega)
    simp only [Function.iterate_succ_apply, Function.iterate_zero, id_eq] at h1
    rw [simulateAbnormalLoop_succ, h1]
    simp only
    rw [ih (T.step condition s), Function.iterate_succ_apply]
    intro i hi1 hin
    have := h (i + 1) (by omega) (by omega)
    rwa [Function.iterate_succ_apply] at this

/-- When trial `k` is the first in which a name fails the test, the loop returns in trial
`k` with the trace of that trial and the diagnostic of the first failing name. -/
theorem simulateAbnormalLoop_first_abnormal (T : Stub σ α) (condition : String)
    (progs : List String) (n k : Nat) (s : σ) (name : String) (hk1 : 1 ≤ k) (hkn : k ≤ n)
    (hbefore : ∀ i, 1 ≤ i → i < k →
      progs.find? (abnormalName (T.cellCount ((T.step condition)^[i] s))) = none)
    (hk : progs.find? (abnormalName (T.cellCount ((T.step condition)^[k] s))) = some name) :
    simulateAbnormalLoop T.toSimulation condition progs n s
      = .ok (T.toVectorString ((T.step condition)^[k] s)
          ++ [diagnostic (T.cellCount ((T.step condition)^[k] s)) name],
          (T.step condition)^[k] s) := by
  induction n generalizing s k with
  | zero => omega
  | succ n ih =>
    rw [simulateAbnormalLoop_succ]
    by_cases hk' : k = 1
    · subst hk'
      simp only [Function.iterate_succ_apply, Function.iterate_zero, id_eq] at hk ⊢
      rw [hk]
    · have h1 := hbefore 1 (le_refl 1) (by omega)
      simp only [Function.iterate_succ_apply, Function.iterate_zero, id_eq] at h1
      rw [h1]
      simp only
      obtain ⟨j, rfl⟩ : ∃ j, k = j + 1 := ⟨k - 1, by omega⟩
      rw [Function.iterate_succ_apply] at hk ⊢
      refine ih j (T.step condition s) (by omega) (by omega) ?_ hk
      intro i hi1 hik
      have := hbefore (i + 1) (by omega) (by omega)
      rwa [Function.iterate_succ_apply] at this

/-- Either some trial among the first `n` is the first with a failing name, or none has
one. -/
theorem first_abnormal_or_all_normal (T : Stub σ α) (condition : String)
    (progs : List String) (n : Nat) (s : σ) :
    (∃ k name, 1 ≤ k ∧ k ≤ n ∧
      (∀ i, 1 ≤ i → i < k →
        progs.find? (abnormalName (T.cellCount ((T.step condition)^[i] s))) = none) ∧
      progs.find? (abnormalName (T.cellCount ((T.step condition)^[k] s))) = some name) ∨
    (∀ i, 1 ≤ i → i ≤ n →
      progs.find? (abnormalName (T.cellCount ((T.step condition)^[i] s))) = none) := by
  induction n with
  | zero =>
    right
    intro i h1 h0
    omega
  | succ n ih =>
    rcases ih with ⟨k, name, hk1, hkn, hb, hk⟩ | hall
    · exact Or.inl ⟨k, name, hk1, by omega, hb, hk⟩
    · cases h : progs.find? (abnormalName (T.cellCount ((T.step condition)^[n + 1] s))) with
      | none =>
        right
        intro i hi1 hin
        by_cases hi : i = n + 1
        · rw [hi]; exact h
        · exact hall i hi1 (by omega)
      | some name =>
        left
        exact ⟨n + 1, name, by omega, le_refl _, fun i hi1 hik => hall i hi1 (by omega), h⟩

theorem logged_iterate (T : Stub σ α) (condition : String) (k : Nat) (s : σ)
    (l : List HandleOp) :
    (T.logged.step condition)^[k] (s, l) = ((T.step condition)^[k] s, l ++ trialOps k) := by
  induction k generalizing s l with
  | zero => simp [trialOps]
  | succ k ih =>
    rw [Function.iterate_succ_apply, Function.iterate_succ_apply]
    have : T.logged.step condition (s, l)
        = (T.step condition s, l ++ [HandleOp.clear, HandleOp.run]) := by
      simp [Stub.step, Stub.logged]
    rw [this, ih]
    simp [trialOps]

theorem trialOps_count_run (k : Nat) : (trialOps k).count HandleOp.run = k := by
  induction k with
  | zero => rfl
  | succ k ih =>
    simp only [trialOps, List.count_append, ih]
    have : List.count HandleOp.run [HandleOp.clear, HandleOp.run] = 1 := by decide
    omega

theorem trialOps_count_clear (k : Nat) : (trialOps k).count HandleOp.clear = k := by
  induction k with
  | zero => rfl
  | succ k ih =>
    simp only [trialOps, List.count_append, ih]
    have : List.count HandleOp.clear [HandleOp.clear, HandleOp.run] = 1 := by decide
    omega

end AbnormalLemmas

section AbnormalBridge

variable {σ : Type} {α : Type}

theorem find?_abnormal_eq_none_iff (res : CountMap) (progs : List String) :
    progs.find? (abnormalName res) = none ↔
      ∀ name ∈ progs, ∃ c, mapFind res name = some c ∧ c ≤ 1 := by
  rw [List.find?_eq_none]
  constructor
  · intro h name hn
    have := h name hn
    exact (abnormalName_eq_false_iff res name).mp (by simpa using this)
  · intro h name hn
    have := (abnormalName_eq_false_iff res name).mpr (h name hn)
    simp [this]

theorem find?_abnormal_first (res : CountMap) (pre post : List String) (name : String)
    (hpre : ∀ p ∈ pre, ∃ c, mapFind res p = some c ∧ c ≤ 1)
    (hname : mapFind res name = none ∨ ∃ c, mapFind res name = some c ∧ 1 < c) :
    (pre ++ name :: post).find? (abnormalName res) = some name := by
  induction pre with
  | nil =>
    simp [List.find?, (abnormalName_eq_true_iff res name).mpr hname]
  | cons p pre ih =>
    have hp := (abnormalName_eq_false_iff res p).mpr (hpre p (List.mem_cons_self _ _))
    simp only [List.cons_append, List.find?, hp]
    exact ih (fun q hq => hpre q (List.mem_cons_of_mem _ hq))

theorem find?_abnormal_isSome (res : CountMap) (progs : List String)
    (h : ∃ name ∈ progs, mapFind res name = none ∨ ∃ c, mapFind res name = some c ∧ 1 < c) :
    ∃ name, progs.find? (abnormalName res) = some name := by
  cases hf : progs.find? (abnormalName res) with
  | some name => exact ⟨name, rfl⟩
  | none =>
    obtain ⟨name, hn, hab⟩ := h
    obtain ⟨c, hc, hle⟩ := (find?_abnormal_eq_none_iff res progs).mp hf name hn
    rcases hab with hnone | ⟨c', hc', hlt⟩
    · rw [hnone] at hc
      cases hc
    · rw [hc'] at hc
      cases hc
      omega

variable [LinearOrderedField α]

theorem simulateAbnormalTry_stub (T : Stub σ α) (programs : List String) (condition : String)
    (R : Nat) :
    simulateAbnormalTry T.toSimulation programs condition R
      = simulateAbnormalLoop T.toSimulation condition (T.programs (T.create programs)) R
          (T.create programs) := rfl

theorem simulateAbnormalTry_logged (T : Stub σ α) (programs : List String)
    (condition : String) (R : Nat) :
    simulateAbnormalTry T.logged.toSimulation programs condition R
      = simulateAbnormalLoop T.logged.toSimulation condition (T.programs (T.create programs)) R
          (T.create programs, []) := rfl

theorem logged_cellCount_iterate (T : Stub σ α) (condition : String) (i : Nat) (s : σ) :
    T.logged.cellCount ((T.logged.step condition)^[i] (s, []))
      = T.cellCount ((T.step condition)^[i] s) := by
  rw [logged_iterate]
  rfl

end AbnormalBridge

section AbnormalClaims

variable {σ : Type} {α : Type} [LinearOrderedField α]

/-- C8 as stated fails for a table that stores a name with count zero: in trial 1 the count
of P0 is 0, so trial 1 is the least trial that violates the exactly-once invariant, yet with
budget 3 the simulator is run twice and the result is the trace of trial 2 with its
diagnostic. -/
theorem simulateAbnormal_runs_past_zero_count :
    countOf (zeroThenTwoStub.cellCount (zeroThenTwoStub.trialState ["P0"] "default" 1)) "P0"
      ≠ 1 ∧
    simulateAbnormalTry zeroThenTwoStub.logged.toSimulation ["P0"] "default" 3
      = .ok (["trace of trial 2", "P0 was created more than once."],
          (2, [HandleOp.clear, HandleOp.run, HandleOp.clear, HandleOp.run])) ∧
    simulateAbnormal zeroThenTwoStub.toSimulation ["P0"] "default" 3
      = ["trace of trial 2", "P0 was created more than once."] :=
  ⟨by decide, rfl, by decide⟩

/-- C8 (amended). For a non-throwing simulator and budget R, if k (1 <= k <= R) is the least
trial in whose count table some program name is missing or has a count greater than 1, then
`simulateAbnormal` performs exactly k resets and k runs (the log of the instrumented
simulator is that of k trials, and the object is left in the state after trial k), and its
result is the event trace of trial k followed by one diagnostic line. -/
theorem simulateAbnormal_stops_at_first_abnormal (T : Stub σ α) (programs : List String)
    (condition : String) (R k : Nat) (hk1 : 1 ≤ k) (hkR : k ≤ R)
    (hbefore : ∀ i, 1 ≤ i → i < k → ∀ name ∈ T.programs (T.create programs),
      ∃ c, mapFind (T.cellCount (T.trialState programs condition i)) name = some c ∧ c ≤ 1)
    (hviol : ∃ name ∈ T.programs (T.create programs),
      mapFind (T.cellCount (T.trialState programs condition k)) name = none ∨
      ∃ c, mapFind (T.cellCount (T.trialState programs condition k)) name = some c ∧ 1 < c) :
    ∃ diag,
      simulateAbnormalTry T.logged.toSimulation programs condition R
        = .ok (T.toVectorString (T.trialState programs condition k) ++ [diag],
            (T.trialState programs condition k, trialOps k)) ∧
      (trialOps k).count HandleOp.run = k ∧
      simulateAbnormal T.toSimulation programs condition R
        = T.toVectorString (T.trialState programs condition k) ++ [diag] := by
  obtain ⟨name, hname⟩ := find?_abnormal_isSome _ _ hviol
  have hb : ∀ i, 1 ≤ i → i < k → (T.programs (T.create programs)).find?
      (abnormalName (T.cellCount ((T.step condition)^[i] (T.create programs)))) = none :=
    fun i h1 h2 => (find?_abnormal_eq_none_iff _ _).mpr (hbefore i h1 h2)
  refine ⟨diagnostic (T.cellCount (T.trialState programs condition k)) name, ?_,
    trialOps_count_run k, ?_⟩
  · rw [simulateAbnormalTry_logged,
      simulateAbnormalLoop_first_abnormal T.logged condition _ R k _ name hk1 hkR
        (fun i h1 h2 => by rw [logged_cellCount_iterate]; exact hb i h1 h2)
        (by rw [logged_cellCount_iterate]; exact hname),
      logged_iterate]
    rfl
  · rw [simulateAbnormal, simulateAbnormalTry_stub,
      simulateAbnormalLoop_first_abnormal T condition _ R k _ name hk1 hkR hb hname]
    rfl

/-- Witness for C8: trial 1 reports P0 once, trial 2 reports it twice; with budget 3 the
scan stops after the second run. -/
theorem simulateAbnormal_stops_at_first_abnormal_witness :
    ∃ diag,
      simulateAbnormalTry twiceInSecondStub.logged.toSimulation ["P0"] "default" 3
        = .ok (twiceInSecondStub.toVectorString
            (twiceInSecondStub.trialState ["P0"] "default" 2) ++ [diag],
            (twiceInSecondStub.trialState ["P0"] "default" 2, trialOps 2)) ∧
      (trialOps 2).count HandleOp.run = 2 ∧
      simulateAbnormal twiceInSecondStub.toSimulation ["P0"] "default" 3
        = twiceInSecondStub.toVectorString
            (twiceInSecondStub.trialState ["P0"] "default" 2) ++ [diag] :=
  simulateAbnormal_stops_at_first_abnormal twiceInSecondStub ["P0"] "default" 3 2
    (by decide) (by decide)
    (by
      intro i h1 h2 name hname
      obtain rfl : i = 1 := by omega
      obtain rfl : name = "P0" := by simpa [twiceInSecondStub] using hname
      exact ⟨1, by decide, le_refl 1⟩)
    ⟨"P0", by decide, Or.inr ⟨2, by decide, by decide⟩⟩

/-- C9 as stated fails for a table that stores a name with count zero: with the programs
P0, P1 and the table `P0 ↦ 0`, the first name whose count is not 1 is P0, with count 0, but
the last line returned is not "P0 was not created."; the diagnostic is for P1. -/
theorem simulateAbnormal_skips_zero_count :
    countOf (zeroEntryStub.cellCount (zeroEntryStub.trialState ["P0", "P1"] "default" 1)) "P0"
      = 0 ∧
    simulateAbnormal zeroEntryStub.toSimulation ["P0", "P1"] "default" 1
      = ["trace", "P1 was not created."] ∧
    (simulateAbnormal zeroEntryStub.toSimulation ["P0", "P1"] "default" 1).getLast?
      ≠ some "P0 was not created." := by
  decide

/-- C9 (amended). For a non-throwing simulator, let trial k (1 <= k <= R) be the first trial
with a program name that is missing from the count table or counted more than once, and let
`name` be the first such name in the order of the program list.  If `name` is missing from
the table the result is the event trace of trial k followed by "<name> was not created.";
if its count is greater than 1 the result is the event trace of trial k followed by
"<name> was created more than once.". -/
theorem simulateAbnormal_diagnostic (T : Stub σ α) (programs : List String)
    (condition : String) (R k : Nat) (pre post : List String) (name : String)
    (hk1 : 1 ≤ k) (hkR : k ≤ R)
    (hbefore : ∀ i, 1 ≤ i → i < k → ∀ p ∈ T.programs (T.create programs),
      ∃ c, mapFind (T.cellCount (T.trialState programs condition i)) p = some c ∧ c ≤ 1)
    (hprogs : T.programs (T.create programs) = pre ++ name :: post)
    (hpre : ∀ p ∈ pre,
      ∃ c, mapFind (T.cellCount (T.trialState programs condition k)) p = some c ∧ c ≤ 1) :
    (mapFind (T.cellCount (T.trialState programs condition k)) name = none →
      simulateAbnormal T.toSimulation programs condition R
        = T.toVectorString (T.trialState programs condition k)
            ++ [name ++ " was not created."]) ∧
    (∀ c, mapFind (T.cellCount (T.trialState programs condition k)) name = some c → 1 < c →
      simulateAbnormal T.toSimulation programs condition R
        = T.toVectorString (T.trialState programs condition k)
            ++ [name ++ " was created more than once."]) := by
  have hb : ∀ i, 1 ≤ i → i < k → (T.programs (T.create programs)).find?
      (abnormalName (T.cellCount ((T.step condition)^[i] (T.create programs)))) = none :=
    fun i h1 h2 => (find?_abnormal_eq_none_iff _ _).mpr (hbefore i h1 h2)
  have key : ∀ hab : (mapFind (T.cellCount (T.trialState programs condition k)) name = none ∨
      ∃ c, mapFind (T.cellCount (T.trialState programs condition k)) name = some c ∧ 1 < c),
      simulateAbnormal T.toSimulation programs condition R
        = T.toVectorString (T.trialState programs condition k)
            ++ [diagnostic (T.cellCount (T.trialState programs condition k)) name] := by
    intro hab
    have hfind : (T.programs (T.create programs)).find?
        (abnormalName (T.cellCount ((T.step condition)^[k] (T.create programs))))
        = some name := by
      rw [hprogs]
      exact find?_abnormal_first _ pre post name hpre hab
    rw [simulateAbnormal, simulateAbnormalTry_stub,
      simulateAbnormalLoop_first_abnormal T condition _ R k _ name hk1 hkR hb hfind]
    rfl
  constructor
  · intro hnone
    rw [key (Or.inl hnone)]
    simp [diagnostic, hnone]
  · intro c hc hlt
    rw [key (Or.inr ⟨c, hc, hlt⟩)]
    simp [diagnostic, hc]

/-- Witness for C9: with the programs P0, P1 and the table `P0 ↦ 1` in every trial, the
first failing name is P1, which is missing; the result is the trace and its diagnostic. -/
theorem simulateAbnormal_diagnostic_witness :
    simulateAbnormal missingStub.toSimulation ["P0", "P1"] "default" 4
      = ["trace", "P1 was not created."] :=
  (simulateAbnormal_diagnostic missingStub ["P0", "P1"] "default" 4 1 ["P0"] [] "P1"
    (by decide) (by decide)
    (by intro i h1 h2; omega)
    rfl
    (by
      intro p hp
      obtain rfl : p = "P0" := by simpa using hp
      exact ⟨1, by decide, le_refl 1⟩)).1 rfl

/-- C10 as stated fails for a table that stores a name with count zero: with the single
program P0 and the table `P0 ↦ 0`, the closing line is returned although the count of P0
in trial 1 is 0, not 1. -/
theorem simulateAbnormal_accepts_zero_count :
    simulateAbnormal onlyZeroStub.toSimulation ["P0"] "default" 1
      = ["Could not find an abnormal simulation."] ∧
    countOf (onlyZeroStub.cellCount (onlyZeroStub.trialState ["P0"] "default" 1)) "P0" ≠ 1 := by
  decide

/-- C10 (amended). For a non-throwing simulator and budget R (R = 0 included),
`simulateAbnormal` returns exactly ["Could not find an abnormal simulation."] if and only if
in each of the R trials every program name is present in the count table with a count of at
most 1; in that case all R trials are run (the log of the instrumented simulator is that of
R trials). -/
theorem simulateAbnormal_not_found_iff (T : Stub σ α) (programs : List String)
    (condition : String) (R : Nat) :
    (simulateAbnormal T.toSimulation programs condition R
        = ["Could not find an abnormal simulation."] ↔
      ∀ i, 1 ≤ i → i ≤ R → ∀ name ∈ T.programs (T.create programs),
        ∃ c, mapFind (T.cellCount (T.trialState programs condition i)) name = some c ∧ c ≤ 1) ∧
    ((∀ i, 1 ≤ i → i ≤ R → ∀ name ∈ T.programs (T.create programs),
        ∃ c, mapFind (T.cellCount (T.trialState programs condition i)) name = some c ∧ c ≤ 1) →
      simulateAbnormalTry T.logged.toSimulation programs condition R
        = .ok (["Could not find an abnormal simulation."],
            (T.trialState programs condition R, trialOps R)) ∧
      (trialOps R).count HandleOp.clear = R ∧ (trialOps R).count HandleOp.run = R) := by
  constructor
  · constructor
    · intro hres i h1 h2
      rcases first_abnormal_or_all_normal T condition (T.programs (T.create programs)) R
        (T.create programs) with ⟨k, name, hk1, hkR, hb, hk⟩ | hall
      · rw [simulateAbnormal, simulateAbnormalTry_stub,
          simulateAbnormalLoop_first_abnormal T condition _ R k _ name hk1 hkR hb hk] at hres
        simp only [catchError] at hres
        have hlen := congrArg List.length hres
        simp only [List.length_append, List.length_singleton] at hlen
        have hnil : T.toVectorString ((T.step condition)^[k] (T.create programs)) = [] :=
          List.length_eq_zero.mp (by omega)
        rw [hnil] at hres
        simp only [List.nil_append, List.cons.injEq, and_true] at hres
        unfold diagnostic at hres
        split_ifs at hres
        · exact absurd hres (not_created_ne_msg name)
        · exact absurd hres (more_than_once_ne_msg name)
      · exact (find?_abnormal_eq_none_iff _ _).mp (hall i h1 h2)
    · intro hall
      rw [simulateAbnormal, simulateAbnormalTry_stub,
        simulateAbnormalLoop_all_normal T condition _ R _
          (fun i h1 h2 => (find?_abnormal_eq_none_iff _ _).mpr (hall i h1 h2))]
      rfl
  · intro hall
    refine ⟨?_, trialOps_count_clear R, trialOps_count_run R⟩
    rw [simulateAbnormalTry_logged,
      simulateAbnormalLoop_all_normal T.logged condition _ R _
        (fun i h1 h2 => by
          rw [logged_cellCount_iterate]
          exact (find?_abnormal_eq_none_iff _ _).mpr (hall i h1 h2)),
      logged_iterate]
    rfl

/-- Witness for C10: three trials that each create one P0 and one P1 end with the closing
line after three resets and three runs. -/
theorem simulateAbnormal_not_found_iff_witness :
    simulateAbnormal bothOnceStub.toSimulation ["P0", "P1"] "default" 3
      = ["Could not find an abnormal simulation."] ∧
    simulateAbnormalTry bothOnceStub.logged.toSimulation ["P0", "P1"] "default" 3
      = .ok (["Could not find an abnormal simulation."],
          (bothOnceStub.trialState ["P0", "P1"] "default" 3, trialOps 3)) := by
  have hall : ∀ i, 1 ≤ i → i ≤ 3 →
      ∀ name ∈ bothOnceStub.programs (bothOnceStub.create ["P0", "P1"]),
        ∃ c, mapFind (bothOnceStub.cellCount (bothOnceStub.trialState ["P0", "P1"] "default" i))
          name = some c ∧ c ≤ 1 := by
    intro i _ _ name hname
    have hname' : name = "P0" ∨ name = "P1" := by simpa [bothOnceStub] using hname
    rcases hname' with rfl | rfl
    · exact ⟨1, rfl, le_refl 1⟩
    · exact ⟨1, rfl, le_refl 1⟩
  exact ⟨(simulateAbnormal_not_found_iff bothOnceStub ["P0", "P1"] "default" 3).1.mpr hall,
    ((simulateAbnormal_not_found_iff bothOnceStub ["P0", "P1"] "default" 3).2 hall).1⟩

end AbnormalClaims

/-! ### The report of `checkTimeOverlap` (C11 to C13, C16) -/

section OverlapLemmas

variable {σ : Type} {α : Type} [LinearOrderedField α]

theorem addToVec_of_statistics (sqrt : α → α) (fmt : α → String) (rawData : Bool)
    (result : List String) (vec vec' : List α) (min max mean stdev q1 median q3 : α)
    (h : statistics sqrt vec = some (vec', [min, max, mean, stdev, q1, median, q3])) :
    addToVec sqrt fmt rawData result vec
      = some (result ++ (if rawData then [rawLine fmt vec] else [])
          ++ summaryLines fmt [min, max, mean, stdev, q1, median, q3], vec') := by
  have hfold : ∀ r0 : List String,
      (do
        let r ← (List.range names.length).foldlM (fun result i => do
          let name ← names[i]?
          let val ← [q1, min, median, max, q3, mean + stdev, mean - stdev, mean, stdev][i]?
          pure (addEntryToVec fmt result name val)) r0
        pure (r, vec') : Option (List String × List α))
      = some (r0 ++ summaryLines fmt [min, max, mean, stdev, q1, median, q3], vec') := by
    intro r0
    have : (do
        let r ← (List.range names.length).foldlM (fun result i => do
          let name ← names[i]?
          let val ← [q1, min, median, max, q3, mean + stdev, mean - stdev, mean, stdev][i]?
          pure (addEntryToVec fmt result name val)) r0
        pure (r, vec') : Option (List String × List α))
      = some (r0 ++ ["q1: " ++ fmt q1] ++ ["min: " ++ fmt min] ++ ["median: " ++ fmt median]
          ++ ["max: " ++ fmt max] ++ ["q3: " ++ fmt q3] ++ ["mean+std: " ++ fmt (mean + stdev)]
          ++ ["mean-std: " ++ fmt (mean - stdev)] ++ ["mean: " ++ fmt mean]
          ++ ["stdev: " ++ fmt stdev], vec') := rfl
    rw [this]
    simp only [summaryLines, List.append_assoc, List.singleton_append, List.cons_append,
      List.nil_append]
  unfold addToVec
  rw [h]
  cases rawData
  · exact (hfold result).trans (by simp)
  · exact (hfold (result ++ [rawLine fmt vec])).trans (by simp)

theorem addToVec_eq (sqrt : α → α) (fmt : α → String) (rawData : Bool)
    (result : List String) (vec : List α) (hne : vec ≠ []) :
    addToVec sqrt fmt rawData result vec
      = some (result ++ (if rawData then [rawLine fmt vec] else [])
          ++ summaryLines fmt (summaryOf sqrt vec), vec.insertionSort (· ≤ ·)) :=
  addToVec_of_statistics sqrt fmt rawData result vec _ _ _ _ _ _ _ _
    (statistics_eq sqrt vec hne)

theorem overlapReport_eq (sqrt : α → α) (fmt : α → String) (firstCell secondCell : String)
    (rawData : Bool) (results1 results2 : List α) :
    overlapReport sqrt fmt firstCell secondCell rawData results1 results2
      = some (sectionLines sqrt fmt rawData firstCell secondCell results1
          ++ sectionLines sqrt fmt rawData secondCell firstCell results2) := by
  unfold overlapReport sectionLines
  by_cases h1 : results1 = [] <;> by_cases h2 : results2 = []
  · simp [h1, h2]
  · simp [h1, h2, addToVec_eq sqrt fmt rawData _ results2 h2]
  · simp [h1, h2, addToVec_eq sqrt fmt rawData _ results1 h1]
  · simp [h1, h2, addToVec_eq sqrt fmt rawData _ results1 h1,
      addToVec_eq sqrt fmt rawData _ results2 h2]

end OverlapLemmas

section OverlapLoop

variable {σ : Type} {α : Type} [LinearOrderedField α]

theorem checkTimeOverlapLoop_stub (T : Stub σ α) (condition firstCell secondCell : String)
    (n : Nat) (s : σ) (results1 results2 : List α) :
    checkTimeOverlapLoop T.toSimulation condition firstCell secondCell n s results1 results2
      = .ok ((results1 ++ (((List.range n).map
            (fun i => T.overlap ((T.step condition)^[i + 1] s) firstCell secondCell)).filter
              (fun p => p.2)).map Prod.fst,
          results2 ++ (((List.range n).map
            (fun i => T.overlap ((T.step condition)^[i + 1] s) firstCell secondCell)).filter
              (fun p => !p.2)).map Prod.fst),
          (T.step condition)^[n] s) := by
  induction n generalizing s results1 results2 with
  | zero => simp [checkTimeOverlapLoop]
  | succ n ih =>
    have hstep : checkTimeOverlapLoop T.toSimulation condition firstCell secondCell (n + 1) s
        results1 results2
        = if (T.overlap (T.step condition s) firstCell secondCell).2 then
            checkTimeOverlapLoop T.toSimulation condition firstCell secondCell n
              (T.step condition s)
              (results1 ++ [(T.overlap (T.step condition s) firstCell secondCell).1]) results2
          else
            checkTimeOverlapLoop T.toSimulation condition firstCell secondCell n
              (T.step condition s) results1
              (results2 ++ [(T.overlap (T.step condition s) firstCell secondCell).1]) := rfl
    rw [hstep, List.range_succ_eq_map]
    simp only [List.map_cons, List.map_map, Function.iterate_succ_apply,
      Function.iterate_zero, id_eq]
    by_cases hflag : (T.overlap (T.step condition s) firstCell secondCell).2 = true
    · rw [if_pos hflag, ih]
      simp [List.filter_cons, hflag, Function.comp_def, Function.iterate_succ_apply]
    · rw [if_neg hflag, ih]
      simp [List.filter_cons, hflag, Function.comp_def, Function.iterate_succ_apply]

theorem checkTimeOverlap_stub (T : Stub σ α) (sqrt : α → α) (fmt : α → String)
    (pgm : List String) (condition firstCell secondCell : String) (n : Nat) (rawData : Bool) :
    checkTimeOverlap T.toSimulation sqrt fmt pgm condition firstCell secondCell n rawData
      = overlapReport sqrt fmt firstCell secondCell rawData
          ((((List.range n).map
            (fun i => T.overlap (T.trialState pgm condition (i + 1)) firstCell secondCell)).filter
              (fun p => p.2)).map Prod.fst)
          ((((List.range n).map
            (fun i => T.overlap (T.trialState pgm condition (i + 1)) firstCell secondCell)).filter
              (fun p => !p.2)).map Prod.fst) := by
  have h : checkTimeOverlapTry T.toSimulation sqrt fmt pgm condition firstCell secondCell n
      rawData
      = (checkTimeOverlapLoop T.toSimulation condition firstCell secondCell n (T.create pgm)
          [] []).bind
          (fun r => .ok (overlapReport sqrt fmt firstCell secondCell rawData r.1.1 r.1.2,
            r.2)) := rfl
  rw [checkTimeOverlap, h, checkTimeOverlapLoop_stub]
  rfl

end OverlapLoop

section FilterLemmas

variable {α : Type}

theorem filter_true_ne_nil_iff (obs : List (α × Bool)) :
    ((obs.filter (fun p => p.2)).map Prod.fst) ≠ [] ↔ ∃ p ∈ obs, p.2 = true := by
  rw [Ne, List.map_eq_nil_iff, List.filter_eq_nil_iff]
  push_neg
  rfl

theorem filter_false_ne_nil_iff (obs : List (α × Bool)) :
    ((obs.filter (fun p => !p.2)).map Prod.fst) ≠ [] ↔ ∃ p ∈ obs, p.2 = false := by
  rw [Ne, List.map_eq_nil_iff, List.filter_eq_nil_iff]
  push_neg
  constructor
  · rintro ⟨p, hp, h⟩
    exact ⟨p, hp, by simpa using h⟩
  · rintro ⟨p, hp, h⟩
    exact ⟨p, hp, by simp [h]⟩

theorem filter_partition_length (obs : List (α × Bool)) :
    ((obs.filter (fun p => p.2)).map Prod.fst).length
      + ((obs.filter (fun p => !p.2)).map Prod.fst).length = obs.length := by
  induction obs with
  | nil => rfl
  | cons p obs ih =>
    simp only [List.length_map] at ih ⊢
    cases hp : p.2 <;> simp [List.filter_cons, hp] <;> omega

end FilterLemmas

section OverlapClaims

variable {σ : Type} {α : Type} [LinearOrderedField α]

theorem sectionLines_ne_nil_iff (sqrt : α → α) (fmt : α → String) (rawData : Bool)
    (first second : String) (vec : List α) :
    sectionLines sqrt fmt rawData first second vec ≠ [] ↔ vec ≠ [] := by
  unfold sectionLines
  by_cases h : vec = [] <;> simp [h]

theorem sectionLines_head_length (sqrt : α → α) (fmt : α → String) (rawData : Bool)
    (first second : String) (vec : List α) (h : vec ≠ []) :
    (sectionLines sqrt fmt rawData first second vec).head?
        = some (first ++ " born before " ++ second ++ ":") ∧
      (sectionLines sqrt fmt rawData first second vec).length
        = 10 + (if rawData then 1 else 0) := by
  unfold sectionLines
  cases rawData <;> simp [h, summaryOf, summaryLines]

/-- C16. For a non-throwing simulator and R trials, after the trial loop of
`checkTimeOverlap` the first sample vector is the sequence of observed values whose flag is
true and the second the sequence of those whose flag is false, both in trial order; the two
sizes add up to R. -/
theorem checkTimeOverlapLoop_partition (T : Stub σ α) (pgm : List String)
    (condition firstCell secondCell : String) (R : Nat) :
    checkTimeOverlapLoop T.toSimulation condition firstCell secondCell R (T.create pgm) [] []
      = .ok (((((List.range R).map
            (fun i => T.overlap (T.trialState pgm condition (i + 1)) firstCell secondCell)).filter
              (fun p => p.2)).map Prod.fst,
          (((List.range R).map
            (fun i => T.overlap (T.trialState pgm condition (i + 1)) firstCell secondCell)).filter
              (fun p => !p.2)).map Prod.fst),
          T.trialState pgm condition R) ∧
    ((((List.range R).map
        (fun i => T.overlap (T.trialState pgm condition (i + 1)) firstCell secondCell)).filter
          (fun p => p.2)).map Prod.fst).length
      + ((((List.range R).map
        (fun i => T.overlap (T.trialState pgm condition (i + 1)) firstCell secondCell)).filter
          (fun p => !p.2)).map Prod.fst).length = R := by
  constructor
  · rw [checkTimeOverlapLoop_stub]
    simp [Stub.trialState]
  · rw [filter_partition_length]
    simp

/-- C11. For a non-throwing simulator, cell names A and B and R trials, the result of
`checkTimeOverlap` is the section of the class "A born before B" followed by the section of
the class "B born before A".  The first section is present exactly when some trial has
flag true, the second exactly when some trial has flag false; a section that is present
starts with its header and has ten lines (eleven with the raw line).  So when every trial
has flag true the result has neither the header nor any statistics line of the class
"B born before A". -/
theorem checkTimeOverlap_sections (T : Stub σ α) (sqrt : α → α) (fmt : α → String)
    (pgm : List String) (condition firstCell secondCell : String) (R : Nat) (rawData : Bool) :
    ∃ secAB secBA : List String,
      checkTimeOverlap T.toSimulation sqrt fmt pgm condition firstCell secondCell R rawData
        = some (secAB ++ secBA) ∧
      (secAB ≠ [] ↔ ∃ k, 1 ≤ k ∧ k ≤ R ∧
        (T.overlap (T.trialState pgm condition k) firstCell secondCell).2 = true) ∧
      (secBA ≠ [] ↔ ∃ k, 1 ≤ k ∧ k ≤ R ∧
        (T.overlap (T.trialState pgm condition k) firstCell secondCell).2 = false) ∧
      (secAB ≠ [] → secAB.head? = some (firstCell ++ " born before " ++ secondCell ++ ":") ∧
        secAB.length = 10 + (if rawData then 1 else 0)) ∧
      (secBA ≠ [] → secBA.head? = some (secondCell ++ " born before " ++ firstCell ++ ":") ∧
        secBA.length = 10 + (if rawData then 1 else 0)) ∧
      ((∀ k, 1 ≤ k → k ≤ R →
          (T.overlap (T.trialState pgm condition k) firstCell secondCell).2 = true) →
        secBA = []) := by
  have hmem : ∀ b : Bool,
      (∃ p ∈ (List.range R).map
          (fun i => T.overlap (T.trialState pgm condition (i + 1)) firstCell secondCell),
        p.2 = b) ↔
      ∃ k, 1 ≤ k ∧ k ≤ R ∧
        (T.overlap (T.trialState pgm condition k) firstCell secondCell).2 = b := by
    intro b
    constructor
    · rintro ⟨p, hp, hb⟩
      obtain ⟨i, hi, rfl⟩ := List.mem_map.mp hp
      exact ⟨i + 1, by omega, by have := List.mem_range.mp hi; omega, hb⟩
    · rintro ⟨k, hk1, hkR, hb⟩
      refine ⟨_, List.mem_map.mpr ⟨k - 1, List.mem_range.mpr (by omega), rfl⟩, ?_⟩
      have : k - 1 + 1 = k := by omega
      rw [this]
      exact hb
  have hBA : sectionLines sqrt fmt rawData secondCell firstCell
      ((((List.range R).map
        (fun i => T.overlap (T.trialState pgm condition (i + 1)) firstCell secondCell)).filter
          (fun p => !p.2)).map Prod.fst) ≠ [] ↔
      ∃ k, 1 ≤ k ∧ k ≤ R ∧
        (T.overlap (T.trialState pgm condition k) firstCell secondCell).2 = false := by
    rw [sectionLines_ne_nil_iff, filter_false_ne_nil_iff, hmem]
  refine ⟨_, _, (checkTimeOverlap_stub T sqrt fmt pgm condition firstCell secondCell R
    rawData).trans (overlapReport_eq sqrt fmt firstCell secondCell rawData _ _), ?_, hBA,
    ?_, ?_, ?_⟩
  · rw [sectionLines_ne_nil_iff, filter_true_ne_nil_iff, hmem]
  · intro h
    exact sectionLines_head_length sqrt fmt rawData _ _ _
      ((sectionLines_ne_nil_iff sqrt fmt rawData _ _ _).mp h)
  · intro h
    exact sectionLines_head_length sqrt fmt rawData _ _ _
      ((sectionLines_ne_nil_iff sqrt fmt rawData _ _ _).mp h)
  · intro hall
    by_contra hne
    obtain ⟨k, hk1, hkR, hfalse⟩ := hBA.mp hne
    rw [hall k hk1 hkR] at hfalse
    cases hfalse

/-- Witness for C11: three trials with flag true give the section of "A born before B"
(header, raw line and nine summary lines) and nothing for "B born before A". -/
theorem checkTimeOverlap_sections_witness :
    ∃ secAB : List String,
      checkTimeOverlap alwaysTwoStub.toSimulation (fun x : ℚ => x)
          (fun q : ℚ => toString q.num) [] "default" "A" "B" 3 true = some secAB ∧
      secAB.head? = some "A born before B:" ∧ secAB.length = 11 := by
  obtain ⟨secAB, secBA, h, hAB, -, hhead, -, hall⟩ :=
    checkTimeOverlap_sections alwaysTwoStub (fun x : ℚ => x) (fun q : ℚ => toString q.num)
      [] "default" "A" "B" 3 true
  have hBA : secBA = [] := hall (fun _ _ _ => rfl)
  have hne : secAB ≠ [] := hAB.mpr ⟨1, le_refl 1, by decide, rfl⟩
  rw [hBA, List.append_nil] at h
  exact ⟨secAB, h, (hhead hne).1, (hhead hne).2⟩

/-- C12. For a non-empty class sample vector, `addToVec` appends to the result (after the
raw line when `rawData` is set) exactly nine lines, labelled in order q1, min, median, max,
q3, mean+std, mean-std, mean, stdev, whose values are q1, min, median, max, q3,
mean + stdev, mean - stdev, mean, stdev of the vector `[min, max, mean, stdev, q1, median,
q3]` returned by `statistics`; in the report these lines follow the header of the class. -/
theorem addToVec_nine_lines (sqrt : α → α) (fmt : α → String) (rawData : Bool)
    (firstCell secondCell : String) (result : List String) (vec : List α) (hne : vec ≠ []) :
    ∃ vec' min max mean stdev q1 median q3,
      statistics sqrt vec = some (vec', [min, max, mean, stdev, q1, median, q3]) ∧
      addToVec sqrt fmt rawData result vec
        = some (result ++ (if rawData then [rawLine fmt vec] else [])
            ++ ["q1: " ++ fmt q1, "min: " ++ fmt min, "median: " ++ fmt median,
                "max: " ++ fmt max, "q3: " ++ fmt q3, "mean+std: " ++ fmt (mean + stdev),
                "mean-std: " ++ fmt (mean - stdev), "mean: " ++ fmt mean,
                "stdev: " ++ fmt stdev], vec') ∧
      overlapReport sqrt fmt firstCell secondCell rawData vec []
        = some ([firstCell ++ " born before " ++ secondCell ++ ":"]
            ++ (if rawData then [rawLine fmt vec] else [])
            ++ ["q1: " ++ fmt q1, "min: " ++ fmt min, "median: " ++ fmt median,
                "max: " ++ fmt max, "q3: " ++ fmt q3, "mean+std: " ++ fmt (mean + stdev),
                "mean-std: " ++ fmt (mean - stdev), "mean: " ++ fmt mean,
                "stdev: " ++ fmt stdev]) ∧
      overlapReport sqrt fmt firstCell secondCell rawData [] vec
        = some ([secondCell ++ " born before " ++ firstCell ++ ":"]
            ++ (if rawData then [rawLine fmt vec] else [])
            ++ ["q1: " ++ fmt q1, "min: " ++ fmt min, "median: " ++ fmt median,
                "max: " ++ fmt max, "q3: " ++ fmt q3, "mean+std: " ++ fmt (mean + stdev),
                "mean-std: " ++ fmt (mean - stdev), "mean: " ++ fmt mean,
                "stdev: " ++ fmt stdev]) := by
  refine ⟨_, _, _, _, _, _, _, _, statistics_eq sqrt vec hne,
    addToVec_eq sqrt fmt rawData result vec hne, ?_, ?_⟩
  · rw [overlapReport_eq]
    simp [sectionLines, hne, summaryOf, summaryLines]
  · rw [overlapReport_eq]
    simp [sectionLines, hne, summaryOf, summaryLines]

/-- Witness for C12 on the samples 3, 1 with the raw line requested (numbers rendered by
their numerator, the identity standing in for the square root). -/
theorem addToVec_nine_lines_witness :
    overlapReport (fun x : ℚ => x) (fun q : ℚ => toString q.num) "A" "B" true [3, 1] []
      = some ["A born before B:", "3, 1", "q1: 1", "min: 1", "median: 2", "max: 3", "q3: 3",
          "mean+std: 3", "mean-std: 1", "mean: 2", "stdev: 1"] := by
  obtain ⟨vec', min, max, mean, stdev, q1, median, q3, h1, -, h3, -⟩ :=
    addToVec_nine_lines (fun x : ℚ => x) (fun q : ℚ => toString q.num) true "A" "B" []
      [3, 1] (by simp)
  have hs : statistics (fun x : ℚ => x) [3, 1] = some ([1, 3], [1, 3, 2, 1, 1, 2, 3]) := by
    simp [statistics]
    norm_num
  rw [hs] at h1
  simp only [Option.some.injEq, Prod.mk.injEq, List.cons.injEq, and_true] at h1
  obtain ⟨-, rfl, rfl, rfl, rfl, rfl, rfl, rfl⟩ := h1
  rw [h3]
  have e1 : (2 : ℚ) + 1 = 3 := by norm_num
  have e2 : (2 : ℚ) - 1 = 1 := by norm_num
  rw [e1, e2]
  decide

end OverlapClaims

section ConstantSamples

variable {σ : Type} {α : Type} [LinearOrderedField α]

end ConstantSamples

section ConstantClaims

variable {σ : Type} {α : Type} [LinearOrderedField α]

end ConstantClaims

section ConstantRounded

variable {β : Type}

end ConstantRounded

section ConstantRoundedClaims

variable {σ : Type} {β : Type} {α : Type} [LinearOrderedField α]

end ConstantRoundedClaims

/-! ### Order and permutation properties of the summary (C19, C20) -/

section SummaryClaims

variable {α : Type} [LinearOrderedField α]

end SummaryClaims

section OrderRoundedClaims

variable {β K : Type} [LinearOrderedField K]

end OrderRoundedClaims

/-! ### The empty sample set (C5) -/

section EmptyClaims

variable {α : Type} [LinearOrderedField α]

end EmptyClaims

/-! ### Element accesses of `checkTimeOverlap` (C18) -/

section ReadsInRange

variable {σ : Type} {α : Type} [LinearOrderedField α]

theorem checkTimeOverlap_cases (sim : Simulation σ α) (sqrt : α → α) (fmt : α → String)
    (pgm : List String) (condition firstCell secondCell : String) (n : Nat) (rawData : Bool) :
    (∃ err, checkTimeOverlapTry sim sqrt fmt pgm condition firstCell secondCell n rawData
        = .error err ∧
      checkTimeOverlap sim sqrt fmt pgm condition firstCell secondCell n rawData
        = some ["Error: " ++ err]) ∨
    (∃ results1 results2 s,
      checkTimeOverlapTry sim sqrt fmt pgm condition firstCell secondCell n rawData
        = .ok (overlapReport sqrt fmt firstCell secondCell rawData results1 results2, s) ∧
      checkTimeOverlap sim sqrt fmt pgm condition firstCell secondCell n rawData
        = overlapReport sqrt fmt firstCell secondCell rawData results1 results2) := by
  unfold checkTimeOverlap
  cases hcreate : sim.create pgm with
  | error err =>
    left
    refine ⟨err, ?_⟩
    simp [checkTimeOverlapTry, hcreate, bind, Except.bind]
  | ok s =>
    cases hloop : checkTimeOverlapLoop sim condition firstCell secondCell n s [] [] with
    | error err =>
      left
      refine ⟨err, ?_⟩
      simp [checkTimeOverlapTry, hcreate, hloop, bind, Except.bind]
    | ok r =>
      right
      refine ⟨r.1.1, r.1.2, r.2, ?_⟩
      simp [checkTimeOverlapTry, hcreate, hloop, bind, Except.bind, pure, Except.pure]

theorem addToVec_eq_none_iff (sqrt : α → α) (fmt : α → String) (rawData : Bool)
    (result : List String) (vec : List α) :
    addToVec sqrt fmt rawData result vec = none ↔ vec = [] := by
  constructor
  · intro h
    by_contra hne
    rw [addToVec_eq sqrt fmt rawData result vec hne] at h
    cases h
  · rintro rfl
    have h : statistics sqrt ([] : List α) = none := by simp [statistics]
    unfold addToVec
    rw [h]
    rfl

theorem statistics_eq_none_iff (sqrt : α → α) (vec : List α) :
    statistics sqrt vec = none ↔ vec = [] := by
  constructor
  · intro h
    by_contra hne
    rw [statistics_eq sqrt vec hne] at h
    cases h
  · rintro rfl
    simp [statistics]

/-- C18. For every input of `checkTimeOverlap` (any simulator, throwing or not) no element
access falls outside a vector: the call never takes the out-of-range branch.  The report
never does, while `addToVec` and `statistics` fail exactly on an empty vector, so they are
only ever applied to non-empty sample vectors; and for a non-empty vector of size n every
index that `statistics` reads (0, n-1, n/4, n/4 - 1 when n mod 4 = 0, n/2, n/2 - 1 when n is
even, 3n/4, 3n/4 - 1 when n mod 4 = 0) is below the size of the sorted vector, the
subtractions not wrapping. -/
theorem checkTimeOverlap_reads_in_range (sim : Simulation σ α) (sqrt : α → α)
    (fmt : α → String) (pgm : List String) (condition firstCell secondCell : String)
    (numSimulations : Nat) (rawData : Bool) (result : List String) (vec : List α) :
    checkTimeOverlap sim sqrt fmt pgm condition firstCell secondCell numSimulations rawData
      ≠ none ∧
    (∀ results1 results2,
      overlapReport sqrt fmt firstCell secondCell rawData results1 results2 ≠ none) ∧
    (addToVec sqrt fmt rawData result vec = none ↔ vec = []) ∧
    (statistics sqrt vec = none ↔ vec = []) ∧
    (vec ≠ [] →
      (vec.insertionSort (· ≤ ·)).length = vec.length ∧
      0 < vec.length ∧ vec.length - 1 < vec.length ∧
      vec.length / 4 < vec.length ∧
      (vec.length % 4 = 0 → 1 ≤ vec.length / 4 ∧ vec.length / 4 - 1 < vec.length) ∧
      vec.length / 2 < vec.length ∧
      (vec.length % 2 = 0 → 1 ≤ vec.length / 2 ∧ vec.length / 2 - 1 < vec.length) ∧
      3 * vec.length / 4 < vec.length ∧
      (vec.length % 4 = 0 → 1 ≤ 3 * vec.length / 4 ∧ 3 * vec.length / 4 - 1 < vec.length)) := by
  have hreport : ∀ results1 results2 : List α,
      overlapReport sqrt fmt firstCell secondCell rawData results1 results2 ≠ none := by
    intro results1 results2
    rw [overlapReport_eq]
    exact Option.some_ne_none _
  refine ⟨?_, hreport, addToVec_eq_none_iff sqrt fmt rawData result vec,
    statistics_eq_none_iff sqrt vec, ?_⟩
  · rcases checkTimeOverlap_cases sim sqrt fmt pgm condition firstCell secondCell
      numSimulations rawData with ⟨err, -, h⟩ | ⟨results1, results2, s, -, h⟩
    · rw [h]
      exact Option.some_ne_none _
    · rw [h]
      exact hreport results1 results2
  · intro hne
    have hpos : 0 < vec.length := List.length_pos.mpr hne
    refine ⟨List.length_insertionSort _ _, hpos, ?_, ?_, ?_, ?_, ?_, ?_, ?_⟩
    all_goals omega

end ReadsInRange

/-! ### Thrown messages (C14) -/

section TrialLemmas

variable {σ : Type} {α : Type} [LinearOrderedField α]

theorem trialOf_error_iff {β : Type} (sim : Simulation σ α) (condition : String)
    (query : σ → Except String β) (s : σ) (m : String) :
    trialOf sim condition query s = .error m ↔
      sim.clear s = .error m ∨
      ∃ c, sim.clear s = .ok c ∧
        (sim.run c INITIALPROG condition (-1) (-1) = .error m ∨
          ∃ s', sim.run c INITIALPROG condition (-1) (-1) = .ok s' ∧ query s' = .error m) := by
  unfold trialOf
  cases hc : sim.clear s with
  | error e => simp [bind, Except.bind]
  | ok c =>
    cases hr : sim.run c INITIALPROG condition (-1) (-1) with
    | error e => simp [bind, Except.bind, hr]
    | ok s' =>
      cases hq : query s' with
      | error e => simp [bind, Except.bind, hr, hq]
      | ok r => simp [bind, Except.bind, hr, hq, pure, Except.pure]

theorem cellExistenceLoop_succ (sim : Simulation σ α) (condition : String) (n : Nat) (s : σ)
    (total : CountMap) :
    cellExistenceLoop sim condition (n + 1) s total
      = match trialOf sim condition sim.cellCount s with
        | .ok (s', res) => cellExistenceLoop sim condition n s' (mergeTable total res)
        | .error e => .error e := by
  rw [cellExistenceLoop]
  unfold trialOf
  cases hc : sim.clear s with
  | error e => rfl
  | ok c =>
    cases hr : sim.run c INITIALPROG condition (-1) (-1) with
    | error e => simp [bind, Except.bind, hr]
    | ok s' =>
      cases hq : sim.cellCount s' with
      | error e => simp [bind, Except.bind, hr, hq]
      | ok r => simp [bind, Except.bind, hr, hq, pure, Except.pure]

theorem checkTimeOverlapLoop_succ (sim : Simulation σ α)
    (condition firstCell secondCell : String) (n : Nat) (s : σ) (results1 results2 : List α) :
    checkTimeOverlapLoop sim condition firstCell secondCell (n + 1) s results1 results2
      = match trialOf sim condition (fun s => sim.overlap s firstCell secondCell) s with
        | .ok (s', p) =>
          if p.2 then
            checkTimeOverlapLoop sim condition firstCell secondCell n s' (results1 ++ [p.1])
              results2
          else
            checkTimeOverlapLoop sim condition firstCell secondCell n s' results1
              (results2 ++ [p.1])
        | .error e => .error e := by
  rw [checkTimeOverlapLoop]
  unfold trialOf
  cases hc : sim.clear s with
  | error e => rfl
  | ok c =>
    cases hr : sim.run c INITIALPROG condition (-1) (-1) with
    | error e => simp [bind, Except.bind, hr]
    | ok s' =>
      cases hq : sim.overlap s' firstCell secondCell with
      | error e => simp [bind, Except.bind, hr, hq]
      | ok r => simp [bind, Except.bind, hr, hq, pure, Except.pure]

theorem simulateAbnormalLoop_succ_general (sim : Simulation σ α) (condition : String)
    (progs : List String) (n : Nat) (s : σ) :
    simulateAbnormalLoop sim condition progs (n + 1) s
      = match trialOf sim condition (abnormalQuery sim progs) s with
        | .ok (s', some results) => .ok (results, s')
        | .ok (s', none) => simulateAbnormalLoop sim condition progs n s'
        | .error e => .error e := by
  rw [simulateAbnormalLoop]
  unfold trialOf abnormalQuery
  cases hc : sim.clear s with
  | error e => rfl
  | ok c =>
    cases hr : sim.run c INITIALPROG condition (-1) (-1) with
    | error e => simp [bind, Except.bind, hr]
    | ok s' =>
      cases hq : sim.cellCount s' with
      | error e => simp [bind, Except.bind, hr, hq]
      | ok res =>
        cases hp : checkProgs sim s' res progs with
        | error e => simp [bind, Except.bind, hr, hq, hp]
        | ok r =>
          cases r <;> simp [bind, Except.bind, hr, hq, hp, pure, Except.pure]

end TrialLemmas

section FaultLemmas

variable {σ : Type} {α : Type} [LinearOrderedField α]

theorem cellExistenceLoop_fault (sim : Simulation σ α) (condition : String) (m : String)
    (k : Nat) : ∀ (n : Nat) (st : Nat → σ) (total : CountMap), k < n →
    (∀ i, i < k → ∃ res, trialOf sim condition sim.cellCount (st i) = .ok (st (i + 1), res)) →
    trialOf sim condition sim.cellCount (st k) = .error m →
    cellExistenceLoop sim condition n (st 0) total = .error m := by
  induction k with
  | zero =>
    intro n st total hn _ hfault
    obtain ⟨n', rfl⟩ : ∃ n', n = n' + 1 := ⟨n - 1, by omega⟩
    rw [cellExistenceLoop_succ, hfault]
  | succ k ih =>
    intro n st total hn hgood hfault
    obtain ⟨n', rfl⟩ : ∃ n', n = n' + 1 := ⟨n - 1, by omega⟩
    obtain ⟨res, hres⟩ := hgood 0 (by omega)
    rw [cellExistenceLoop_succ, hres]
    exact ih n' (fun i => st (i + 1)) _ (by omega)
      (fun i hi => hgood (i + 1) (by omega)) hfault

theorem checkTimeOverlapLoop_fault (sim : Simulation σ α)
    (condition firstCell secondCell : String) (m : String) (k : Nat) :
    ∀ (n : Nat) (st : Nat → σ) (results1 results2 : List α), k < n →
    (∀ i, i < k → ∃ p, trialOf sim condition (fun s => sim.overlap s firstCell secondCell)
      (st i) = .ok (st (i + 1), p)) →
    trialOf sim condition (fun s => sim.overlap s firstCell secondCell) (st k) = .error m →
    checkTimeOverlapLoop sim condition firstCell secondCell n (st 0) results1 results2
      = .error m := by
  induction k with
  | zero =>
    intro n st results1 results2 hn _ hfault
    obtain ⟨n', rfl⟩ : ∃ n', n = n' + 1 := ⟨n - 1, by omega⟩
    rw [checkTimeOverlapLoop_succ, hfault]
  | succ k ih =>
    intro n st results1 results2 hn hgood hfault
    obtain ⟨n', rfl⟩ : ∃ n', n = n' + 1 := ⟨n - 1, by omega⟩
    obtain ⟨p, hp⟩ := hgood 0 (by omega)
    rw [checkTimeOverlapLoop_succ, hp]
    by_cases hflag : p.2 = true
    · simp only [hflag, if_true]
      exact ih n' (fun i => st (i + 1)) _ _ (by omega)
        (fun i hi => hgood (i + 1) (by omega)) hfault
    · simp only [hflag, if_false, Bool.false_eq_true]
      exact ih n' (fun i => st (i + 1)) _ _ (by omega)
        (fun i hi => hgood (i + 1) (by omega)) hfault

theorem simulateAbnormalLoop_fault (sim : Simulation σ α) (condition : String)
    (progs : List String) (m : String) (k : Nat) :
    ∀ (n : Nat) (st : Nat → σ), k < n →
    (∀ i, i < k →
      trialOf sim condition (abnormalQuery sim progs) (st i) = .ok (st (i + 1), none)) →
    trialOf sim condition (abnormalQuery sim progs) (st k) = .error m →
    simulateAbnormalLoop sim condition progs n (st 0) = .error m := by
  induction k with
  | zero =>
    intro n st hn _ hfault
    obtain ⟨n', rfl⟩ : ∃ n', n = n' + 1 := ⟨n - 1, by omega⟩
    rw [simulateAbnormalLoop_succ_general, hfault]
  | succ k ih =>
    intro n st hn hgood hfault
    obtain ⟨n', rfl⟩ : ∃ n', n = n' + 1 := ⟨n - 1, by omega⟩
    rw [simulateAbnormalLoop_succ_general, hgood 0 (by omega)]
    exact ih n' (fun i => st (i + 1)) (by omega)
      (fun i hi => hgood (i + 1) (by omega)) hfault

theorem cellExistence_of_error (sim : Simulation σ α) (pgm : List String)
    (condition : String) (n : Nat) (m : String)
    (h : cellExistenceTry sim pgm condition n = .error m) :
    cellExistence sim pgm condition n = ["Error: " ++ m] := by
  rw [cellExistence, h]
  rfl

theorem simulateAbnormal_of_error (sim : Simulation σ α) (pgm : List String)
    (condition : String) (n : Nat) (m : String)
    (h : simulateAbnormalTry sim pgm condition n = .error m) :
    simulateAbnormal sim pgm condition n = ["Error: " ++ m] := by
  rw [simulateAbnormal, h]
  rfl

theorem checkTimeOverlap_of_error (sim : Simulation σ α) (sqrt : α → α) (fmt : α → String)
    (pgm : List String) (condition firstCell secondCell : String) (n : Nat) (rawData : Bool)
    (m : String)
    (h : checkTimeOverlapTry sim sqrt fmt pgm condition firstCell secondCell n rawData
      = .error m) :
    checkTimeOverlap sim sqrt fmt pgm condition firstCell secondCell n rawData
      = some ["Error: " ++ m] := by
  rw [checkTimeOverlap, h]

theorem cellExistenceTry_of_create (sim : Simulation σ α) (pgm : List String)
    (condition : String) (n : Nat) (s : σ) (h : sim.create pgm = .ok s) :
    cellExistenceTry sim pgm condition n
      = (cellExistenceLoop sim condition n s []).bind
          (fun r => .ok (r.1.map (fun nameCount => nameCount.1 ++ ": " ++ to_string nameCount.2),
            r.2)) := by
  simp only [cellExistenceTry, h, bind, Except.bind]
  rfl

theorem checkTimeOverlapTry_of_create (sim : Simulation σ α) (sqrt : α → α)
    (fmt : α → String) (pgm : List String) (condition firstCell secondCell : String)
    (n : Nat) (rawData : Bool) (s : σ) (h : sim.create pgm = .ok s) :
    checkTimeOverlapTry sim sqrt fmt pgm condition firstCell secondCell n rawData
      = (checkTimeOverlapLoop sim condition firstCell secondCell n s [] []).bind
          (fun r => .ok (overlapReport sqrt fmt firstCell secondCell rawData r.1.1 r.1.2,
            r.2)) := by
  simp only [checkTimeOverlapTry, h, bind, Except.bind]
  rfl

theorem simulateAbnormalTry_of_create (sim : Simulation σ α) (pgm : List String)
    (condition : String) (n : Nat) (s : σ) (h : sim.create pgm = .ok s) :
    simulateAbnormalTry sim pgm condition n
      = (sim.programs s).bind (fun progs => simulateAbnormalLoop sim condition progs n s) := by
  simp only [simulateAbnormalTry, h, bind, Except.bind]

end FaultLemmas

section FaultClaims

variable {σ : Type} {α : Type} [LinearOrderedField α]

/-- C14. For each of `checkTimeOverlap`, `cellExistence` and `simulateAbnormal`: if the
constructor throws the message m, or if after k trials that went through (k below the trial
count, whatever they collected) the next trial throws m in its `clear`, its `run` or its
query (in `simulateAbnormal` also if the query `programs()` throws m), the call returns
exactly the one line "Error: " followed by m.  A trial throws m exactly when its `clear`
throws m, or its `run` does, or its query does. -/
theorem fault_returns_error_line {β : Type} (sim : Simulation σ α) (sqrt : α → α)
    (fmt : α → String) (pgm : List String) (condition firstCell secondCell : String)
    (N k : Nat) (rawData : Bool) (m : String) (st : Nat → σ) (progs : List String)
    (query : σ → Except String β) (s : σ) :
    (sim.create pgm = .error m →
      checkTimeOverlap sim sqrt fmt pgm condition firstCell secondCell N rawData
        = some ["Error: " ++ m] ∧
      cellExistence sim pgm condition N = ["Error: " ++ m] ∧
      simulateAbnormal sim pgm condition N = ["Error: " ++ m]) ∧
    (sim.create pgm = .ok (st 0) → k < N →
      ((∀ i, i < k → ∃ p, trialOf sim condition (fun s => sim.overlap s firstCell secondCell)
          (st i) = .ok (st (i + 1), p)) →
        trialOf sim condition (fun s => sim.overlap s firstCell secondCell) (st k)
          = .error m →
        checkTimeOverlap sim sqrt fmt pgm condition firstCell secondCell N rawData
          = some ["Error: " ++ m]) ∧
      ((∀ i, i < k → ∃ res, trialOf sim condition sim.cellCount (st i)
          = .ok (st (i + 1), res)) →
        trialOf sim condition sim.cellCount (st k) = .error m →
        cellExistence sim pgm condition N = ["Error: " ++ m]) ∧
      (sim.programs (st 0) = .ok progs →
        (∀ i, i < k → trialOf sim condition (abnormalQuery sim progs) (st i)
          = .ok (st (i + 1), none)) →
        trialOf sim condition (abnormalQuery sim progs) (st k) = .error m →
        simulateAbnormal sim pgm condition N = ["Error: " ++ m])) ∧
    (sim.create pgm = .ok (st 0) → sim.programs (st 0) = .error m →
      simulateAbnormal sim pgm condition N = ["Error: " ++ m]) ∧
    (trialOf sim condition query s = .error m ↔
      sim.clear s = .error m ∨
      ∃ c, sim.clear s = .ok c ∧
        (sim.run c INITIALPROG condition (-1) (-1) = .error m ∨
          ∃ s', sim.run c INITIALPROG condition (-1) (-1) = .ok s' ∧
            query s' = .error m)) := by
  refine ⟨?_, ?_, ?_, trialOf_error_iff sim condition query s m⟩
  · intro hcreate
    refine ⟨?_, ?_, ?_⟩
    · apply checkTimeOverlap_of_error
      simp [checkTimeOverlapTry, hcreate, bind, Except.bind]
    · apply cellExistence_of_error
      simp [cellExistenceTry, hcreate, bind, Except.bind]
    · apply simulateAbnormal_of_error
      simp [simulateAbnormalTry, hcreate, bind, Except.bind]
  · intro hcreate hk
    refine ⟨?_, ?_, ?_⟩
    · intro hgood hfault
      apply checkTimeOverlap_of_error
      rw [checkTimeOverlapTry_of_create sim sqrt fmt pgm condition firstCell secondCell N
        rawData _ hcreate,
        checkTimeOverlapLoop_fault sim condition firstCell secondCell m k N st [] [] hk
          hgood hfault]
      rfl
    · intro hgood hfault
      apply cellExistence_of_error
      rw [cellExistenceTry_of_create sim pgm condition N _ hcreate,
        cellExistenceLoop_fault sim condition m k N st [] hk hgood hfault]
      rfl
    · intro hprogs hgood hfault
      apply simulateAbnormal_of_error
      rw [simulateAbnormalTry_of_create sim pgm condition N _ hcreate, hprogs]
      exact simulateAbnormalLoop_fault sim condition progs m k N st hk hgood hfault
  · intro hcreate hprogs
    apply simulateAbnormal_of_error
    rw [simulateAbnormalTry_of_create sim pgm condition N _ hcreate, hprogs]
    rfl

/-- Witness for C14: the second run of `boomSim` throws "boom"; with three trials each of
the three calls returns the single line "Error: boom", whatever the first trial gave. -/
theorem fault_returns_error_line_witness :
    checkTimeOverlap boomSim (fun x : ℚ => x) (fun q : ℚ => toString q.num) [] "default"
        "A" "B" 3 true = some ["Error: boom"] ∧
    cellExistence boomSim [] "default" 3 = ["Error: boom"] ∧
    simulateAbnormal boomSim [] "default" 3 = ["Error: boom"] := by
  have h := (fault_returns_error_line (β := Unit) boomSim (fun x : ℚ => x)
    (fun q : ℚ => toString q.num) [] "default" "A" "B" 3 1 true "boom" (fun i => i) ["P0"]
    (fun _ => .ok ()) 0).2.1 rfl (by decide)
  refine ⟨h.1 ?_ rfl, h.2.1 ?_ rfl, h.2.2 rfl ?_ rfl⟩
  · intro i hi
    obtain rfl : i = 0 := by omega
    exact ⟨_, rfl⟩
  · intro i hi
    obtain rfl : i = 0 := by omega
    exact ⟨_, rfl⟩
  · intro i hi
    obtain rfl : i = 0 := by omega
    rfl

end FaultClaims

/-! ### The trace of `clear` and `run` (C17) -/

section MonitorLemmas

variable {σ : Type} {α : Type}

theorem checkProgs_monitored (sim : Simulation σ α) (alarm : String) (s : σ) (b : Bool)
    (res : CountMap) (progs : List String) :
    checkProgs (sim.monitored alarm) (s, b) res progs = checkProgs sim s res progs := by
  induction progs with
  | nil => rfl
  | cons name progs ih =>
    unfold checkProgs
    cases mapFind res name with
    | none => rfl
    | some c =>
      by_cases hc : c > 1
      · simp only [hc, if_true]
        rfl
      · simp only [hc, if_false]
        exact ih

theorem abnormalQuery_monitored (sim : Simulation σ α) (alarm : String)
    (progs : List String) (s : σ × Bool) :
    abnormalQuery (sim.monitored alarm) progs s = abnormalQuery sim progs s.1 := by
  obtain ⟨s, b⟩ := s
  unfold abnormalQuery
  have h : (sim.monitored alarm).cellCount (s, b) = sim.cellCount s := rfl
  rw [h]
  cases sim.cellCount s with
  | error e => rfl
  | ok res => exact checkProgs_monitored sim alarm s b res progs

variable [LinearOrderedField α]

theorem trialOf_monitored {β : Type} (sim : Simulation σ α) (alarm : String)
    (condition : String) (query : σ → Except String β) (s : σ) (b : Bool) :
    trialOf (sim.monitored alarm) condition (fun s => query s.1) (s, b)
      = (trialOf sim condition query s).map (fun r => ((r.1, false), r.2)) := by
  unfold trialOf
  have hclear : (sim.monitored alarm).clear (s, b)
      = (sim.clear s).map (fun s' => (s', true)) := rfl
  rw [hclear]
  cases hc : sim.clear s with
  | error e => rfl
  | ok c =>
    have hrun : (sim.monitored alarm).run (c, true) INITIALPROG condition (-1) (-1)
        = (sim.run c INITIALPROG condition (-1) (-1)).map (fun s' => (s', false)) := rfl
    simp only [Except.map, bind, Except.bind, hrun]
    cases hr : sim.run c INITIALPROG condition (-1) (-1) with
    | error e => rfl
    | ok s' =>
      simp only
      cases hq : query s' with
      | error e => rfl
      | ok r => rfl

theorem cellExistenceLoop_monitored (sim : Simulation σ α) (alarm : String)
    (condition : String) (n : Nat) (s : σ) (b : Bool) (total : CountMap) :
    cellExistenceLoop (sim.monitored alarm) condition n (s, b) total
      = (cellExistenceLoop sim condition n s total).map
          (fun r => (r.1, (r.2, if n = 0 then b else false))) := by
  induction n generalizing s b total with
  | zero => rfl
  | succ n ih =>
    have hq : (sim.monitored alarm).cellCount = fun s => sim.cellCount s.1 := rfl
    rw [cellExistenceLoop_succ, cellExistenceLoop_succ, hq,
      trialOf_monitored sim alarm condition sim.cellCount s b]
    cases trialOf sim condition sim.cellCount s with
    | error e => rfl
    | ok r =>
      simp only [Except.map]
      rw [ih]
      cases cellExistenceLoop sim condition n r.1 (mergeTable total r.2) with
      | error e => rfl
      | ok r' => cases n <;> rfl

theorem checkTimeOverlapLoop_monitored (sim : Simulation σ α) (alarm : String)
    (condition firstCell secondCell : String) (n : Nat) (s : σ) (b : Bool)
    (results1 results2 : List α) :
    checkTimeOverlapLoop (sim.monitored alarm) condition firstCell secondCell n (s, b)
        results1 results2
      = (checkTimeOverlapLoop sim condition firstCell secondCell n s results1 results2).map
          (fun r => (r.1, (r.2, if n = 0 then b else false))) := by
  induction n generalizing s b results1 results2 with
  | zero => rfl
  | succ n ih =>
    have hq : (fun s : σ × Bool => (sim.monitored alarm).overlap s firstCell secondCell)
        = fun s => (fun s => sim.overlap s firstCell secondCell) s.1 := rfl
    rw [checkTimeOverlapLoop_succ, checkTimeOverlapLoop_succ, hq,
      trialOf_monitored sim alarm condition (fun s => sim.overlap s firstCell secondCell) s b]
    cases trialOf sim condition (fun s => sim.overlap s firstCell secondCell) s with
    | error e => rfl
    | ok r =>
      simp only [Except.map]
      by_cases hflag : r.2.2 = true
      · simp only [hflag, if_true]
        rw [ih]
        cases checkTimeOverlapLoop sim condition firstCell secondCell n r.1
            (results1 ++ [r.2.1]) results2 with
        | error e => rfl
        | ok r' => cases n <;> rfl
      · simp only [hflag, if_false, Bool.false_eq_true]
        rw [ih]
        cases checkTimeOverlapLoop sim condition firstCell secondCell n r.1
            results1 (results2 ++ [r.2.1]) with
        | error e => rfl
        | ok r' => cases n <;> rfl

theorem simulateAbnormalLoop_monitored (sim : Simulation σ α) (alarm : String)
    (condition : String) (progs : List String) (n : Nat) (s : σ) (b : Bool) :
    simulateAbnormalLoop (sim.monitored alarm) condition progs n (s, b)
      = (simulateAbnormalLoop sim condition progs n s).map
          (fun r => (r.1, (r.2, if n = 0 then b else false))) := by
  induction n generalizing s b with
  | zero => rfl
  | succ n ih =>
    have hq : abnormalQuery (sim.monitored alarm) progs
        = fun s => abnormalQuery sim progs s.1 := by
      funext s
      exact abnormalQuery_monitored sim alarm progs s
    rw [simulateAbnormalLoop_succ_general, simulateAbnormalLoop_succ_general, hq,
      trialOf_monitored sim alarm condition (abnormalQuery sim progs) s b]
    cases trialOf sim condition (abnormalQuery sim progs) s with
    | error e => rfl
    | ok r =>
      obtain ⟨s', o⟩ := r
      cases o with
      | some results => rfl
      | none =>
        simp only [Except.map]
        rw [ih]
        cases simulateAbnormalLoop sim condition progs n s' with
        | error e => rfl
        | ok r' => cases n <;> rfl

end MonitorLemmas

section TraceLemmas

variable {σ : Type} {α : Type} [LinearOrderedField α]

theorem trialOps_getElem? (k j : Nat) :
    (trialOps k)[j]? = if j < 2 * k then
      (if j % 2 = 0 then some HandleOp.clear else some HandleOp.run) else none := by
  induction k generalizing j with
  | zero => simp [trialOps]
  | succ k ih =>
    have h : trialOps (k + 1) = HandleOp.clear :: HandleOp.run :: trialOps k := rfl
    rw [h]
    match j with
    | 0 => simp
    | 1 =>
      have : 1 < 2 * (k + 1) := by omega
      simp [this]
    | j + 2 =>
      simp only [List.getElem?_cons_succ, ih]
      have h1 : (j + 2 < 2 * (k + 1)) ↔ (j < 2 * k) := by omega
      have h2 : (j + 2) % 2 = j % 2 := by omega
      simp only [h1, h2]

theorem trialOps_run_after_clear (k j : Nat) (h : (trialOps k)[j]? = some HandleOp.run) :
    ∃ i, j = i + 1 ∧ (trialOps k)[i]? = some HandleOp.clear := by
  rw [trialOps_getElem?] at h
  have hj : j < 2 * k ∧ j % 2 = 1 := by
    by_cases h1 : j < 2 * k
    · by_cases h2 : j % 2 = 0
      · simp [h1, h2] at h
      · exact ⟨h1, by omega⟩
    · simp [h1] at h
  refine ⟨j - 1, by omega, ?_⟩
  rw [trialOps_getElem?]
  have h1 : j - 1 < 2 * k := by omega
  have h2 : (j - 1) % 2 = 0 := by omega
  simp [h1, h2]

theorem cellExistenceTry_logged (T : Stub σ α) (pgm : List String) (condition : String)
    (n : Nat) :
    ∃ out, cellExistenceTry T.logged.toSimulation pgm condition n
      = .ok (out, (T.trialState pgm condition n, trialOps n)) := by
  have h : cellExistenceTry T.logged.toSimulation pgm condition n
      = (cellExistenceLoop T.logged.toSimulation condition n (T.create pgm, []) []).bind
          (fun r => .ok (r.1.map (fun nameCount => nameCount.1 ++ ": " ++ to_string nameCount.2),
            r.2)) := rfl
  rw [h, cellExistenceLoop_stub, logged_iterate]
  exact ⟨_, rfl⟩

theorem checkTimeOverlapTry_logged (T : Stub σ α) (sqrt : α → α) (fmt : α → String)
    (pgm : List String) (condition firstCell secondCell : String) (n : Nat) (rawData : Bool) :
    ∃ out, checkTimeOverlapTry T.logged.toSimulation sqrt fmt pgm condition firstCell
        secondCell n rawData
      = .ok (out, (T.trialState pgm condition n, trialOps n)) := by
  have h : checkTimeOverlapTry T.logged.toSimulation sqrt fmt pgm condition firstCell
      secondCell n rawData
      = (checkTimeOverlapLoop T.logged.toSimulation condition firstCell secondCell n
          (T.create pgm, []) [] []).bind
          (fun r => .ok (overlapReport sqrt fmt firstCell secondCell rawData r.1.1 r.1.2,
            r.2)) := rfl
  rw [h, checkTimeOverlapLoop_stub, logged_iterate]
  exact ⟨_, rfl⟩

theorem simulateAbnormalTry_logged_trace (T : Stub σ α) (pgm : List String)
    (condition : String) (n : Nat) :
    ∃ out k, k ≤ n ∧ simulateAbnormalTry T.logged.toSimulation pgm condition n
      = .ok (out, (T.trialState pgm condition k, trialOps k)) := by
  rw [simulateAbnormalTry_logged]
  rcases first_abnormal_or_all_normal T.logged condition (T.programs (T.create pgm)) n
    (T.create pgm, []) with ⟨k, name, hk1, hkn, hb, hk⟩ | hall
  · rw [simulateAbnormalLoop_first_abnormal T.logged condition _ n k _ name hk1 hkn hb hk,
      logged_iterate]
    exact ⟨_, k, hkn, rfl⟩
  · rw [simulateAbnormalLoop_all_normal T.logged condition _ n _ hall, logged_iterate]
    exact ⟨_, n, le_refl n, rfl⟩

end TraceLemmas

section TraceClaims

variable {σ : Type} {α : Type} [LinearOrderedField α]

theorem cellExistence_monitored (sim : Simulation σ α) (alarm : String) (pgm : List String)
    (condition : String) (n : Nat) :
    cellExistence (sim.monitored alarm) pgm condition n = cellExistence sim pgm condition n := by
  unfold cellExistence
  have hcreate : (sim.monitored alarm).create pgm
      = (sim.create pgm).map (fun s => (s, false)) := rfl
  cases hc : sim.create pgm with
  | error e =>
    rw [hc] at hcreate
    have h1 : cellExistenceTry (sim.monitored alarm) pgm condition n = .error e := by
      simp [cellExistenceTry, hcreate, Except.map, bind, Except.bind]
    have h2 : cellExistenceTry sim pgm condition n = .error e := by
      simp [cellExistenceTry, hc, bind, Except.bind]
    rw [h1, h2]
    rfl
  | ok s =>
    rw [hc] at hcreate
    rw [cellExistenceTry_of_create _ pgm condition n _ hcreate,
      cellExistenceTry_of_create _ pgm condition n _ hc, cellExistenceLoop_monitored]
    cases cellExistenceLoop sim condition n s [] <;> rfl

theorem checkTimeOverlap_monitored (sim : Simulation σ α) (alarm : String) (sqrt : α → α)
    (fmt : α → String) (pgm : List String) (condition firstCell secondCell : String)
    (n : Nat) (rawData : Bool) :
    checkTimeOverlap (sim.monitored alarm) sqrt fmt pgm condition firstCell secondCell n
        rawData
      = checkTimeOverlap sim sqrt fmt pgm condition firstCell secondCell n rawData := by
  unfold checkTimeOverlap
  have hcreate : (sim.monitored alarm).create pgm
      = (sim.create pgm).map (fun s => (s, false)) := rfl
  cases hc : sim.create pgm with
  | error e =>
    rw [hc] at hcreate
    have h1 : checkTimeOverlapTry (sim.monitored alarm) sqrt fmt pgm condition firstCell
        secondCell n rawData = .error e := by
      simp [checkTimeOverlapTry, hcreate, Except.map, bind, Except.bind]
    have h2 : checkTimeOverlapTry sim sqrt fmt pgm condition firstCell secondCell n rawData
        = .error e := by
      simp [checkTimeOverlapTry, hc, bind, Except.bind]
    rw [h1, h2]
  | ok s =>
    rw [hc] at hcreate
    rw [checkTimeOverlapTry_of_create _ sqrt fmt pgm condition firstCell secondCell n rawData
        _ hcreate,
      checkTimeOverlapTry_of_create _ sqrt fmt pgm condition firstCell secondCell n rawData
        _ hc, checkTimeOverlapLoop_monitored]
    cases checkTimeOverlapLoop sim condition firstCell secondCell n s [] [] <;> rfl

theorem simulateAbnormal_monitored (sim : Simulation σ α) (alarm : String)
    (pgm : List String) (condition : String) (n : Nat) :
    simulateAbnormal (sim.monitored alarm) pgm condition n
      = simulateAbnormal sim pgm condition n := by
  unfold simulateAbnormal
  have hcreate : (sim.monitored alarm).create pgm
      = (sim.create pgm).map (fun s => (s, false)) := rfl
  cases hc : sim.create pgm with
  | error e =>
    rw [hc] at hcreate
    have h1 : simulateAbnormalTry (sim.monitored alarm) pgm condition n = .error e := by
      simp [simulateAbnormalTry, hcreate, Except.map, bind, Except.bind]
    have h2 : simulateAbnormalTry sim pgm condition n = .error e := by
      simp [simulateAbnormalTry, hc, bind, Except.bind]
    rw [h1, h2]
    rfl
  | ok s =>
    rw [hc] at hcreate
    rw [simulateAbnormalTry_of_create _ pgm condition n _ hcreate,
      simulateAbnormalTry_of_create _ pgm condition n _ hc]
    have hp : (sim.monitored alarm).programs (s, false) = sim.programs s := rfl
    rw [hp]
    cases sim.programs s with
    | error e => rfl
    | ok progs =>
      simp only [Except.bind]
      rw [simulateAbnormalLoop_monitored]
      cases simulateAbnormalLoop sim condition progs n s <;> rfl

/-- C17. In `checkTimeOverlap`, `cellExistence` and `simulateAbnormal` every `run` of the
simulator object is immediately preceded by a `clear` of it.  For every simulator, throwing
or not: under a monitor that throws `alarm` when `run` is called on an object that was not
cleared since its last run (or its construction), each of the three calls returns what it
returns without the monitor, for every choice of `alarm`, so the monitor never fires.  For a
non-throwing simulator: `checkTimeOverlap` and `cellExistence` with trial count N leave the
log of N trials, `simulateAbnormal` the log of some k <= N trials; the log of N trials holds
exactly N resets and N runs, and in the log of any number of trials each `run` stands right
after a `clear`. -/
theorem run_preceded_by_clear (sim : Simulation σ α) (T : Stub σ α) (alarm : String)
    (sqrt : α → α) (fmt : α → String) (pgm : List String)
    (condition firstCell secondCell : String) (N : Nat) (rawData : Bool) :
    (checkTimeOverlap (sim.monitored alarm) sqrt fmt pgm condition firstCell secondCell N
          rawData
        = checkTimeOverlap sim sqrt fmt pgm condition firstCell secondCell N rawData ∧
      cellExistence (sim.monitored alarm) pgm condition N = cellExistence sim pgm condition N ∧
      simulateAbnormal (sim.monitored alarm) pgm condition N
        = simulateAbnormal sim pgm condition N) ∧
    ((∃ out, checkTimeOverlapTry T.logged.toSimulation sqrt fmt pgm condition firstCell
          secondCell N rawData
        = .ok (out, (T.trialState pgm condition N, trialOps N))) ∧
      (∃ out, cellExistenceTry T.logged.toSimulation pgm condition N
        = .ok (out, (T.trialState pgm condition N, trialOps N))) ∧
      (∃ out k, k ≤ N ∧ simulateAbnormalTry T.logged.toSimulation pgm condition N
        = .ok (out, (T.trialState pgm condition k, trialOps k)))) ∧
    ((trialOps N).count HandleOp.clear = N ∧ (trialOps N).count HandleOp.run = N) ∧
    (∀ k j, (trialOps k)[j]? = some HandleOp.run →
      ∃ i, j = i + 1 ∧ (trialOps k)[i]? = some HandleOp.clear) :=
  ⟨⟨checkTimeOverlap_monitored sim alarm sqrt fmt pgm condition firstCell secondCell N rawData,
      cellExistence_monitored sim alarm pgm condition N,
      simulateAbnormal_monitored sim alarm pgm condition N⟩,
    ⟨checkTimeOverlapTry_logged T sqrt fmt pgm condition firstCell secondCell N rawData,
      cellExistenceTry_logged T pgm condition N,
      simulateAbnormalTry_logged_trace T pgm condition N⟩,
    ⟨trialOps_count_clear N, trialOps_count_run N⟩,
    trialOps_run_after_clear⟩

end TraceClaims

/-! ### Lines that begin with "Error:" (C15) -/

section PrefixLemmas

theorem prefix_of_prefix_append_cons (p t rest : List Char) (c : Char) (hc : c ∉ p)
    (h : p <+: t ++ c :: rest) : p <+: t := by
  rcases List.prefix_or_prefix_of_prefix h (List.prefix_append t (c :: rest)) with h1 | h1
  · exact h1
  · obtain ⟨v, rfl⟩ := h1
    rw [List.prefix_append_right_inj] at h
    cases v with
    | nil => simp
    | cons d v =>
      have hd : d = c := (List.cons_prefix_cons.mp h).1
      exact absurd (by simp [hd]) hc

theorem error_prefix_append_colon (t rest : List Char)
    (h : "Error:".data <+: t ++ ':' :: rest) : "Error:".data <+: t ∨ t = "Error".data := by
  rcases List.prefix_or_prefix_of_prefix h (List.prefix_append t (':' :: rest)) with h1 | h1
  · exact Or.inl h1
  · obtain ⟨v, hv⟩ := h1
    rw [← hv, List.prefix_append_right_inj] at h
    cases v with
    | nil =>
      left
      rw [← hv]
      simp
    | cons d v =>
      right
      have hd : d = ':' := (List.cons_prefix_cons.mp h).1
      subst hd
      have hv' : t ++ ':' :: v = ['E', 'r', 'r', 'o', 'r', ':'] := hv
      rcases t with _ | ⟨a, _ | ⟨b, _ | ⟨c, _ | ⟨d, _ | ⟨e, _ | ⟨f, t⟩⟩⟩⟩⟩⟩ <;>
        simp_all

end PrefixLemmas

section MarkerLemmas

theorem beginsWithError_error_line (m : String) : beginsWithError ("Error: " ++ m) := by
  unfold beginsWithError
  rw [String.data_append]
  exact ⟨' ' :: m.data, rfl⟩

theorem not_beginsWithError_append_blank (t u : String) (h : ¬ beginsWithError t)
    (hu : ∃ rest, u.data = ' ' :: rest) : ¬ beginsWithError (t ++ u) := by
  obtain ⟨rest, hrest⟩ := hu
  unfold beginsWithError at h ⊢
  rw [String.data_append, hrest]
  exact fun hp => h (prefix_of_prefix_append_cons _ _ _ ' ' (by decide) hp)

theorem not_beginsWithError_not_created (name : String) (h : ¬ beginsWithError name) :
    ¬ beginsWithError (name ++ " was not created.") :=
  not_beginsWithError_append_blank name _ h ⟨_, rfl⟩

theorem not_beginsWithError_more_than_once (name : String) (h : ¬ beginsWithError name) :
    ¬ beginsWithError (name ++ " was created more than once.") :=
  not_beginsWithError_append_blank name _ h ⟨_, rfl⟩

theorem not_beginsWithError_header (first second : String) (h : ¬ beginsWithError first) :
    ¬ beginsWithError (first ++ " born before " ++ second ++ ":") := by
  have : first ++ " born before " ++ second ++ ":"
      = first ++ (" born before " ++ second ++ ":") := by
    simp [String.append_assoc]
  rw [this]
  apply not_beginsWithError_append_blank first _ h
  refine ⟨(" born before " ++ second ++ ":").data.tail, ?_⟩
  simp [String.data_append]

theorem not_beginsWithError_count_line (name : String) (count : Nat)
    (h : ¬ beginsWithError name) (hname : name ≠ "Error") :
    ¬ beginsWithError (name ++ ": " ++ to_string count) := by
  unfold beginsWithError at h ⊢
  rw [String.data_append, String.data_append]
  have h2 : (": " : String).data = [':', ' '] := rfl
  rw [h2, List.append_assoc]
  intro hp
  rcases error_prefix_append_colon name.data _ hp with h1 | h1
  · exact h h1
  · exact hname (String.ext h1)

theorem not_beginsWithError_closing :
    ¬ beginsWithError "Could not find an abnormal simulation." := by
  unfold beginsWithError
  decide

theorem not_beginsWithError_summaryLines {α : Type} [LinearOrderedField α] (fmt : α → String)
    (stat : List α) : ∀ line ∈ summaryLines fmt stat, ¬ beginsWithError line := by
  intro line hline
  unfold summaryLines at hline
  split at hline
  · simp only [List.mem_cons, List.mem_singleton, List.not_mem_nil, or_false] at hline
    unfold beginsWithError
    rcases hline with rfl | rfl | rfl | rfl | rfl | rfl | rfl | rfl | rfl <;>
      · rw [String.data_append]
        intro hp
        have := (List.cons_prefix_cons.mp hp).1
        revert this
        decide
  · simp at hline

end MarkerLemmas

section RawLine

variable {α : Type}

theorem rawLine_foldl_data (fmt : α → String) (vs : List α) (acc : String) :
    ∃ rest, ((vs.foldl (fun (p : String × Bool) val =>
        ((if !p.2 then p.1 ++ ", " else p.1) ++ fmt val, false)) (acc, false)).1).data
      = acc.data ++ rest ∧ (rest = [] ∨ ∃ r, rest = ',' :: r) := by
  induction vs generalizing acc with
  | nil => exact ⟨[], by simp, Or.inl rfl⟩
  | cons v vs ih =>
    obtain ⟨rest, h1, -⟩ := ih (acc ++ ", " ++ fmt v)
    refine ⟨',' :: ' ' :: (fmt v).data ++ rest, ?_, Or.inr ⟨_, rfl⟩⟩
    simp only [List.foldl_cons, Bool.not_false, if_true]
    rw [h1]
    simp [String.data_append]

theorem not_beginsWithError_rawLine (fmt : α → String) (vec : List α) (hne : vec ≠ [])
    (hfmt : ∀ v, ¬ beginsWithError (fmt v)) : ¬ beginsWithError (rawLine fmt vec) := by
  cases vec with
  | nil => exact absurd rfl hne
  | cons v vs =>
    obtain ⟨rest, h1, h2⟩ := rawLine_foldl_data fmt vs (fmt v)
    have hraw : (rawLine fmt (v :: vs)).data = (fmt v).data ++ rest := by
      rw [← h1]
      simp [rawLine]
    unfold beginsWithError
    rw [hraw]
    rcases h2 with rfl | ⟨r, rfl⟩
    · simpa using hfmt v
    · exact fun hp => hfmt v (prefix_of_prefix_append_cons _ _ _ ',' (by decide) hp)

end RawLine

section PayloadLemmas

variable {σ : Type} {α : Type}

theorem mem_mergeCount {total : CountMap} {e x : String × Nat} (h : x ∈ mergeCount total e) :
    x.1 = e.1 ∨ x ∈ total := by
  unfold mergeCount at h
  split_ifs at h
  · rcases mem_mapInsert h with rfl | h
    · exact Or.inl rfl
    · exact Or.inr h
  · exact mem_mapAddAt h

theorem mem_mergeTable {res total : CountMap} {x : String × Nat}
    (h : x ∈ mergeTable total res) : (∃ e ∈ res, x.1 = e.1) ∨ x ∈ total := by
  induction res generalizing total with
  | nil => exact Or.inr h
  | cons e res ih =>
    have hstep : mergeTable total (e :: res) = mergeTable (mergeCount total e) res := rfl
    rw [hstep] at h
    rcases ih h with ⟨e', he', hx⟩ | hx
    · exact Or.inl ⟨e', List.mem_cons_of_mem _ he', hx⟩
    · rcases mem_mergeCount hx with hx | hx
      · exact Or.inl ⟨e, List.mem_cons_self _ _, hx⟩
      · exact Or.inr hx

theorem checkProgs_ok_some (sim : Simulation σ α) (s : σ) (res : CountMap)
    (progs : List String) (results : List String)
    (h : checkProgs sim s res progs = .ok (some results)) :
    ∃ trace name, sim.toVectorString s = .ok trace ∧ name ∈ progs ∧
      (results = trace ++ [name ++ " was not created."] ∨
        results = trace ++ [name ++ " was created more than once."]) := by
  induction progs with
  | nil => simp [checkProgs] at h
  | cons name progs ih =>
    unfold checkProgs at h
    cases hf : mapFind res name with
    | none =>
      rw [hf] at h
      cases ht : sim.toVectorString s with
      | error e => simp [ht, bind, Except.bind] at h
      | ok trace =>
        simp only [ht, bind, Except.bind, pure, Except.pure, Except.ok.injEq,
          Option.some.injEq] at h
        exact ⟨trace, name, rfl, List.mem_cons_self _ _, Or.inl h.symm⟩
    | some c =>
      rw [hf] at h
      by_cases hc : c > 1
      · simp only [hc, if_true] at h
        cases ht : sim.toVectorString s with
        | error e => simp [ht, bind, Except.bind] at h
        | ok trace =>
          simp only [ht, bind, Except.bind, pure, Except.pure, Except.ok.injEq,
            Option.some.injEq] at h
          exact ⟨trace, name, rfl, List.mem_cons_self _ _, Or.inr h.symm⟩
      · simp only [hc, if_false] at h
        obtain ⟨trace, name', h1, h2, h3⟩ := ih h
        exact ⟨trace, name', h1, List.mem_cons_of_mem _ h2, h3⟩

variable [LinearOrderedField α]

theorem trialOf_ok {β : Type} (sim : Simulation σ α) (condition : String)
    (query : σ → Except String β) (s s' : σ) (r : β)
    (h : trialOf sim condition query s = .ok (s', r)) : query s' = .ok r := by
  unfold trialOf at h
  cases hc : sim.clear s with
  | error e => simp [hc, bind, Except.bind] at h
  | ok c =>
    cases hr : sim.run c INITIALPROG condition (-1) (-1) with
    | error e => simp [hc, hr, bind, Except.bind] at h
    | ok s₂ =>
      cases hq : query s₂ with
      | error e => simp [hc, hr, hq, bind, Except.bind] at h
      | ok r₂ =>
        simp only [hc, hr, hq, bind, Except.bind, pure, Except.pure, Except.ok.injEq,
          Prod.mk.injEq] at h
        rw [← h.1, ← h.2]
        exact hq

theorem cellExistenceLoop_keys (sim : Simulation σ α) (condition : String)
    (P : String → Prop)
    (hcount : ∀ s res, sim.cellCount s = .ok res → ∀ e ∈ res, P e.1) (n : Nat) :
    ∀ (s : σ) (total total' : CountMap) (s' : σ),
      cellExistenceLoop sim condition n s total = .ok (total', s') →
      (∀ e ∈ total, P e.1) → ∀ e ∈ total', P e.1 := by
  induction n with
  | zero =>
    intro s total total' s' h htotal
    simp only [cellExistenceLoop, Except.ok.injEq, Prod.mk.injEq] at h
    rw [← h.1]
    exact htotal
  | succ n ih =>
    intro s total total' s' h htotal
    rw [cellExistenceLoop_succ] at h
    cases ht : trialOf sim condition sim.cellCount s with
    | error e => simp [ht] at h
    | ok r =>
      obtain ⟨s₁, res⟩ := r
      rw [ht] at h
      refine ih s₁ _ total' s' h ?_
      intro e he
      rcases mem_mergeTable he with ⟨e', he', hx⟩ | hx
      · rw [hx]
        exact hcount s₁ res (trialOf_ok sim condition _ s s₁ res ht) e' he'
      · exact htotal e hx

theorem simulateAbnormalLoop_lines (sim : Simulation σ α) (condition : String)
    (progs : List String) (n : Nat) :
    ∀ (s : σ) (out : List String) (s' : σ),
      simulateAbnormalLoop sim condition progs n s = .ok (out, s') →
      out = ["Could not find an abnormal simulation."] ∨
      ∃ s'' trace name, sim.toVectorString s'' = .ok trace ∧ name ∈ progs ∧
        (out = trace ++ [name ++ " was not created."] ∨
          out = trace ++ [name ++ " was created more than once."]) := by
  induction n with
  | zero =>
    intro s out s' h
    simp only [simulateAbnormalLoop, Except.ok.injEq, Prod.mk.injEq] at h
    exact Or.inl h.1.symm
  | succ n ih =>
    intro s out s' h
    rw [simulateAbnormalLoop_succ_general] at h
    cases ht : trialOf sim condition (abnormalQuery sim progs) s with
    | error e => simp [ht] at h
    | ok r =>
      obtain ⟨s₁, o⟩ := r
      rw [ht] at h
      cases o with
      | none => exact ih s₁ out s' h
      | some results =>
        simp only [Except.ok.injEq, Prod.mk.injEq] at h
        have hq := trialOf_ok sim condition _ s s₁ _ ht
        unfold abnormalQuery at hq
        cases hcc : sim.cellCount s₁ with
        | error e => simp [hcc, bind, Except.bind] at hq
        | ok res =>
          simp only [hcc, bind, Except.bind] at hq
          obtain ⟨trace, name, h1, h2, h3⟩ := checkProgs_ok_some sim s₁ res progs results hq
          rw [← h.1]
          exact Or.inr ⟨s₁, trace, name, h1, h2, h3⟩

end PayloadLemmas

section ResponseLemmas

variable {σ : Type} {α : Type}

theorem whole_response_of (out : List String)
    (h : (∃ m, out = ["Error: " ++ m]) ∨ ∀ line ∈ out, ¬ beginsWithError line) :
    ∀ line ∈ out, beginsWithError line → out = [line] := by
  intro line hline hmark
  rcases h with ⟨m, rfl⟩ | h
  · simp only [List.mem_singleton] at hline
    rw [hline]
  · exact absurd hmark (h line hline)

theorem programs_response (sim : Simulation σ α) (pgm : List String)
    (hprograms : ∀ s l, sim.programs s = .ok l → ∀ x ∈ l, ¬ beginsWithError x) :
    (∃ m, programs sim pgm = ["Error: " ++ m]) ∨
      ∀ line ∈ programs sim pgm, ¬ beginsWithError line := by
  unfold programs programsTry
  cases hc : sim.create pgm with
  | error e => exact Or.inl ⟨e, rfl⟩
  | ok s =>
    cases hp : sim.programs s with
    | error e =>
      left
      exact ⟨e, by simp [hp, bind, Except.bind, catchError]⟩
    | ok l =>
      right
      have : catchError ((do
          let s ← Except.ok s
          let result ← sim.programs s
          pure (result, s)) : Except String (List String × σ)) = l := by
        simp [hp, bind, Except.bind, catchError, pure, Except.pure]
      rw [this]
      exact hprograms s l hp

theorem conditions_response (sim : Simulation σ α)
    (lookup : σ → String → Except String (Option (List String))) (pgm : List String)
    (program : String)
    (hlookup : ∀ s l, lookup s program = .ok (some l) → ∀ x ∈ l, ¬ beginsWithError x) :
    (∃ m, conditions sim lookup pgm program = ["Error: " ++ m]) ∨
      ∀ line ∈ conditions sim lookup pgm program, ¬ beginsWithError line := by
  unfold conditions
  cases hc : sim.create pgm with
  | error e => exact Or.inl ⟨e, rfl⟩
  | ok s =>
    cases hp : lookup s program with
    | error e =>
      left
      exact ⟨e, by simp [hp, bind, Except.bind]⟩
    | ok o =>
      cases o with
      | none =>
        left
        exact ⟨"Could not compile the program.", by
          simp [hp, bind, Except.bind, pure, Except.pure]⟩
      | some l =>
        right
        simp only [hp, bind, Except.bind, pure, Except.pure]
        exact hlookup s l hp

variable [LinearOrderedField α]

theorem simulate_response (sim : Simulation σ α) (pgm : List String) (condition : String)
    (htrace : ∀ s l, sim.toVectorString s = .ok l → ∀ x ∈ l, ¬ beginsWithError x) :
    (∃ m, simulate sim pgm condition = ["Error: " ++ m]) ∨
      ∀ line ∈ simulate sim pgm condition, ¬ beginsWithError line := by
  unfold simulate simulateTry
  cases hc : sim.create pgm with
  | error e => exact Or.inl ⟨e, rfl⟩
  | ok s =>
    cases hr : sim.run s INITIALPROG condition (-1) (-1) with
    | error e =>
      left
      exact ⟨e, by simp [hr, bind, Except.bind, catchError]⟩
    | ok s' =>
      cases ht : sim.toVectorString s' with
      | error e =>
        left
        exact ⟨e, by simp [hr, ht, bind, Except.bind, catchError]⟩
      | ok l =>
        right
        simp only [hr, ht, bind, Except.bind, catchError, pure, Except.pure]
        exact htrace s' l ht

theorem cellExistence_response (sim : Simulation σ α) (pgm : List String)
    (condition : String) (n : Nat)
    (hcount : ∀ s res, sim.cellCount s = .ok res →
      ∀ e ∈ res, ¬ beginsWithError e.1 ∧ e.1 ≠ "Error") :
    (∃ m, cellExistence sim pgm condition n = ["Error: " ++ m]) ∨
      ∀ line ∈ cellExistence sim pgm condition n, ¬ beginsWithError line := by
  cases hc : sim.create pgm with
  | error e =>
    left
    exact ⟨e, cellExistence_of_error sim pgm condition n e
      (by simp [cellExistenceTry, hc, bind, Except.bind])⟩
  | ok s =>
    have htry := cellExistenceTry_of_create sim pgm condition n s hc
    cases hl : cellExistenceLoop sim condition n s [] with
    | error e =>
      left
      refine ⟨e, cellExistence_of_error sim pgm condition n e ?_⟩
      rw [htry, hl]
      rfl
    | ok r =>
      right
      obtain ⟨total, s'⟩ := r
      have hkeys := cellExistenceLoop_keys sim condition
        (fun name => ¬ beginsWithError name ∧ name ≠ "Error") hcount n s [] total s' hl
        (by simp)
      have hout : cellExistence sim pgm condition n
          = total.map (fun nameCount => nameCount.1 ++ ": " ++ to_string nameCount.2) := by
        rw [cellExistence, htry, hl]
        rfl
      rw [hout]
      intro line hline
      obtain ⟨e, he, rfl⟩ := List.mem_map.mp hline
      exact not_beginsWithError_count_line e.1 e.2 (hkeys e he).1 (hkeys e he).2

theorem simulateAbnormal_response (sim : Simulation σ α) (pgm : List String)
    (condition : String) (n : Nat)
    (hprograms : ∀ s l, sim.programs s = .ok l → ∀ x ∈ l, ¬ beginsWithError x)
    (htrace : ∀ s l, sim.toVectorString s = .ok l → ∀ x ∈ l, ¬ beginsWithError x) :
    (∃ m, simulateAbnormal sim pgm condition n = ["Error: " ++ m]) ∨
      ∀ line ∈ simulateAbnormal sim pgm condition n, ¬ beginsWithError line := by
  cases hc : sim.create pgm with
  | error e =>
    left
    exact ⟨e, simulateAbnormal_of_error sim pgm condition n e
      (by simp [simulateAbnormalTry, hc, bind, Except.bind])⟩
  | ok s =>
    have htry := simulateAbnormalTry_of_create sim pgm condition n s hc
    cases hp : sim.programs s with
    | error e =>
      left
      refine ⟨e, simulateAbnormal_of_error sim pgm condition n e ?_⟩
      rw [htry, hp]
      rfl
    | ok progs =>
      cases hl : simulateAbnormalLoop sim condition progs n s with
      | error e =>
        left
        refine ⟨e, simulateAbnormal_of_error sim pgm condition n e ?_⟩
        rw [htry, hp]
        exact hl
      | ok r =>
        right
        obtain ⟨out, s'⟩ := r
        have hout : simulateAbnormal sim pgm condition n = out := by
          rw [simulateAbnormal, htry, hp]
          simp only [Except.bind, hl]
          rfl
        rw [hout]
        rcases simulateAbnormalLoop_lines sim condition progs n s out s' hl with
          rfl | ⟨s'', trace, name, h1, h2, h3⟩
        · intro line hline
          simp only [List.mem_singleton] at hline
          rw [hline]
          exact not_beginsWithError_closing
        · have hname := hprograms s progs hp name h2
          intro line hline
          rcases h3 with rfl | rfl
          · rcases List.mem_append.mp hline with h | h
            · exact htrace s'' trace h1 line h
            · simp only [List.mem_singleton] at h
              rw [h]
              exact not_beginsWithError_not_created name hname
          · rcases List.mem_append.mp hline with h | h
            · exact htrace s'' trace h1 line h
            · simp only [List.mem_singleton] at h
              rw [h]
              exact not_beginsWithError_more_than_once name hname

theorem sectionLines_no_marker (sqrt : α → α) (fmt : α → String) (rawData : Bool)
    (first second : String) (vec : List α) (hfirst : ¬ beginsWithError first)
    (hfmt : ∀ v, ¬ beginsWithError (fmt v)) :
    ∀ line ∈ sectionLines sqrt fmt rawData first second vec, ¬ beginsWithError line := by
  intro line hline
  unfold sectionLines at hline
  by_cases hne : vec = []
  · simp [hne] at hline
  · rw [if_neg hne] at hline
    rcases List.mem_append.mp hline with h | h
    · rcases List.mem_append.mp h with h | h
      · simp only [List.mem_singleton] at h
        rw [h]
        exact not_beginsWithError_header first second hfirst
      · cases rawData with
        | false => simp at h
        | true =>
          simp only [if_true, List.mem_singleton] at h
          rw [h]
          exact not_beginsWithError_rawLine fmt vec hne hfmt
    · exact not_beginsWithError_summaryLines fmt _ line h

theorem checkTimeOverlap_response (sim : Simulation σ α) (sqrt : α → α) (fmt : α → String)
    (pgm : List String) (condition firstCell secondCell : String) (n : Nat) (rawData : Bool)
    (hA : ¬ beginsWithError firstCell) (hB : ¬ beginsWithError secondCell)
    (hfmt : ∀ v, ¬ beginsWithError (fmt v)) :
    ∃ lines, checkTimeOverlap sim sqrt fmt pgm condition firstCell secondCell n rawData
        = some lines ∧
      ((∃ m, lines = ["Error: " ++ m]) ∨ ∀ line ∈ lines, ¬ beginsWithError line) := by
  rcases checkTimeOverlap_cases sim sqrt fmt pgm condition firstCell secondCell n rawData with
    ⟨err, -, h⟩ | ⟨results1, results2, s, -, h⟩
  · exact ⟨_, h, Or.inl ⟨err, rfl⟩⟩
  · rw [overlapReport_eq] at h
    refine ⟨_, h, Or.inr ?_⟩
    intro line hline
    rcases List.mem_append.mp hline with h1 | h1
    · exact sectionLines_no_marker sqrt fmt rawData _ _ _ hA hfmt line h1
    · exact sectionLines_no_marker sqrt fmt rawData _ _ _ hB hfmt line h1

end ResponseLemmas

section SuccessLemmas

variable {σ : Type} {α : Type}

theorem programs_success (sim : Simulation σ α) (pgm : List String)
    (hprograms : ∀ s l, sim.programs s = .ok l → ∀ x ∈ l, ¬ beginsWithError x)
    (out : List String) (s : σ) (h : programsTry sim pgm = .ok (out, s)) :
    programs sim pgm = out ∧ ∀ line ∈ out, ¬ beginsWithError line := by
  have hout : programs sim pgm = out := by
    unfold programs
    rw [h]
    rfl
  refine ⟨hout, ?_⟩
  unfold programsTry at h
  cases hc : sim.create pgm with
  | error e => simp [hc, bind, Except.bind] at h
  | ok s₀ =>
    cases hp : sim.programs s₀ with
    | error e => simp [hc, hp, bind, Except.bind] at h
    | ok l =>
      simp only [hc, hp, bind, Except.bind, pure, Except.pure, Except.ok.injEq,
        Prod.mk.injEq] at h
      rw [← h.1]
      exact hprograms s₀ l hp

theorem conditions_success (sim : Simulation σ α)
    (lookup : σ → String → Except String (Option (List String))) (pgm : List String)
    (program : String)
    (hlookup : ∀ s l, lookup s program = .ok (some l) → ∀ x ∈ l, ¬ beginsWithError x)
    (s : σ) (l : List String) (hc : sim.create pgm = .ok s)
    (hl : lookup s program = .ok (some l)) :
    conditions sim lookup pgm program = l ∧ ∀ line ∈ l, ¬ beginsWithError line := by
  refine ⟨?_, hlookup s l hl⟩
  unfold conditions
  simp only [hc, hl, bind, Except.bind, pure, Except.pure]

variable [LinearOrderedField α]

theorem simulate_success (sim : Simulation σ α) (pgm : List String) (condition : String)
    (htrace : ∀ s l, sim.toVectorString s = .ok l → ∀ x ∈ l, ¬ beginsWithError x)
    (out : List String) (s : σ) (h : simulateTry sim pgm condition = .ok (out, s)) :
    simulate sim pgm condition = out ∧ ∀ line ∈ out, ¬ beginsWithError line := by
  have hout : simulate sim pgm condition = out := by
    unfold simulate
    rw [h]
    rfl
  refine ⟨hout, ?_⟩
  unfold simulateTry at h
  cases hc : sim.create pgm with
  | error e => simp [hc, bind, Except.bind] at h
  | ok s₀ =>
    cases hr : sim.run s₀ INITIALPROG condition (-1) (-1) with
    | error e => simp [hc, hr, bind, Except.bind] at h
    | ok s₁ =>
      cases ht : sim.toVectorString s₁ with
      | error e => simp [hc, hr, ht, bind, Except.bind] at h
      | ok l =>
        simp only [hc, hr, ht, bind, Except.bind, pure, Except.pure, Except.ok.injEq,
          Prod.mk.injEq] at h
        rw [← h.1]
        exact htrace s₁ l ht

theorem cellExistence_success (sim : Simulation σ α) (pgm : List String)
    (condition : String) (n : Nat)
    (hcount : ∀ s res, sim.cellCount s = .ok res →
      ∀ e ∈ res, ¬ beginsWithError e.1 ∧ e.1 ≠ "Error")
    (out : List String) (s : σ) (h : cellExistenceTry sim pgm condition n = .ok (out, s)) :
    cellExistence sim pgm condition n = out ∧ ∀ line ∈ out, ¬ beginsWithError line := by
  have hout : cellExistence sim pgm condition n = out := by
    unfold cellExistence
    rw [h]
    rfl
  refine ⟨hout, ?_⟩
  cases hc : sim.create pgm with
  | error e => simp [cellExistenceTry, hc, bind, Except.bind] at h
  | ok s₀ =>
    rw [cellExistenceTry_of_create sim pgm condition n s₀ hc] at h
    cases hl : cellExistenceLoop sim condition n s₀ [] with
    | error e =>
      rw [hl] at h
      cases h
    | ok r =>
      obtain ⟨total, s'⟩ := r
      rw [hl] at h
      simp only [Except.bind, Except.ok.injEq, Prod.mk.injEq] at h
      have hkeys := cellExistenceLoop_keys sim condition
        (fun name => ¬ beginsWithError name ∧ name ≠ "Error") hcount n s₀ [] total s' hl
        (by simp)
      rw [← h.1]
      intro line hline
      obtain ⟨e, he, rfl⟩ := List.mem_map.mp hline
      exact not_beginsWithError_count_line e.1 e.2 (hkeys e he).1 (hkeys e he).2

theorem simulateAbnormal_success (sim : Simulation σ α) (pgm : List String)
    (condition : String) (n : Nat)
    (hprograms : ∀ s l, sim.programs s = .ok l → ∀ x ∈ l, ¬ beginsWithError x)
    (htrace : ∀ s l, sim.toVectorString s = .ok l → ∀ x ∈ l, ¬ beginsWithError x)
    (out : List String) (s : σ) (h : simulateAbnormalTry sim pgm condition n = .ok (out, s)) :
    simulateAbnormal sim pgm condition n = out ∧ ∀ line ∈ out, ¬ beginsWithError line := by
  have hout : simulateAbnormal sim pgm condition n = out := by
    unfold simulateAbnormal
    rw [h]
    rfl
  refine ⟨hout, ?_⟩
  cases hc : sim.create pgm with
  | error e => simp [simulateAbnormalTry, hc, bind, Except.bind] at h
  | ok s₀ =>
    rw [simulateAbnormalTry_of_create sim pgm condition n s₀ hc] at h
    cases hp : sim.programs s₀ with
    | error e =>
      rw [hp] at h
      cases h
    | ok progs =>
      rw [hp] at h
      have hl : simulateAbnormalLoop sim condition progs n s₀ = .ok (out, s) := h
      rcases simulateAbnormalLoop_lines sim condition progs n s₀ out s hl with
        rfl | ⟨s'', trace, name, h1, h2, h3⟩
      · intro line hline
        simp only [List.mem_singleton] at hline
        rw [hline]
        exact not_beginsWithError_closing
      · have hname := hprograms s₀ progs hp name h2
        intro line hline
        rcases h3 with rfl | rfl
        · rcases List.mem_append.mp hline with h | h
          · exact htrace s'' trace h1 line h
          · simp only [List.mem_singleton] at h
            rw [h]
            exact not_beginsWithError_not_created name hname
        · rcases List.mem_append.mp hline with h | h
          · exact htrace s'' trace h1 line h
          · simp only [List.mem_singleton] at h
            rw [h]
            exact not_beginsWithError_more_than_once name hname

theorem checkTimeOverlap_success (sim : Simulation σ α) (sqrt : α → α) (fmt : α → String)
    (pgm : List String) (condition firstCell secondCell : String) (n : Nat) (rawData : Bool)
    (hA : ¬ beginsWithError firstCell) (hB : ¬ beginsWithError secondCell)
    (hfmt : ∀ v, ¬ beginsWithError (fmt v))
    (out : Option (List String)) (s : σ)
    (h : checkTimeOverlapTry sim sqrt fmt pgm condition firstCell secondCell n rawData
      = .ok (out, s)) :
    checkTimeOverlap sim sqrt fmt pgm condition firstCell secondCell n rawData = out ∧
    ∃ lines, out = some lines ∧ ∀ line ∈ lines, ¬ beginsWithError line := by
  have hout : checkTimeOverlap sim sqrt fmt pgm condition firstCell secondCell n rawData
      = out := by
    unfold checkTimeOverlap
    rw [h]
  refine ⟨hout, ?_⟩
  rcases checkTimeOverlap_cases sim sqrt fmt pgm condition firstCell secondCell n rawData with
    ⟨err, h1, -⟩ | ⟨results1, results2, s', h1, -⟩
  · rw [h1] at h
    cases h
  · rw [h1] at h
    simp only [Except.ok.injEq, Prod.mk.injEq] at h
    rw [overlapReport_eq] at h
    refine ⟨_, h.1.symm, ?_⟩
    intro line hline
    rcases List.mem_append.mp hline with h2 | h2
    · exact sectionLines_no_marker sqrt fmt rawData _ _ _ hA hfmt line h2
    · exact sectionLines_no_marker sqrt fmt rawData _ _ _ hB hfmt line h2

end SuccessLemmas

section ResponseClaims

variable {σ : Type} {α : Type} [LinearOrderedField α]

/-- C15 as stated fails: with a simulator that never throws and reports the entities "A"
and "Error" once each, the successful call `cellExistence` returns the two lines "A: 1" and
"Error: 1"; the second begins with "Error:" and is not the complete response. -/
theorem cellExistence_returns_error_marker :
    cellExistence errorNamedStub.toSimulation [] "default" 1 = ["A: 1", "Error: 1"] ∧
    beginsWithError "Error: 1" ∧
    "Error: 1" ∈ cellExistence errorNamedStub.toSimulation [] "default" 1 ∧
    cellExistence errorNamedStub.toSimulation [] "default" 1 ≠ ["Error: 1"] := by
  have h : cellExistence errorNamedStub.toSimulation [] "default" 1 = ["A: 1", "Error: 1"] := by
    rw [cellExistence_stub]
    have hfold : List.foldl mergeTable [] (List.map
        (fun i => errorNamedStub.cellCount (errorNamedStub.trialState [] "default" (i + 1)))
        (List.range 1)) = [("A", 1), ("Error", 1)] := by
      simp [errorNamedStub, mergeTable, mergeCount, mapFind, mapInsert]
      decide
    rw [hfold]
    decide
  refine ⟨h, ?_, ?_, ?_⟩
  · unfold beginsWithError
    decide
  · rw [h]
    decide
  · rw [h]
    decide

/-- C15 (amended). For every entry point (`programs`, `conditions`, `simulate`,
`checkTimeOverlap`, `cellExistence`, `simulateAbnormal`), every input and every simulator,
throwing or not: provided that no text supplied by the simulator or the caller (program
name, condition name, line of the event trace, entity name, the two cell names, rendering of
a number) begins with "Error:" and that no entity is named "Error", (1) a line of the
returned sequence that begins with "Error:" is the complete response, and (2) a successful
call, one whose `try` block runs to its `return` without a throw (for `conditions`: the
constructor returns and the program is found), returns the lines the `try` block computed
and none of them begins with "Error:".  The line returned for a thrown message always begins
with "Error:". -/
theorem error_line_is_whole_response (sim : Simulation σ α)
    (lookup : σ → String → Except String (Option (List String))) (sqrt : α → α)
    (fmt : α → String) (pgm : List String) (program condition firstCell secondCell : String)
    (N : Nat) (rawData : Bool)
    (hprograms : ∀ s l, sim.programs s = .ok l → ∀ x ∈ l, ¬ beginsWithError x)
    (hlookup : ∀ s l, lookup s program = .ok (some l) → ∀ x ∈ l, ¬ beginsWithError x)
    (htrace : ∀ s l, sim.toVectorString s = .ok l → ∀ x ∈ l, ¬ beginsWithError x)
    (hcount : ∀ s res, sim.cellCount s = .ok res →
      ∀ e ∈ res, ¬ beginsWithError e.1 ∧ e.1 ≠ "Error")
    (hA : ¬ beginsWithError firstCell) (hB : ¬ beginsWithError secondCell)
    (hfmt : ∀ v, ¬ beginsWithError (fmt v)) :
    ((∀ line ∈ programs sim pgm, beginsWithError line → programs sim pgm = [line]) ∧
      ∀ out s, programsTry sim pgm = .ok (out, s) →
        programs sim pgm = out ∧ ∀ line ∈ out, ¬ beginsWithError line) ∧
    ((∀ line ∈ conditions sim lookup pgm program, beginsWithError line →
        conditions sim lookup pgm program = [line]) ∧
      ∀ s l, sim.create pgm = .ok s → lookup s program = .ok (some l) →
        conditions sim lookup pgm program = l ∧ ∀ line ∈ l, ¬ beginsWithError line) ∧
    ((∀ line ∈ simulate sim pgm condition, beginsWithError line →
        simulate sim pgm condition = [line]) ∧
      ∀ out s, simulateTry sim pgm condition = .ok (out, s) →
        simulate sim pgm condition = out ∧ ∀ line ∈ out, ¬ beginsWithError line) ∧
    ((∃ lines, checkTimeOverlap sim sqrt fmt pgm condition firstCell secondCell N rawData
          = some lines ∧
        ∀ line ∈ lines, beginsWithError line → lines = [line]) ∧
      ∀ out s, checkTimeOverlapTry sim sqrt fmt pgm condition firstCell secondCell N rawData
          = .ok (out, s) →
        checkTimeOverlap sim sqrt fmt pgm condition firstCell secondCell N rawData = out ∧
        ∃ lines, out = some lines ∧ ∀ line ∈ lines, ¬ beginsWithError line) ∧
    ((∀ line ∈ cellExistence sim pgm condition N, beginsWithError line →
        cellExistence sim pgm condition N = [line]) ∧
      ∀ out s, cellExistenceTry sim pgm condition N = .ok (out, s) →
        cellExistence sim pgm condition N = out ∧ ∀ line ∈ out, ¬ beginsWithError line) ∧
    ((∀ line ∈ simulateAbnormal sim pgm condition N, beginsWithError line →
        simulateAbnormal sim pgm condition N = [line]) ∧
      ∀ out s, simulateAbnormalTry sim pgm condition N = .ok (out, s) →
        simulateAbnormal sim pgm condition N = out ∧ ∀ line ∈ out, ¬ beginsWithError line) ∧
    (∀ m, beginsWithError ("Error: " ++ m)) := by
  refine ⟨⟨whole_response_of _ (programs_response sim pgm hprograms),
      programs_success sim pgm hprograms⟩,
    ⟨whole_response_of _ (conditions_response sim lookup pgm program hlookup),
      conditions_success sim lookup pgm program hlookup⟩,
    ⟨whole_response_of _ (simulate_response sim pgm condition htrace),
      simulate_success sim pgm condition htrace⟩,
    ⟨?_, checkTimeOverlap_success sim sqrt fmt pgm condition firstCell secondCell N rawData
      hA hB hfmt⟩,
    ⟨whole_response_of _ (cellExistence_response sim pgm condition N hcount),
      cellExistence_success sim pgm condition N hcount⟩,
    ⟨whole_response_of _ (simulateAbnormal_response sim pgm condition N hprograms htrace),
      simulateAbnormal_success sim pgm condition N hprograms htrace⟩,
    beginsWithError_error_line⟩
  obtain ⟨lines, h1, h2⟩ := checkTimeOverlap_response sim sqrt fmt pgm condition firstCell
    secondCell N rawData hA hB hfmt
  exact ⟨lines, h1, whole_response_of lines h2⟩

/-- Witness for C15: the simulator `boomSim`, whose texts are "P0" and "trace" and whose
second run throws "boom", with the cell names A and B and every number rendered as "0".
With one trial the calls succeed and return no line that begins with "Error:"; with three
trials the second run throws and the line "Error: boom" is the complete response. -/
theorem error_line_is_whole_response_witness :
    (cellExistenceTry boomSim [] "default" 1 = .ok (["P0: 1"], 1) ∧
      cellExistence boomSim [] "default" 1 = ["P0: 1"] ∧
      ∀ line ∈ ["P0: 1"], ¬ beginsWithError line) ∧
    (simulateAbnormalTry boomSim [] "default" 1
        = .ok (["Could not find an abnormal simulation."], 1) ∧
      simulateAbnormal boomSim [] "default" 1 = ["Could not find an abnormal simulation."] ∧
      ∀ line ∈ ["Could not find an abnormal simulation."], ¬ beginsWithError line) ∧
    (programsTry boomSim [] = .ok (["P0"], 0) ∧ programs boomSim [] = ["P0"] ∧
      ∀ line ∈ ["P0"], ¬ beginsWithError line) ∧
    (cellExistence boomSim [] "default" 3 = ["Error: boom"] ∧
      ∀ line ∈ cellExistence boomSim [] "default" 3, beginsWithError line →
        cellExistence boomSim [] "default" 3 = [line]) ∧
    (simulateAbnormal boomSim [] "default" 3 = ["Error: boom"] ∧
      ∀ line ∈ simulateAbnormal boomSim [] "default" 3, beginsWithError line →
        simulateAbnormal boomSim [] "default" 3 = [line]) := by
  have h := fun N => error_line_is_whole_response boomSim (fun _ _ => .ok (some ["default"]))
    (fun x : ℚ => x) (fun _ => "0") [] "P0" "default" "A" "B" N true
    (by
      intro s l hl x hx
      obtain rfl : l = ["P0"] := by
        have : (Except.ok ["P0"] : Except String (List String)) = .ok l := hl
        simpa using this.symm
      obtain rfl : x = "P0" := by simpa using hx
      unfold beginsWithError
      decide)
    (by
      intro s l hl x hx
      obtain rfl : l = ["default"] := by simpa using hl.symm
      obtain rfl : x = "default" := by simpa using hx
      unfold beginsWithError
      decide)
    (by
      intro s l hl x hx
      obtain rfl : l = ["trace"] := by
        have : (Except.ok ["trace"] : Except String (List String)) = .ok l := hl
        simpa using this.symm
      obtain rfl : x = "trace" := by simpa using hx
      unfold beginsWithError
      decide)
    (by
      intro s res hres e he
      obtain rfl : res = [("P0", 1)] := by
        have : (Except.ok [("P0", 1)] : Except String CountMap) = .ok res := hres
        simpa using this.symm
      obtain rfl : e = ("P0", 1) := by simpa using he
      unfold beginsWithError
      decide)
    (by unfold beginsWithError; decide) (by unfold beginsWithError; decide)
    (by
      intro v
      show ¬ beginsWithError "0"
      unfold beginsWithError
      decide)
  have hc1 : cellExistenceTry boomSim [] "default" 1 = .ok (["P0: 1"], 1) := rfl
  have ha1 : simulateAbnormalTry boomSim [] "default" 1
      = .ok (["Could not find an abnormal simulation."], 1) := rfl
  have hp : programsTry boomSim [] = .ok (["P0"], 0) := rfl
  exact ⟨⟨hc1, (h 1).2.2.2.2.1.2 _ _ hc1⟩, ⟨ha1, (h 1).2.2.2.2.2.1.2 _ _ ha1⟩,
    ⟨hp, (h 1).1.2 _ _ hp⟩, ⟨rfl, (h 3).2.2.2.2.1.1⟩, ⟨rfl, (h 3).2.2.2.2.2.1.1⟩⟩

end ResponseClaims

end LineageLib
